import Mathlib

/-!
# Holoscan SDK: operators, resources and the message-passing core

A shallow embedding of the C++ sources of the repository

* `src/core/services/common/forward_op.cpp` (`ForwardOp`),
* `src/core/gxf/gxf_resource.cpp` (`GXFResource`),
* `examples/ping_distributed/cpp/ping_distributed.cpp` (`DummyOp`, `Fragment1`, `Fragment2`),
* `python/holoscan/resources/serialization_buffers.cpp` (`PySerializationBuffer`),

together with models of the collaborators those files call but which live in
headers outside the supplied sources (port buffers, the input and output
contexts, conditions, the scheduler, the graph with its connections, the
serialization buffer).  Every such model says so in its doc comment.
-/

namespace Holoscan

/-! ## Messages and port buffers -/

/-- Modelled from the spec: the message type is declared outside the sources.
A message is "a typed payload": the name of its payload type and the payload
bytes. -/
structure Message where
  type_name : String
  data : List (Fin 256)
deriving DecidableEq, Repr

/-- Modelled from the spec: the connector classes are declared outside the
sources.  The buffer of one connection is a queue that holds "multiple pending
messages up to a configured capacity"; the head of `queue` is the oldest
message. -/
structure PortBuffer where
  capacity : Nat
  queue : List Message
deriving DecidableEq, Repr

/-- The buffer has spare capacity. -/
def PortBuffer.hasSpace (b : PortBuffer) : Bool :=
  decide (b.queue.length < b.capacity)

/-- Place a message at the tail of the queue; fails when the buffer is full. -/
def PortBuffer.push (b : PortBuffer) (m : Message) : Option PortBuffer :=
  if b.hasSpace then some { b with queue := b.queue ++ [m] } else none

/-- Take the oldest message off the queue; fails when the buffer is empty. -/
def PortBuffer.pop (b : PortBuffer) : Option (Message × PortBuffer) :=
  match b.queue with
  | [] => none
  | m :: rest => some (m, { b with queue := rest })

/-- Replace the value stored under `name` in an association list. -/
def setEntry {β : Type} (name : String) (v : β) : List (String × β) → List (String × β)
  | [] => []
  | (k, w) :: rest => if k = name then (k, v) :: rest else (k, w) :: setEntry name v rest

/-! ## Input and output contexts -/

/-- Modelled from the spec: `InputContext` is declared in
`holoscan/core/io_context.hpp`, outside the sources.  It gives an operator
access to the buffers of its input ports, by port name. -/
structure InputContext where
  inputs : List (String × PortBuffer)
deriving DecidableEq, Repr

/-- Modelled from the spec: `InputContext.receive(port_name) -> optional<Message>`.
The oldest pending message of the port is removed from its buffer and
returned; the result is empty when the port does not exist or holds no
message. -/
def InputContext.receive (ctx : InputContext) (name : String) :
    Option Message × InputContext :=
  match ctx.inputs.lookup name with
  | none => (none, ctx)
  | some b =>
    match b.pop with
    | none => (none, ctx)
    | some (m, b') => (some m, { inputs := setEntry name b' ctx.inputs })

/-- Outcome of one `emit` call. -/
inductive EmitResult where
  | delivered
  | failedNoSuchPort
  | failedBufferFull
deriving DecidableEq, Repr

/-- One `emit` call as seen from outside: the port, the message and the
outcome. -/
structure EmitRecord where
  port : String
  message : Message
  result : EmitResult
deriving DecidableEq, Repr

/-- Modelled from the spec: `OutputContext` is declared in
`holoscan/core/io_context.hpp`, outside the sources.  Every output port feeds
the buffers of the input ports connected to it ("an output port may fan out to
multiple input ports"); `calls` records the `emit` calls made so far, oldest
first. -/
structure OutputContext where
  outputs : List (String × List PortBuffer)
  calls : List EmitRecord
deriving DecidableEq, Repr

/-- Push a message onto every buffer of a list; fails when one of them is
full. -/
def pushAll (m : Message) : List PortBuffer → Option (List PortBuffer)
  | [] => some []
  | b :: rest =>
    match b.push m, pushAll m rest with
    | some b', some rest' => some (b' :: rest')
    | _, _ => none

/-- Modelled from the spec: `OutputContext.emit(value, port_name)`.  "Runtime
delivery errors (buffer full on emit ...)" are "reported to the calling
operator as a failed operation result" and count as "message not sent": the
message is placed on every downstream buffer of the port, or, when one of
them is full, on none of them and the call reports the failure. -/
def OutputContext.emit (ctx : OutputContext) (m : Message) (name : String) :
    EmitResult × OutputContext :=
  match ctx.outputs.lookup name with
  | none =>
    (.failedNoSuchPort, { ctx with calls := ctx.calls ++ [⟨name, m, .failedNoSuchPort⟩] })
  | some sinks =>
    match pushAll m sinks with
    | some sinks' =>
      (.delivered,
        { outputs := setEntry name sinks' ctx.outputs,
          calls := ctx.calls ++ [⟨name, m, .delivered⟩] })
    | none =>
      (.failedBufferFull, { ctx with calls := ctx.calls ++ [⟨name, m, .failedBufferFull⟩] })

/-! ## Operator specifications -/

/-- Direction of a port (`IOSpec::IOType`). -/
inductive IOType where
  | kInput
  | kOutput
deriving DecidableEq, Repr

/-- Receiver or transmitter type of a port (`IOSpec::ConnectorType`), as listed
in `io_spec_pydoc.hpp`. -/
inductive ConnectorType where
  | kDefault
  | kDoubleBuffer
  | kUCX
deriving DecidableEq, Repr

/-- Kinds of condition that can be added to a port, as listed in
`io_spec_pydoc.hpp`. -/
inductive ConditionType where
  | kNone
  | kMessageAvailable
  | kDownstreamMessageAffordable
  | kCount
  | kBoolean
deriving DecidableEq, Repr

/-- Declared payload type of a port: the `std::any` wildcard or a named type. -/
inductive PayloadType where
  | any
  | named (type_name : String)
deriving DecidableEq, Repr

/-- Modelled from the spec: `IOSpec` is declared outside the sources.  A port
has a name, a direction, a declared payload type, a connector policy (`DEFAULT`
until `connector()` is called) and the conditions added with `condition()`. -/
structure IOSpec where
  name : String
  io_type : IOType
  typeinfo : PayloadType
  connector_type : ConnectorType
  conditions : List ConditionType
deriving DecidableEq, Repr

/-- Modelled from the spec: `OperatorSpec` is declared outside the sources.
It collects what `setup` declares: ports, parameters and conditions. -/
structure OperatorSpec where
  inputs : List IOSpec
  outputs : List IOSpec
  params : List String
  conditions : List ConditionType
deriving DecidableEq, Repr

/-- A specification on which nothing has been declared. -/
def OperatorSpec.empty : OperatorSpec := ⟨[], [], [], []⟩

/-- Declaration `spec.input<T>(name)`: one more input port, with no condition
and no connector chosen. -/
def OperatorSpec.input (spec : OperatorSpec) (T : PayloadType) (name : String) :
    OperatorSpec :=
  { spec with inputs := spec.inputs ++ [⟨name, .kInput, T, .kDefault, []⟩] }

/-- Declaration `spec.output<T>(name)`: one more output port, with no condition
and no connector chosen. -/
def OperatorSpec.output (spec : OperatorSpec) (T : PayloadType) (name : String) :
    OperatorSpec :=
  { spec with outputs := spec.outputs ++ [⟨name, .kOutput, T, .kDefault, []⟩] }

/-! ## `ForwardOp` (forward_op.cpp) -/

/-- Source `ForwardOp::setup`:
`spec.input<std::any>("in"); spec.output<std::any>("out");`. -/
def ForwardOp.setup (spec : OperatorSpec) : OperatorSpec :=
  (spec.input .any "in").output .any "out"

/-- Source `ForwardOp::compute`:
`auto in_message = op_input.receive<std::any>("in");`
`if (in_message) { op_output.emit(in_message.value(), "out"); }`.
The function returns `void`: whatever `emit` reports is not looked at. -/
def ForwardOp.compute (op_input : InputContext) (op_output : OutputContext) :
    InputContext × OutputContext :=
  let (in_message, op_input') := op_input.receive "in"
  match in_message with
  | some value => (op_input', (op_output.emit value "out").2)
  | none => (op_input', op_output)

/-! ## Connectors of a port (io_spec_pydoc.hpp) -/

/-- Modelled from the spec: constructor `IOSpec(op_spec, name, io_type)`, of
which the sources hold the documentation only (`io_spec_pydoc.hpp`).  No
condition has been added and `connector()` has not been called: "If this
method is not been called, the IOSpec's `connector_type` will be
`ConnectorType.DEFAULT`". -/
def IOSpec.new (name : String) (io_type : IOType) (typeinfo : PayloadType) : IOSpec :=
  ⟨name, io_type, typeinfo, .kDefault, []⟩

/-- Modelled from the spec: method `IOSpec.condition(kind, **kwargs)`, "Add a
condition to this input/output"; it returns the port itself. -/
def IOSpec.condition (io : IOSpec) (kind : ConditionType) : IOSpec :=
  { io with conditions := io.conditions ++ [kind] }

/-- Modelled from the spec: method `IOSpec.connector(kind, **kwargs)`, "Add a
connector (transmitter or receiver) to this input/output"; it returns the port
itself. -/
def IOSpec.connector (io : IOSpec) (kind : ConnectorType) : IOSpec :=
  { io with connector_type := kind }

/-- The receiver and transmitter resources a port can end up with. -/
inductive ConnectorResource where
  | DoubleBufferReceiver
  | DoubleBufferTransmitter
  | AnnotatedDoubleBufferReceiver
  | AnnotatedDoubleBufferTransmitter
  | UcxReceiver
  | UcxTransmitter
deriving DecidableEq, Repr

/-- The resource is a double-buffered one, annotated or not. -/
def ConnectorResource.isDoubleBuffered : ConnectorResource → Bool
  | .DoubleBufferReceiver => true
  | .DoubleBufferTransmitter => true
  | .AnnotatedDoubleBufferReceiver => true
  | .AnnotatedDoubleBufferTransmitter => true
  | _ => false

/-- The resource is a receiver. -/
def ConnectorResource.isReceiver : ConnectorResource → Bool
  | .DoubleBufferReceiver => true
  | .AnnotatedDoubleBufferReceiver => true
  | .UcxReceiver => true
  | _ => false

/-- Modelled from the spec: the resource a port's connector type results in,
after the documentation of `IOSpec.connector` in `io_spec_pydoc.hpp`:
`DEFAULT` "will result in a DoubleBuffered receiver or or transmitter being
used (or their annotated variant if flow tracking is enabled)"; for
`DOUBLE_BUFFER`, "a `holoscan.resources.DoubleBufferReceiver` will be used for
an input port and a `holoscan.resources.DoubleBufferTransmitter` will be used
for an output port"; `UCX` gives the network-backed pair. -/
def IOSpec.resolveConnector (io : IOSpec) (flow_tracking : Bool) : ConnectorResource :=
  match io.connector_type, io.io_type with
  | .kDefault, .kInput =>
    if flow_tracking then .AnnotatedDoubleBufferReceiver else .DoubleBufferReceiver
  | .kDefault, .kOutput =>
    if flow_tracking then .AnnotatedDoubleBufferTransmitter else .DoubleBufferTransmitter
  | .kDoubleBuffer, .kInput => .DoubleBufferReceiver
  | .kDoubleBuffer, .kOutput => .DoubleBufferTransmitter
  | .kUCX, .kInput => .UcxReceiver
  | .kUCX, .kOutput => .UcxTransmitter

/-! ## Arguments, parameters and the GXF runtime (gxf_resource.cpp) -/

/-- Decimal rendering of a natural number, as `fmt::format("{}", n)` prints it. -/
def natToDec (n : Nat) : String := String.mk (Nat.toDigits 10 n)

/-- Decimal rendering of a signed integer, as `fmt::format("{}", i)` prints it. -/
def intToDec (i : Int) : String :=
  if i < 0 then "-" ++ natToDec i.natAbs else natToDec i.natAbs

/-- Value carried by an `Arg` or held by a parameter.  `handle` stands for a
shared pointer to another resource (an allocator, say). -/
inductive ArgValue where
  | int32 (v : Int)
  | int64 (v : Int)
  | size (v : Nat)
  | str (v : String)
  | handle (v : Nat)
deriving DecidableEq, Repr

/-- Named argument `Arg{name, value}`. -/
structure Arg where
  name : String
  value : ArgValue
deriving DecidableEq, Repr

/-- Declared parameter: `ParameterWrapper` around a `Parameter<T>`, which may or
may not hold a value.  The constructor is the declared type `T`. -/
inductive ParameterWrapper where
  | int32 (value : Option Int)
  | int64 (value : Option Int)
  | size (value : Option Nat)
  | str (value : Option String)
  | handle (value : Option Nat)
deriving DecidableEq, Repr

/-- Modelled from the spec: `ArgumentSetter::set_param` is defined outside the
sources.  "Resolved parameters arrive as name/typed-value pairs": an argument
of the declared type becomes the value of the parameter, another one leaves it
as it was. -/
def ArgumentSetter.set_param : ParameterWrapper → Arg → ParameterWrapper
  | .int32 _, ⟨_, .int32 v⟩ => .int32 (some v)
  | .int64 _, ⟨_, .int64 v⟩ => .int64 (some v)
  | .size _, ⟨_, .size v⟩ => .size (some v)
  | .str _, ⟨_, .str v⟩ => .str (some v)
  | .handle _, ⟨_, .handle v⟩ => .handle (some v)
  | param_wrap, _ => param_wrap

/-- Executor of a fragment: whether it is a `GXFExecutor`, and its GXF
context. -/
structure Executor where
  is_gxf : Bool
  context : Nat
deriving DecidableEq, Repr

/-- What a component sees of the fragment it belongs to. -/
structure FragmentHandle where
  name : String
  executor : Executor
deriving DecidableEq, Repr

/-- Component specification `ComponentSpec`: the declared parameters by name
(an `unordered_map` in the source; the list order is its iteration order). -/
structure ComponentSpec where
  fragment : Option FragmentHandle
  params : List (String × ParameterWrapper)
deriving DecidableEq, Repr

/-- Resource type `Resource::ResourceType`. -/
inductive ResourceType where
  | kNative
  | kGXF
deriving DecidableEq, Repr

/-- Severity of a log line. -/
inductive LogLevel where
  | trace
  | debug
  | warn
  | error
deriving DecidableEq, Repr

/-- What `GXFResource::initialize` does to the world outside the resource, in
the order it does it: log lines, calls into base classes, parameter
assignments on the specification, and calls into the GXF runtime. -/
inductive Event where
  | log (level : LogLevel) (msg : String)
  | resourceInitialize
  | gxfCreateEntity
  | gxfInitialize (eid : Int) (cname : String)
  | setSpecParam (arg : Arg)
  | gxfComponentTypeId (type_name : String)
  | gxfComponentFind (eid : Int) (tid : Option Nat) (cname : String)
  | addEntityGroup (name : String)
  | createGpuDeviceEntity (name : String)
  | createGpuDeviceComponent (eid : Int) (name : String) (device_id : Int)
  | gxfUpdateEntityGroup (gid : Int) (eid : Int)
  | gxfSetParam (cid : Int) (key : String)
deriving DecidableEq, Repr

/-- The event is a call into the GXF runtime. -/
def Event.isGxfCall : Event → Bool
  | .log _ _ => false
  | .resourceInitialize => false
  | .setSpecParam _ => false
  | _ => true

/-- The event sets a parameter, on the specification or on the GXF
component. -/
def Event.isParamSet : Event → Bool
  | .setSpecParam _ => true
  | .gxfSetParam _ _ => true
  | _ => false

/-- Answers of the GXF runtime, which is outside the sources: what each call
that `GXFResource::initialize` makes returns. -/
structure GxfRuntime where
  /-- `GxfCreateEntity`: the new entity id, or nothing when the call fails. -/
  createEntity : Option Int
  /-- `GXFComponent::gxf_initialize`: the component id obtained for the entity
  and component name. -/
  componentAdd : Int → String → Int
  /-- `GxfComponentTypeId`: the type id, or the error code. -/
  componentTypeId : String → Except Int Nat
  /-- `GxfComponentFind` succeeds. -/
  componentFind : Int → Option Nat → String → Bool
  /-- `add_entity_group`: the id of the new group. -/
  addEntityGroup : String → Int
  /-- `create_gpu_device_entity`: the id of the new entity. -/
  createGpuDeviceEntity : String → Int
  /-- `GxfUpdateEntityGroup` succeeds. -/
  updateEntityGroup : Int → Int → Bool
  /-- `GXFParameterAdaptor::set_param` succeeds. -/
  setParam : Int → String → Bool

/-- How a call ended. -/
inductive Outcome where
  | returned
  | thrown (what : String)
  | aborted (what : String)
deriving DecidableEq, Repr

/-- Modelled from the spec: macro `HOLOSCAN_GXF_CALL` is defined in
`gxf_utils.hpp`, outside the sources, and the spec does not describe it.  Its
use in `gxf_resource.cpp` shows what it does: the statement after the call is
`// TODO: handle error`, and the calls that must not fail are wrapped in
`HOLOSCAN_GXF_CALL_FATAL` instead.  It logs a failed call and execution goes
on. -/
def HOLOSCAN_GXF_CALL (stmt : String) (success : Bool) : List Event :=
  if success then [] else [.log .error ("GXF call " ++ stmt ++ " failed")]

/-- Modelled from the spec: macro `HOLOSCAN_GXF_CALL_FATAL` is defined in
`gxf_utils.hpp`, outside the sources.  It logs a failed call and throws. -/
def HOLOSCAN_GXF_CALL_FATAL (stmt : String) (success : Bool) : List Event × Outcome :=
  if success then ([], .returned)
  else ([.log .error ("GXF call " ++ stmt ++ " failed")], .thrown ("GXF call " ++ stmt ++ " failed"))

/-- Modelled from the spec: macro `GXF_ASSERT_SUCCESS` belongs to GXF, outside
the sources.  A failed call aborts the process. -/
def GXF_ASSERT_SUCCESS (stmt : String) (success : Bool) : Outcome :=
  if success then .returned else .aborted (stmt ++ " did not succeed")

/-- The fields of `GXFResource` (with those of its bases `Resource` and
`GXFComponent`) that `initialize` reads or writes. -/
structure GXFResource where
  name_ : String
  id_ : Int
  is_initialized_ : Bool
  resource_type_ : ResourceType
  fragment_ : Option FragmentHandle
  spec_ : Option ComponentSpec
  args_ : List Arg
  gxf_context_ : Option Nat
  gxf_eid_ : Int
  gxf_cid_ : Int
  gxf_cname_ : String
deriving DecidableEq, Repr

/-- Result of one call of `GXFResource::initialize`: the resource afterwards,
the function-local static `allocator_tid` afterwards, what was done, and how
the call ended. -/
structure InitResult where
  resource : GXFResource
  allocator_tid : Option Nat
  events : List Event
  outcome : Outcome
deriving DecidableEq, Repr

/-- The first loop of `GXFResource::initialize` ("Set arguments"): every
argument whose name is a declared parameter is assigned to that parameter with
`ArgumentSetter::set_param`; for every other argument a warning is logged and
the argument is skipped. -/
def GXFResource.setArguments (name : String) :
    List (String × ParameterWrapper) → List Arg → List (String × ParameterWrapper) × List Event
  | params, [] => (params, [])
  | params, arg :: rest =>
    match params.lookup arg.name with
    | none =>
      let (params', events) := GXFResource.setArguments name params rest
      (params', .log .warn ("Argument '" ++ arg.name ++ "' is not defined in spec") :: events)
    | some param_wrap =>
      let (params', events) := GXFResource.setArguments name
        (setEntry arg.name (ArgumentSetter.set_param param_wrap arg) params) rest
      (params',
        .log .trace ("GXFResource '" ++ name ++ "':: setting argument '" ++ arg.name ++ "'")
          :: .setSpecParam arg :: events)

/-- Name of the entity group made for `dev_id`:
`fmt::format("{}_eid{}_dev_id{}_group", name(), gxf_eid_, device_id)`. -/
def GXFResource.entity_group_name (name : String) (gxf_eid : Int) (device_id : Int) : String :=
  name ++ "_eid" ++ intToDec gxf_eid ++ "_dev_id" ++ intToDec device_id ++ "_group"

/-- Name of the GPU-device entity:
`fmt::format("{}_eid{}_gpu_device_id{}_entity", name(), gxf_eid_, device_id)`. -/
def GXFResource.device_entity_name (name : String) (gxf_eid : Int) (device_id : Int) : String :=
  name ++ "_eid" ++ intToDec gxf_eid ++ "_gpu_device_id" ++ intToDec device_id ++ "_entity"

/-- Name of the GPU-device component:
`fmt::format("{}_eid{}_gpu_device_id{}_component", name(), gxf_eid_, device_id)`. -/
def GXFResource.device_component_name (name : String) (gxf_eid : Int) (device_id : Int) :
    String :=
  name ++ "_eid" ++ intToDec gxf_eid ++ "_gpu_device_id" ++ intToDec device_id ++ "_component"

/-- The `dev_id` branch of the second loop, entered when the resource is an
`nvidia::gxf::Allocator` and `dev_id` has the value `device_id`: an entity
group is created, a GPU-device entity with its component is created, and the
resource's entity and the device entity are added to the group. -/
def GXFResource.handleDevId (rt : GxfRuntime) (r : GXFResource) (device_id : Int) :
    List Event × Outcome :=
  let entity_group_name := GXFResource.entity_group_name r.name_ r.gxf_eid_ device_id
  let entity_group_gid := rt.addEntityGroup entity_group_name
  let device_entity_name := GXFResource.device_entity_name r.name_ r.gxf_eid_ device_id
  let device_component_name := GXFResource.device_component_name r.name_ r.gxf_eid_ device_id
  let gpu_device_eid := rt.createGpuDeviceEntity device_entity_name
  let events : List Event :=
    [.addEntityGroup entity_group_name,
     .createGpuDeviceEntity device_entity_name,
     .log .debug (device_entity_name ++ " eid = " ++ intToDec gpu_device_eid),
     .createGpuDeviceComponent gpu_device_eid device_component_name device_id,
     .log .debug ("Adding GPUDevice with id " ++ intToDec device_id
        ++ " to entity group containing resource '" ++ r.name_ ++ "'"),
     .gxfUpdateEntityGroup entity_group_gid r.gxf_eid_]
  match GXF_ASSERT_SUCCESS "GxfUpdateEntityGroup" (rt.updateEntityGroup entity_group_gid r.gxf_eid_) with
  | .returned =>
    (events ++ [.gxfUpdateEntityGroup entity_group_gid gpu_device_eid],
      GXF_ASSERT_SUCCESS "GxfUpdateEntityGroup"
        (rt.updateEntityGroup entity_group_gid gpu_device_eid))
  | outcome => (events, outcome)

/-- Forwarding of one parameter to the GXF component: the statement
`HOLOSCAN_GXF_CALL(GXFParameterAdaptor::set_param(...))` followed by the trace
line that ends the body of the second loop. -/
def GXFResource.forwardParam (rt : GxfRuntime) (r : GXFResource) (key : String) : List Event :=
  [.gxfSetParam r.gxf_cid_ key]
    ++ HOLOSCAN_GXF_CALL "GXFParameterAdaptor::set_param" (rt.setParam r.gxf_cid_ key)
    ++ [.log .trace ("GXFResource '" ++ r.name_ ++ "':: setting GXF parameter '" ++ key ++ "'")]

/-- One pass through the body of the second loop of `GXFResource::initialize`
("Set Handler parameters"), for the parameter `key`.  The result is the static
`allocator_tid` afterwards, what was done, and how the pass ended. -/
def GXFResource.setHandlerParam (rt : GxfRuntime) (r : GXFResource)
    (allocator_tid : Option Nat) (key : String) (param_wrap : ParameterWrapper) :
    Option Nat × List Event × Outcome :=
  if key = "dev_id" then
    let (tid, events) : Option Nat × List Event :=
      match allocator_tid with
      | some t => (some t, [])
      | none =>
        match rt.componentTypeId "nvidia::gxf::Allocator" with
        | .ok t => (some t, [.gxfComponentTypeId "nvidia::gxf::Allocator"])
        | .error code =>
          (none, [.gxfComponentTypeId "nvidia::gxf::Allocator",
            .log .error ("Unable to get component type id of 'nvidia::gxf::Allocator' : "
              ++ intToDec code)])
    let events := events ++ [.gxfComponentFind r.gxf_eid_ tid r.gxf_cname_]
    if rt.componentFind r.gxf_eid_ tid r.gxf_cname_ then
      let events := events ++ [.log .debug
        ("The dev_id parameter is deprecated by GXF and will be removed from "
          ++ "Holoscan SDK in the future.")]
      match param_wrap with
      | .int32 (some device_id) =>
        match GXFResource.handleDevId rt r device_id with
        | (events', .returned) =>
          (tid, events ++ events' ++ [.log .trace
            ("GXFResource '" ++ r.name_ ++ "':: setting GXF parameter '" ++ key ++ "'")],
            .returned)
        | (events', outcome) => (tid, events ++ events', outcome)
      | .int32 none => (tid, events ++ GXFResource.forwardParam rt r key, .returned)
      | _ => (tid, events, .thrown "bad any_cast")
    else (tid, events ++ GXFResource.forwardParam rt r key, .returned)
  else (allocator_tid, GXFResource.forwardParam rt r key, .returned)

/-- The second loop of `GXFResource::initialize` over the declared parameters.
It stops where a pass throws or aborts. -/
def GXFResource.setHandlerParams (rt : GxfRuntime) (r : GXFResource) :
    Option Nat → List (String × ParameterWrapper) → Option Nat × List Event × Outcome
  | allocator_tid, [] => (allocator_tid, [], .returned)
  | allocator_tid, (key, param_wrap) :: rest =>
    match GXFResource.setHandlerParam rt r allocator_tid key param_wrap with
    | (tid, events, .returned) =>
      let (tid', events', outcome) := GXFResource.setHandlerParams rt r tid rest
      (tid', events ++ events', outcome)
    | stopped => stopped

/-- The start of the part of `GXFResource::initialize` that talks to GXF:
`if (gxf_eid_ == 0) { HOLOSCAN_GXF_CALL_FATAL(GxfCreateEntity(...)); }`.  An
entity is created for the resource only when it has none yet. -/
def GXFResource.createEntityIfUnset (rt : GxfRuntime) (r : GXFResource) :
    GXFResource × Outcome × List Event :=
  if r.gxf_eid_ = 0 then
    match rt.createEntity with
    | some eid =>
      ({ r with gxf_eid_ := eid }, (HOLOSCAN_GXF_CALL_FATAL "GxfCreateEntity" true).2,
        [Event.gxfCreateEntity] ++ (HOLOSCAN_GXF_CALL_FATAL "GxfCreateEntity" true).1)
    | none =>
      (r, (HOLOSCAN_GXF_CALL_FATAL "GxfCreateEntity" false).2,
        [Event.gxfCreateEntity] ++ (HOLOSCAN_GXF_CALL_FATAL "GxfCreateEntity" false).1)
  else (r, .returned, [])

/-- The end of `GXFResource::initialize`, reached when the resource has the
component specification `spec`: the two loops ("Set arguments", "Set Handler
parameters") and the assignment `is_initialized_ = true`, which is reached
when the second loop has run through.  `events` is what was done before. -/
def GXFResource.setParameters (rt : GxfRuntime) (allocator_tid : Option Nat) (r : GXFResource)
    (spec : ComponentSpec) (events : List Event) : InitResult :=
  let (params, events') := GXFResource.setArguments r.name_ spec.params r.args_
  let r := { r with spec_ := some { spec with params := params } }
  match GXFResource.setHandlerParams rt r allocator_tid params with
  | (tid, events'', .returned) =>
    ⟨{ r with is_initialized_ := true }, tid, events ++ events' ++ events'', .returned⟩
  | (tid, events'', outcome) => ⟨r, tid, events ++ events' ++ events'', outcome⟩

/-- Source `GXFResource::initialize`.  `rt` answers the calls into the GXF
runtime and `allocator_tid` is the value of the function-local static of that
name when the call starts.

`Resource::initialize()` and `GXFComponent::gxf_initialize()` are defined
outside the sources: the first is recorded as an event and changes none of the
fields kept here, the second is recorded as an event and stores the component
id the runtime hands out in `gxf_cid_`.  A null `fragment()` makes the call
abort. -/
def GXFResource.initialize (rt : GxfRuntime) (allocator_tid : Option Nat) (r : GXFResource) :
    InitResult :=
  if r.is_initialized_ then
    ⟨r, allocator_tid,
      [.log .debug ("GXFResource '" ++ r.name_ ++ "' is already initialized. Skipping...")],
      .returned⟩
  else
    let r := { r with resource_type_ := .kGXF }
    match r.fragment_ with
    | none => ⟨r, allocator_tid, [.resourceInitialize], .aborted "fragment() is null"⟩
    | some fragment =>
      if !fragment.executor.is_gxf then
        ⟨r, allocator_tid,
          [.resourceInitialize, .log .error
            ("GXFResource '" ++ r.name_ ++ "' is not initialized with a GXFExecutor")],
          .returned⟩
      else
        let r := { r with gxf_context_ := some fragment.executor.context }
        match GXFResource.createEntityIfUnset rt r with
        | (r, .returned, events) =>
          let r := { r with gxf_cname_ := r.name_ }
          let r := { r with gxf_cid_ := rt.componentAdd r.gxf_eid_ r.gxf_cname_ }
          let events := [Event.resourceInitialize] ++ events
            ++ [.gxfInitialize r.gxf_eid_ r.gxf_cname_]
          let r := { r with id_ := r.gxf_cid_ }
          match r.spec_ with
          | none =>
            ⟨r, allocator_tid,
              events ++ [.log .error ("No component spec for GXFResource '" ++ r.name_ ++ "'")],
              .returned⟩
          | some spec => GXFResource.setParameters rt allocator_tid r spec events
        | (r, outcome, events) =>
          ⟨r, allocator_tid, [Event.resourceInitialize] ++ events, outcome⟩

/-! ## Reading the events of `GXFResource::initialize` -/

/-- The parameter name of a `GXFParameterAdaptor::set_param` call. -/
def Event.forwardedKey : Event → Option String
  | .gxfSetParam _ key => some key
  | _ => none

/-- The name of an entity group created with `add_entity_group`. -/
def Event.createdGroup : Event → Option String
  | .addEntityGroup name => some name
  | _ => none

/-- The entity and the device id of a GPU-device component created with
`create_gpu_device_component`. -/
def Event.createdDevice : Event → Option (Int × Int)
  | .createGpuDeviceComponent eid _ device_id => some (eid, device_id)
  | _ => none

/-- The group and the entity of a `GxfUpdateEntityGroup` call. -/
def Event.groupMember : Event → Option (Int × Int)
  | .gxfUpdateEntityGroup gid eid => some (gid, eid)
  | _ => none

/-- The type id of `nvidia::gxf::Allocator` that the `dev_id` branch works
with: the static `allocator_tid` when it is set, and otherwise what
`GxfComponentTypeId` returns, which is nothing when that call fails. -/
def GXFResource.resolvedAllocatorTid (rt : GxfRuntime) (allocator_tid : Option Nat) :
    Option Nat :=
  match allocator_tid with
  | some t => some t
  | none =>
    match rt.componentTypeId "nvidia::gxf::Allocator" with
    | .ok t => some t
    | .error _ => none

/-- The device id of a parameter that is handled by the `dev_id` branch: the
parameter is named "dev_id", `GxfComponentFind` finds the resource's component
as an `nvidia::gxf::Allocator`, and the parameter holds a value. -/
def GXFResource.handledDevId (rt : GxfRuntime) (r : GXFResource) (allocator_tid : Option Nat)
    (param : String × ParameterWrapper) : Option Int :=
  if param.1 = "dev_id"
      ∧ rt.componentFind r.gxf_eid_ (GXFResource.resolvedAllocatorTid rt allocator_tid)
          r.gxf_cname_ = true then
    match param.2 with
    | .int32 (some device_id) => some device_id
    | _ => none
  else none

/-- The `GxfUpdateEntityGroup` calls that the `dev_id` branch makes for the
device ids `ds`: for each, the resource's entity and the new GPU-device entity
are added to the new group. -/
def GXFResource.groupMembers (rt : GxfRuntime) (r : GXFResource) : List Int → List (Int × Int)
  | [] => []
  | d :: ds =>
    (rt.addEntityGroup (GXFResource.entity_group_name r.name_ r.gxf_eid_ d), r.gxf_eid_)
      :: (rt.addEntityGroup (GXFResource.entity_group_name r.name_ r.gxf_eid_ d),
          rt.createGpuDeviceEntity (GXFResource.device_entity_name r.name_ r.gxf_eid_ d))
      :: GXFResource.groupMembers rt r ds

/-- What the events `events` show when they come from passes of the second
loop of `GXFResource::initialize` over the parameters `params`: one
`set_param` call for every parameter that the `dev_id` branch does not handle,
in order; and for every parameter it handles one new entity group, one new
GPU-device component with that device id, and the two additions to the
group. -/
def GXFResource.forwardsParams (rt : GxfRuntime) (r : GXFResource) (allocator_tid : Option Nat)
    (params : List (String × ParameterWrapper)) (events : List Event) : Prop :=
  events.filterMap Event.forwardedKey
    = (params.filter (fun p => (GXFResource.handledDevId rt r allocator_tid p).isNone)).map
        Prod.fst ∧
  events.filterMap Event.createdGroup
    = (params.filterMap (GXFResource.handledDevId rt r allocator_tid)).map
        (GXFResource.entity_group_name r.name_ r.gxf_eid_) ∧
  events.filterMap Event.createdDevice
    = (params.filterMap (GXFResource.handledDevId rt r allocator_tid)).map
        (fun d => (rt.createGpuDeviceEntity
          (GXFResource.device_entity_name r.name_ r.gxf_eid_ d), d)) ∧
  events.filterMap Event.groupMember
    = GXFResource.groupMembers rt r
        (params.filterMap (GXFResource.handledDevId rt r allocator_tid))

/-! ## Conditions -/

/-- Modelled from the spec: the condition classes are declared outside the
sources.  A condition is one of the five kinds of the spec's condition state
machine with its kind-specific state: `count` carries the configured bound and
the internal execution counter, `messageAvailable` the configured minimum
number of messages, `boolean` the externally set flag. -/
inductive Condition where
  | noCondition
  | count (bound : Int) (executed : Nat)
  | messageAvailable (min_size : Nat)
  | downstreamMessageAffordable
  | boolean (flag : Bool)
deriving DecidableEq, Repr

/-- The kind of a condition. -/
def Condition.kind : Condition → ConditionType
  | .noCondition => .kNone
  | .count _ _ => .kCount
  | .messageAvailable _ => .kMessageAvailable
  | .downstreamMessageAffordable => .kDownstreamMessageAffordable
  | .boolean _ => .kBoolean

/-- Modelled from the spec: the readiness predicate of a condition, evaluated
against what it governs: `pending` is the number of messages in the buffer of
the governed input port and `sinks` are the buffers of the downstream input
ports fed by the governed output port.
`NONE`: always ready.  `COUNT`: "ready while an internal execution counter is
below a configured bound".  `MESSAGE_AVAILABLE`: "ready iff the governed input
port's buffer holds at least one message (optionally, at least a configured
minimum count)".  `DOWNSTREAM_MESSAGE_AFFORDABLE`: "ready iff every downstream
input port fed by the governed output port has spare buffer capacity".
`BOOLEAN`: "ready iff an externally-set boolean flag is true". -/
def Condition.ready (c : Condition) (pending : Nat) (sinks : List PortBuffer) : Bool :=
  match c with
  | .noCondition => true
  | .count bound executed => decide ((executed : Int) < bound)
  | .messageAvailable min_size => decide (0 < pending ∧ min_size ≤ pending)
  | .downstreamMessageAffordable => sinks.all PortBuffer.hasSpace
  | .boolean flag => flag

/-- Modelled from the spec: the effect on a condition of one execution of its
operator.  The counter of a `COUNT` condition is "incremented toward the
bound on each tick attributed to its operator"; the other kinds keep no
count. -/
def Condition.tick : Condition → Condition
  | .count bound executed => .count bound (executed + 1)
  | c => c

/-- Constructor `make_condition<CountCondition>(count)`: a `COUNT` condition
with the given bound and a counter at zero. -/
def make_condition_CountCondition (count : Int) : Condition := .count count 0

/-! ## `DummyOp` and the fragments of ping_distributed.cpp -/

/-- Value of a C++ `int` after an arithmetic result `x`: 32 bits, two's
complement. -/
def wrapInt32 (x : Int) : Int := (x + 2147483648) % 4294967296 - 2147483648

/-- Source class `DummyOp`: the member `int index_ = 1`, and the lines it has
written with `HOLOSCAN_LOG_INFO`. -/
structure DummyOp where
  index_ : Int
  log : List String
deriving DecidableEq, Repr

/-- Default construction `DummyOp() = default`. -/
def DummyOp.new : DummyOp := ⟨1, []⟩

/-- Source `DummyOp::setup`: the body is empty. -/
def DummyOp.setup (spec : OperatorSpec) : OperatorSpec := spec

/-- Source `DummyOp::compute`:
`HOLOSCAN_LOG_INFO("Execution: {}", index_); sleep(1); index_++;`.
It uses neither context. -/
def DummyOp.compute (op : DummyOp) : DummyOp :=
  { index_ := wrapInt32 (op.index_ + 1),
    log := op.log ++ ["Execution: " ++ intToDec op.index_] }

/-- Source `DummyOp::index`. -/
def DummyOp.index (op : DummyOp) : Int := op.index_

/-- The operator classes of the sources, with the state an instance keeps. -/
inductive OperatorKind where
  | dummyOp (op : DummyOp)
  | forwardOp
deriving DecidableEq, Repr

/-- Modelled from the spec: `Operator` is declared outside the sources.  An
operator in a graph has a name, its own conditions, the conditions attached to
its input and output ports (by port name), and the contexts through which its
`compute` reaches the buffers of its input ports and the buffers its output
ports feed. -/
structure OperatorNode where
  name : String
  kind : OperatorKind
  conditions : List Condition
  input_conditions : List (String × Condition)
  output_conditions : List (String × Condition)
  op_input : InputContext
  op_output : OutputContext
deriving DecidableEq, Repr

/-- Number of messages pending on an input port. -/
def OperatorNode.pending (n : OperatorNode) (port : String) : Nat :=
  match n.op_input.inputs.lookup port with
  | some b => b.queue.length
  | none => 0

/-- The downstream buffers fed by an output port. -/
def OperatorNode.sinks (n : OperatorNode) (port : String) : List PortBuffer :=
  match n.op_output.outputs.lookup port with
  | some sinks => sinks
  | none => []

/-- Modelled from the spec: the scheduler's admission test.  "An Operator is
ready to execute only if ALL of its own Conditions and ALL of its ports'
Conditions are ready (logical AND)." -/
def OperatorNode.ready (n : OperatorNode) : Bool :=
  n.conditions.all (fun c => c.ready 0 [])
    && n.input_conditions.all (fun pc => pc.2.ready (n.pending pc.1) [])
    && n.output_conditions.all (fun pc => pc.2.ready 0 (n.sinks pc.1))

/-- Modelled from the spec: one execution of an operator: its `compute` runs
once on its contexts, and every condition of the operator and of its ports
takes note of the execution. -/
def OperatorNode.execute (n : OperatorNode) : OperatorNode :=
  let conditions := n.conditions.map Condition.tick
  let input_conditions := n.input_conditions.map (fun pc => (pc.1, pc.2.tick))
  let output_conditions := n.output_conditions.map (fun pc => (pc.1, pc.2.tick))
  match n.kind with
  | .dummyOp op =>
    { n with kind := .dummyOp op.compute, conditions := conditions,
             input_conditions := input_conditions, output_conditions := output_conditions }
  | .forwardOp =>
    let (op_input, op_output) := ForwardOp.compute n.op_input n.op_output
    { n with conditions := conditions, input_conditions := input_conditions,
             output_conditions := output_conditions,
             op_input := op_input, op_output := op_output }

/-- Call `make_operator<DummyOp>(name, condition)`: a default-constructed
`DummyOp`, set up on an empty specification (which declares no port), with the
given condition as its own. -/
def make_operator_DummyOp (name : String) (condition : Condition) : OperatorNode :=
  { name := name, kind := .dummyOp DummyOp.new, conditions := [condition],
    input_conditions := [], output_conditions := [],
    op_input := ⟨(DummyOp.setup OperatorSpec.empty).inputs.map
      (fun io => (io.name, ⟨0, []⟩))⟩,
    op_output := ⟨(DummyOp.setup OperatorSpec.empty).outputs.map
      (fun io => (io.name, [])), []⟩ }

/-- Modelled from the spec: `Fragment` is declared outside the sources.  A
fragment owns its operators, in the order they were added. -/
structure Fragment where
  name : String
  operators : List OperatorNode
deriving DecidableEq, Repr

/-- Call `add_operator(op)`. -/
def Fragment.add_operator (f : Fragment) (op : OperatorNode) : Fragment :=
  { f with operators := f.operators ++ [op] }

/-- Source `Fragment1::compose`, for a fragment constructed with `count`:
`auto tx = make_operator<DummyOp>("tx", make_condition<CountCondition>(count_));`
`add_operator(tx);`. -/
def Fragment1.compose (name : String) (count_ : Int) : Fragment :=
  let tx := make_operator_DummyOp "tx" (make_condition_CountCondition count_)
  Fragment.add_operator ⟨name, []⟩ tx

/-- Source `Fragment2::compose`:
`auto rx = make_operator<DummyOp>("rx", make_condition<CountCondition>(5));`
`add_operator(rx);`. -/
def Fragment2.compose (name : String) : Fragment :=
  let rx := make_operator_DummyOp "rx" (make_condition_CountCondition 5)
  Fragment.add_operator ⟨name, []⟩ rx

/-! ## Scheduler -/

/-- Modelled from the spec: the scheduler classes are declared outside the
sources.  "Policy is pluggable across at least two shapes: a single-threaded
greedy scheduler that, each iteration, scans all operators in a deterministic
... order and invokes every currently-ready one; and a multi-threaded ...
scheduler that dispatches ready operators concurrently up to a worker-pool
bound". -/
inductive Scheduler where
  | greedy
  | multiThread (worker_thread_number : Nat)
deriving DecidableEq, Repr

/-- Number of threads that run operators. -/
def Scheduler.threads : Scheduler → Nat
  | .greedy => 1
  | .multiThread worker_thread_number => worker_thread_number

/-- Number of operators the scheduler may dispatch in one iteration over
`n` operators: all of them for the greedy scheduler, one per worker for the
multi-threaded one. -/
def Scheduler.budget : Scheduler → Nat → Nat
  | .greedy, n => n
  | .multiThread worker_thread_number, _ => worker_thread_number

/-- One scan over the operators in declaration order: an operator that is
ready when the scan reaches it is executed, as long as the budget lasts.  The
result is the operators afterwards and the names of those executed, in
order. -/
def Scheduler.dispatch : Nat → List OperatorNode → List OperatorNode × List String
  | _, [] => ([], [])
  | 0, ops => (ops, [])
  | budget + 1, op :: rest =>
    if op.ready then
      let (rest', names) := Scheduler.dispatch budget rest
      (op.execute :: rest', op.name :: names)
    else
      let (rest', names) := Scheduler.dispatch (budget + 1) rest
      (op :: rest', names)

/-- One iteration of the scheduler on a fragment. -/
def Scheduler.tick (s : Scheduler) (f : Fragment) : Fragment × List String :=
  let (operators, names) := Scheduler.dispatch (s.budget f.operators.length) f.operators
  ({ f with operators := operators }, names)

/-- The scheduler run for a number of iterations: the fragment afterwards and
the names of the operators whose `compute` was invoked, in order. -/
def Scheduler.run (s : Scheduler) : Nat → Fragment → Fragment × List String
  | 0, f => (f, [])
  | ticks + 1, f =>
    let (f', names) := s.tick f
    let (f'', names') := Scheduler.run s ticks f'
    (f'', names ++ names')

/-- An operator whose only condition is a `COUNT` condition with bound `N` that
has noted `e` executions. -/
def OperatorNode.countOnly (op : OperatorNode) (N : Int) (e : Nat) : Prop :=
  op.conditions = [.count N e] ∧ op.input_conditions = [] ∧ op.output_conditions = []

/-! ## Quiescence -/

/-- Number of executions a condition still admits: the distance of the counter
of a `COUNT` condition from its bound; the other kinds keep no count. -/
def Condition.remaining : Condition → Nat
  | .count bound executed => (bound - (executed : Int)).toNat
  | _ => 0

/-- Executions that the `COUNT` conditions an operator carries as its own
still admit, summed. -/
def OperatorNode.remaining (op : OperatorNode) : Nat :=
  (op.conditions.map Condition.remaining).sum

/-- The remaining executions of the operators of a fragment, summed. -/
def Fragment.remaining (f : Fragment) : Nat :=
  (f.operators.map OperatorNode.remaining).sum

/-- The operator carries a `COUNT` condition as one of its own. -/
def OperatorNode.hasCount (op : OperatorNode) : Prop :=
  ∃ c ∈ op.conditions, c.kind = .kCount

/-! ## Connections -/

/-- Modelled from the spec: a connection "source (operator, output-port-name) →
sink (operator, input-port-name)" with the buffer that carries its messages.
The buffer is what the source reaches through its output context and the sink
through its input context. -/
structure Edge where
  src_port : String
  dst_port : String
  buffer : PortBuffer
deriving DecidableEq, Repr

/-- The output context of the source operator, as far as this connection goes. -/
def Edge.outputContext (e : Edge) : OutputContext := ⟨[(e.src_port, [e.buffer])], []⟩

/-- The input context of the sink operator, as far as this connection goes. -/
def Edge.inputContext (e : Edge) : InputContext := ⟨[(e.dst_port, e.buffer)]⟩

/-- The source operator emits on its port. -/
def Edge.emit (e : Edge) (m : Message) : EmitResult × Edge :=
  let (result, ctx) := e.outputContext.emit m e.src_port
  (result,
    { e with buffer := match ctx.outputs.lookup e.src_port with
                       | some [b] => b
                       | _ => e.buffer })

/-- The sink operator receives on its port. -/
def Edge.receive (e : Edge) : Option Message × Edge :=
  let (in_message, ctx) := e.inputContext.receive e.dst_port
  (in_message,
    { e with buffer := match ctx.inputs.lookup e.dst_port with
                       | some b => b
                       | none => e.buffer })

/-- What happens at the two ends of a connection. -/
inductive EdgeOp where
  | emit (m : Message)
  | receive
deriving DecidableEq, Repr

/-- A connection after a run, with the messages the source emitted
successfully and the messages the sink observed, both oldest first. -/
structure EdgeTrace where
  edge : Edge
  emitted : List Message
  observed : List Message
deriving DecidableEq, Repr

/-- Run a sequence of emits and receives on a connection.  An emit that
reports a failure counts as "message not sent". -/
def Edge.run : Edge → List EdgeOp → EdgeTrace
  | e, [] => ⟨e, [], []⟩
  | e, .emit m :: ops =>
    match e.emit m with
    | (.delivered, e') =>
      let t := Edge.run e' ops
      { t with emitted := m :: t.emitted }
    | (_, e') => Edge.run e' ops
  | e, .receive :: ops =>
    match e.receive with
    | (some m, e') =>
      let t := Edge.run e' ops
      { t with observed := m :: t.observed }
    | (none, e') => Edge.run e' ops

/-- `ForwardOp::compute` invoked a number of times in a row on the same
contexts. -/
def ForwardOp.computeN : Nat → InputContext × OutputContext → InputContext × OutputContext
  | 0, s => s
  | k + 1, s => ForwardOp.computeN k (ForwardOp.compute s.1 s.2)

/-! ## Serialization buffers (serialization_buffers.cpp) -/

/-- Source constructor `PySerializationBuffer(fragment, allocator, buffer_size,
name)`: the base class is constructed with the argument list
`ArgList{Arg{"buffer_size", buffer_size}}`; `if (allocator) add_arg(Arg{"allocator",
allocator})`; then `name_`, `fragment_` and a fresh `ComponentSpec` bound to
the fragment are set and `setup` is called on that specification.
`SerializationBuffer::setup` is defined outside the sources and is the
parameter `setup`; the members the constructor does not touch have the values
of a resource that has not been initialized. -/
def PySerializationBuffer (setup : ComponentSpec → ComponentSpec)
    (fragment : Option FragmentHandle) (allocator : Option Nat) (buffer_size : Nat)
    (name : String) : GXFResource :=
  let args : List Arg := [⟨"buffer_size", .size buffer_size⟩]
  let args : List Arg :=
    match allocator with
    | some a => args ++ [⟨"allocator", .handle a⟩]
    | none => args
  { name_ := name, id_ := -1, is_initialized_ := false, resource_type_ := .kNative,
    fragment_ := fragment, spec_ := some (setup ⟨fragment, []⟩), args_ := args,
    gxf_context_ := none, gxf_eid_ := 0, gxf_cid_ := 0, gxf_cname_ := "" }

/-- Source constructor `PyUcxSerializationBuffer(fragment, allocator,
buffer_size, name)`: the same statements as `PySerializationBuffer`, on the
base class `UcxSerializationBuffer`, whose `setup` is the parameter `setup`. -/
def PyUcxSerializationBuffer (setup : ComponentSpec → ComponentSpec)
    (fragment : Option FragmentHandle) (allocator : Option Nat) (buffer_size : Nat)
    (name : String) : GXFResource :=
  let args : List Arg := [⟨"buffer_size", .size buffer_size⟩]
  let args : List Arg :=
    match allocator with
    | some a => args ++ [⟨"allocator", .handle a⟩]
    | none => args
  { name_ := name, id_ := -1, is_initialized_ := false, resource_type_ := .kNative,
    fragment_ := fragment, spec_ := some (setup ⟨fragment, []⟩), args_ := args,
    gxf_context_ := none, gxf_eid_ := 0, gxf_cid_ := 0, gxf_cname_ := "" }

/-- Modelled from the spec: the buffer component behind a serialization-buffer
resource is implemented outside the sources.  It has a capacity, "a configured
byte size", holds the bytes written so far in the order written, and knows how
far they have been read. -/
structure SerializationBuffer where
  buffer_size : Nat
  data : List (Fin 256)
  read_offset : Nat
deriving DecidableEq, Repr

/-- Modelled from the spec: the buffer component of a resource, empty, with the
value of the resource's `buffer_size` argument as its capacity. -/
def SerializationBuffer.ofResource (r : GXFResource) : Option SerializationBuffer :=
  match r.args_.find? (fun arg => arg.name = "buffer_size") with
  | some ⟨_, .size buffer_size⟩ => some ⟨buffer_size, [], 0⟩
  | _ => none

/-- Modelled from the spec: "reset (clear for reuse)". -/
def SerializationBuffer.reset (b : SerializationBuffer) : SerializationBuffer :=
  { b with data := [], read_offset := 0 }

/-- Modelled from the spec: the "capacity/size query": the number of bytes
held. -/
def SerializationBuffer.size (b : SerializationBuffer) : Nat := b.data.length

/-- Modelled from the spec: the "capacity/size query": the configured byte
size. -/
def SerializationBuffer.capacity (b : SerializationBuffer) : Nat := b.buffer_size

/-- Modelled from the spec: "write (append a typed value, growing or failing if
capacity ... is exceeded)": the bytes of the value are appended; the write
fails when they do not fit. -/
def SerializationBuffer.write (b : SerializationBuffer) (bytes : List (Fin 256)) :
    Option SerializationBuffer :=
  if b.data.length + bytes.length ≤ b.buffer_size then
    some { b with data := b.data ++ bytes }
  else none

/-- Modelled from the spec: "read (extract in the order written)": the next
`n` unread bytes; the read fails when fewer are left. -/
def SerializationBuffer.read (b : SerializationBuffer) (n : Nat) :
    Option (List (Fin 256) × SerializationBuffer) :=
  if b.read_offset + n ≤ b.data.length then
    some ((b.data.drop b.read_offset).take n, { b with read_offset := b.read_offset + n })
  else none

/-- Layout of a payload of a fixed-layout type: the type and its size in
bytes. -/
structure PayloadLayout where
  type_name : String
  size : Nat
deriving DecidableEq, Repr

/-- The layout of the payload of a message. -/
def Message.layout (m : Message) : PayloadLayout := ⟨m.type_name, m.data.length⟩

/-- Modelled from the spec: "the message is serialized into a buffer before
transmission": the payload bytes are written to the buffer. -/
def serialize (m : Message) (b : SerializationBuffer) : Option SerializationBuffer :=
  b.write m.data

/-- Modelled from the spec: the message is "deserialized on receipt": the
bytes of a payload of the expected layout are read from the buffer. -/
def deserialize (layout : PayloadLayout) (b : SerializationBuffer) :
    Option (Message × SerializationBuffer) :=
  match b.read layout.size with
  | some (bytes, b') => some (⟨layout.type_name, bytes⟩, b')
  | none => none

/-- Serialize messages one after the other. -/
def serializeAll : List Message → SerializationBuffer → Option SerializationBuffer
  | [], b => some b
  | m :: ms, b =>
    match serialize m b with
    | some b' => serializeAll ms b'
    | none => none

/-- Deserialize messages of the given layouts one after the other. -/
def deserializeAll : List PayloadLayout → SerializationBuffer →
    Option (List Message × SerializationBuffer)
  | [], b => some ([], b)
  | layout :: layouts, b =>
    match deserialize layout b with
    | some (m, b') =>
      match deserializeAll layouts b' with
      | some (ms, b'') => some (m :: ms, b'')
      | none => none
    | none => none

/-- The payload bytes of a list of messages, in order. -/
def payloadBytes : List Message → List (Fin 256)
  | [] => []
  | m :: ms => m.data ++ payloadBytes ms

/-- Source `init_serialization_buffers`, the Python constructor of
`SerializationBuffer`: `py::init<Fragment*, std::shared_ptr<Allocator>, size_t,
const std::string&>()` with the keyword defaults `"allocator"_a = py::none()`,
`"buffer_size"_a = kDefaultSerializationBufferSize` and
`"name"_a = "serialization_buffer"s`; an argument the caller leaves out is
`none` here.  The constant `kDefaultSerializationBufferSize` is defined outside
the sources and is a parameter. -/
def SerializationBuffer.py_init (kDefaultSerializationBufferSize : Nat)
    (setup : ComponentSpec → ComponentSpec) (fragment : Option FragmentHandle)
    (allocator : Option Nat) (buffer_size : Option Nat) (name : Option String) :
    GXFResource :=
  PySerializationBuffer setup fragment allocator
    (buffer_size.getD kDefaultSerializationBufferSize) (name.getD "serialization_buffer")

/-- Source `init_serialization_buffers`, the Python constructor of
`UcxSerializationBuffer`, with the same keyword defaults. -/
def UcxSerializationBuffer.py_init (kDefaultSerializationBufferSize : Nat)
    (setup : ComponentSpec → ComponentSpec) (fragment : Option FragmentHandle)
    (allocator : Option Nat) (buffer_size : Option Nat) (name : Option String) :
    GXFResource :=
  PyUcxSerializationBuffer setup fragment allocator
    (buffer_size.getD kDefaultSerializationBufferSize) (name.getD "serialization_buffer")

/-! ## The application of ping_distributed.cpp -/

/-- Modelled from the spec: a connection between operators of two fragments,
as `add_flow(fragment, fragment, port pairs)` declares it. -/
structure FragmentFlow where
  src_fragment : String
  dst_fragment : String
  port_pairs : List (String × String)
deriving DecidableEq, Repr

/-- Modelled from the spec: `Application` is declared outside the sources.  An
application "owns one or more Fragments and the inter-fragment Connections". -/
structure Application where
  fragments : List Fragment
  flows : List FragmentFlow
deriving DecidableEq, Repr

/-- An application to which nothing has been added. -/
def Application.empty : Application := ⟨[], []⟩

/-- Call `add_fragment(fragment)`. -/
def Application.add_fragment (app : Application) (fragment : Fragment) : Application :=
  { app with fragments := app.fragments ++ [fragment] }

/-- Call `add_flow(upstream, downstream, port_pairs)`. -/
def Application.add_flow (app : Application) (flow : FragmentFlow) : Application :=
  { app with flows := app.flows ++ [flow] }

/-- Call `make_fragment<Fragment1>(name, count)`: a `Fragment1` with that name
and count, as composed. -/
def make_fragment_Fragment1 (name : String) (count : Int) : Fragment :=
  Fragment1.compose name count

/-- Call `make_fragment<Fragment2>(name)`: a `Fragment2` with that name, as
composed. -/
def make_fragment_Fragment2 (name : String) : Fragment :=
  Fragment2.compose name

/-- Source class `App`: the member `int64_t count_ = 10`. -/
structure App where
  count_ : Int
deriving DecidableEq, Repr

/-- Call `make_application<App>()`: `count_` has its default member
initializer. -/
def App.new : App := ⟨10⟩

/-- Source `App::set_options(int64_t count = 10)`: `count_ = count`. -/
def App.set_options (_app : App) (count : Int) : App := ⟨count⟩

/-- Source `App::compose`:
`auto fragment1 = make_fragment<Fragment1>("fragment1", count_);`
`auto fragment2 = make_fragment<Fragment2>("fragment2");`
`add_fragment(fragment1); add_fragment(fragment2);`.
There is no `add_flow` call. -/
def App.compose (app : App) : Application :=
  let fragment1 := make_fragment_Fragment1 "fragment1" app.count_
  let fragment2 := make_fragment_Fragment2 "fragment2"
  (Application.empty.add_fragment fragment1).add_fragment fragment2

/-- The C function `isspace` in the "C" locale. -/
def isspace (c : Char) : Bool :=
  c = ' ' || (9 ≤ c.toNat && c.toNat ≤ 13)

/-- Value of a sequence of decimal digits. -/
def digitsValue (digits : List Char) : Nat :=
  digits.foldl (fun acc c => 10 * acc + (c.toNat - 48)) 0

/-- What `std::stoll` reads of its argument: leading whitespace is skipped, an
optional sign is read, then as many decimal digits as follow; what comes after
them is ignored.  The result tells whether the sign was `-`, and the digits. -/
def stollScan (str : String) : Bool × List Char :=
  match str.toList.dropWhile isspace with
  | '-' :: rest => (true, rest.takeWhile Char.isDigit)
  | '+' :: rest => (false, rest.takeWhile Char.isDigit)
  | cs => (false, cs.takeWhile Char.isDigit)

/-- The value `std::stoll` computes from what it has read. -/
def stollValue (scan : Bool × List Char) : Int :=
  if scan.1 then -(digitsValue scan.2 : Int) else digitsValue scan.2

/-- The standard-library function `std::stoll(str)` (base 10).  The result is
empty where `stoll` throws: `std::invalid_argument` when there is no digit to
read, and `std::out_of_range` when the value does not fit into `long long`. -/
def stoll (str : String) : Option Int :=
  if (stollScan str).2.isEmpty then none
  else if -9223372036854775808 ≤ stollValue (stollScan str)
      ∧ stollValue (stollScan str) ≤ 9223372036854775807 then
    some (stollValue (stollScan str))
  else none

/-- What a call of `get_int64_arg` comes to: an optional that holds a value,
an empty optional (with or without the error line having been logged), or the
evaluation of `*loc` with `loc == args.end()`, which is undefined behaviour. -/
inductive ArgLookup where
  | value (v : Int)
  | empty (error_logged : Bool)
  | readPastEnd
deriving DecidableEq, Repr

/-- The optional is empty. -/
def ArgLookup.isEmpty : ArgLookup → Bool
  | .empty _ => true
  | _ => false

/-- Source `get_int64_arg`.  `loc` is the position `std::find` returns: the
index of the first occurrence of `name`, or `args.size()` when there is none.
In `(loc != std::end(args)) && (loc++ != std::end(args))` the second operand
compares the value `loc` had before the increment, so it holds whenever the
first does; afterwards `loc` is one further.  `std::stoll(*loc)` then reads
the element at `loc`, and an exception of `stoll` is caught, logged, and turned
into an empty optional. -/
def get_int64_arg (args : List String) (name : String) : ArgLookup :=
  let loc := args.indexOf name
  if loc ≠ args.length ∧ loc ≠ args.length then
    let loc := loc + 1
    match args.get? loc with
    | none => .readPastEnd
    | some str =>
      match stoll str with
      | some v => .value v
      | none => .empty true
  else .empty false

/-- Source `main`, up to the call `app->run()`, which composes the
application: `argv` is what `app->argv()` returns.
`int64_t count = get_int64_arg(remaining_args, "--count").value_or(15);`
`app->set_options(count);`.  The result is the composed application, or
nothing when `get_int64_arg` has undefined behaviour. -/
def main (argv : List String) : Option Application :=
  let app := App.new
  match get_int64_arg argv "--count" with
  | .value count => some (App.compose (app.set_options count))
  | .empty _ => some (App.compose (app.set_options 15))
  | .readPastEnd => none

/-- The bounds of the `COUNT` conditions an operator carries as its own. -/
def OperatorNode.countBounds (op : OperatorNode) : List Int :=
  op.conditions.filterMap (fun c => match c with
    | .count bound _ => some bound
    | _ => none)

/-- The operators of a fragment of an application, by fragment name. -/
def Application.operatorsOf (app : Application) (fragment : String) : List OperatorNode :=
  match app.fragments.find? (fun f => f.name = fragment) with
  | some f => f.operators
  | none => []

/-! ## Further readings of events, and repeated `DummyOp::compute` -/

/-- The argument of an `ArgumentSetter::set_param` call. -/
def Event.appliedArg : Event → Option Arg
  | .setSpecParam arg => some arg
  | _ => none

/-- The event is a `GxfCreateEntity` call. -/
def Event.isEntityCreation : Event → Bool
  | .gxfCreateEntity => true
  | _ => false

/-- The character can occur in the decimal rendering of an integer: a digit or
the minus sign. -/
def isNumeral (c : Char) : Bool := c.isDigit || c == '-'

/-- Source `DummyOp::compute` invoked a number of times in a row. -/
def DummyOp.computeN : Nat → DummyOp → DummyOp
  | 0, op => op
  | k + 1, op => DummyOp.computeN k op.compute

/-- The event is neither an `ArgumentSetter::set_param` call nor a
`GxfCreateEntity` call. -/
def Event.isLoopEvent (e : Event) : Bool :=
  e.appliedArg.isNone && !e.isEntityCreation

/-- One argument applied to the declared parameters, as the specification
words the first loop: an argument whose name is a declared parameter is
assigned to that parameter, any other argument is skipped. -/
def applyArg (params : List (String × ParameterWrapper)) (arg : Arg) :
    List (String × ParameterWrapper) :=
  match params.lookup arg.name with
  | some param_wrap => setEntry arg.name (ArgumentSetter.set_param param_wrap arg) params
  | none => params

/-- The argument's name is a declared parameter. -/
def isDeclared (params : List (String × ParameterWrapper)) (arg : Arg) : Bool :=
  (params.lookup arg.name).isSome

/-! ## Graphs: operators and the connections between their ports -/

/-- Modelled from the spec: a connection "source (operator, output-port-name) →
sink (operator, input-port-name)".  Operators are identified by their names,
which are "unique within fragment". -/
structure Connection where
  source : String
  src_port : String
  sink : String
  dst_port : String
deriving DecidableEq, Repr

/-- Modelled from the spec: "Graph / Fragment — an owned collection of
operators and the directed edges (connections) between their ports".  Every
operator holds the buffers of its own input ports in `op_input`; the
connections say which of these buffers an output port feeds. -/
structure Graph where
  operators : List OperatorNode
  connections : List Connection
deriving DecidableEq, Repr

/-- The names of the operators, in the order they were added. -/
def Graph.names (g : Graph) : List String := g.operators.map OperatorNode.name

/-- The operator of the given name. -/
def Graph.find (g : Graph) (name : String) : Option OperatorNode :=
  g.operators.find? (fun op => op.name == name)

/-- The buffer of an input port of an operator. -/
def Graph.inputBuffer (g : Graph) (name : String) (port : String) : Option PortBuffer :=
  match g.find name with
  | some op => op.op_input.inputs.lookup port
  | none => none

/-- The connection leads from the given output port to the given input port. -/
def Connection.feeds (c : Connection) (source : String) (src_port : String) (sink : String)
    (dst_port : String) : Bool :=
  c.source == source && c.src_port == src_port && c.sink == sink && c.dst_port == dst_port

/-- The buffers of the input ports that an output port feeds. -/
def Graph.sinks (g : Graph) (source : String) (port : String) : List PortBuffer :=
  (g.connections.filter (fun c => c.source == source && c.src_port == port)).filterMap
    (fun c => g.inputBuffer c.sink c.dst_port)

/-- The operator as the scheduler and its `compute` see it in the graph: every
output port it has declared reaches the buffers that the connections from that
port lead to. -/
def Graph.wire (g : Graph) (op : OperatorNode) : OperatorNode :=
  { op with op_output :=
      ⟨op.op_output.outputs.map (fun pb => (pb.1, g.sinks op.name pb.1)), op.op_output.calls⟩ }

/-- The admission test of an operator in the graph. -/
def Graph.ready (g : Graph) (op : OperatorNode) : Bool := (g.wire op).ready

/-- An operator after the operator `source` has delivered the message of the
`emit` call `r`: the message is at the tail of every input buffer of the
operator that a connection from the port of the call leads to. -/
def OperatorNode.accept (connections : List Connection) (source : String) (r : EmitRecord)
    (op : OperatorNode) : OperatorNode :=
  { op with op_input :=
      ⟨op.op_input.inputs.map (fun pb =>
        if connections.any (fun c => c.feeds source r.port op.name pb.1) then
          (pb.1, { pb.2 with queue := pb.2.queue ++ [r.message] })
        else pb)⟩ }

/-- The operators after the `emit` calls `records` of the operator `source`:
every call that reported a delivery has placed its message downstream; a call
that reported a failure has placed nothing. -/
def Graph.deliver (connections : List Connection) (source : String) :
    List EmitRecord → List OperatorNode → List OperatorNode
  | [], ops => ops
  | r :: rest, ops =>
    Graph.deliver connections source rest
      (if r.result = .delivered then ops.map (OperatorNode.accept connections source r)
       else ops)

/-- Modelled from the spec: one execution of an operator of the graph.  Its
`compute` runs once on the operator's input buffers and on the buffers its
output ports feed, its conditions take note of the execution, and the
messages it has emitted successfully are in the buffers downstream. -/
def Graph.execute (g : Graph) (op : OperatorNode) : Graph :=
  let n := (g.wire op).execute
  let records := n.op_output.calls.drop op.op_output.calls.length
  let executed := { n with op_output := ⟨op.op_output.outputs, n.op_output.calls⟩ }
  { g with operators := (Graph.deliver g.connections op.name records
      (g.operators.map (fun o => if o.name = op.name then executed else o))) }

/-- The operator that `Graph.execute` puts in the place of the executed
one. -/
def Graph.executed (g : Graph) (op : OperatorNode) : OperatorNode :=
  { (g.wire op).execute with
    op_output := ⟨op.op_output.outputs, (g.wire op).execute.op_output.calls⟩ }

/-- A change of operators that leaves everything but the input buffers as it
was. -/
def OperatorNode.sameButInputs (f : OperatorNode → OperatorNode) : Prop :=
  ∀ o : OperatorNode, (f o).name = o.name ∧ (f o).kind = o.kind ∧
    (f o).conditions = o.conditions ∧ (f o).input_conditions = o.input_conditions ∧
    (f o).output_conditions = o.output_conditions ∧ (f o).op_output = o.op_output

/-- One scan over the operators of a graph in declaration order: an operator
that passes the admission test when the scan reaches it is executed, as long
as the budget lasts.  The result is the graph afterwards and the names of the
operators executed, in order. -/
def Graph.dispatch : Nat → List String → Graph → Graph × List String
  | _, [], g => (g, [])
  | 0, _ :: _, g => (g, [])
  | budget + 1, name :: rest, g =>
    match g.find name with
    | some op =>
      if g.ready op then
        let (g', names) := Graph.dispatch budget rest (g.execute op)
        (g', name :: names)
      else Graph.dispatch (budget + 1) rest g
    | none => Graph.dispatch (budget + 1) rest g

/-- One iteration of the scheduler on a graph. -/
def Graph.tick (s : Scheduler) (g : Graph) : Graph × List String :=
  Graph.dispatch (s.budget g.operators.length) g.names g

/-- The scheduler run on a graph for a number of iterations: the graph
afterwards and the names of the operators whose `compute` was invoked, in
order. -/
def Graph.run (s : Scheduler) : Nat → Graph → Graph × List String
  | 0, g => (g, [])
  | ticks + 1, g =>
    let (g', names) := Graph.tick s g
    let (g'', names') := Graph.run s ticks g'
    (g'', names ++ names')

/-- A fragment as a graph without connections. -/
def Graph.ofFragment (f : Fragment) : Graph := ⟨f.operators, []⟩

/-- The operator is a source of the graph: no connection leads to it. -/
def Graph.isSource (g : Graph) (op : OperatorNode) : Bool :=
  g.connections.all (fun c => c.sink != op.name)

/-- The operator runs only on a message: it is a `ForwardOp`, which consumes
from its port "in", and that port carries a `MESSAGE_AVAILABLE` condition. -/
def OperatorNode.gated (op : OperatorNode) : Prop :=
  op.kind = .forwardOp ∧
    ∃ pc ∈ op.input_conditions, pc.1 = "in" ∧ pc.2.kind = .kMessageAvailable

/-- The operator carries no condition, neither of its own nor on a port. -/
def OperatorNode.free (op : OperatorNode) : Prop :=
  op.conditions = [] ∧ op.input_conditions = [] ∧ op.output_conditions = []

/-- The connections lead strictly downwards in `depth`.  A graph has such a
depth function exactly when it is a DAG. -/
def Graph.acyclic (g : Graph) (depth : String → Nat) : Prop :=
  ∀ c ∈ g.connections, depth c.sink < depth c.source

/-- The depth of an operator by the order of declaration: the number of
operators from this one to the end.  It is a depth function for a graph whose
connections lead forward in the order of declaration. -/
def Graph.declarationDepth (g : Graph) (name : String) : Nat :=
  g.names.length - g.names.indexOf name

instance (op : OperatorNode) : Decidable op.hasCount := by
  unfold OperatorNode.hasCount
  infer_instance

instance (op : OperatorNode) : Decidable op.gated := by
  unfold OperatorNode.gated
  infer_instance

instance (op : OperatorNode) : Decidable op.free := by
  unfold OperatorNode.free
  infer_instance

instance (g : Graph) (depth : String → Nat) : Decidable (g.acyclic depth) := by
  unfold Graph.acyclic
  infer_instance

/-- Number of executions one message waiting at an operator can cause, counted
to a depth: the execution that consumes it, and those caused by the copies
the operator sends down its connections. -/
def Graph.weight (connections : List Connection) : Nat → String → Nat
  | 0, _ => 1
  | depth + 1, name =>
    1 + ((connections.filter (fun c => c.source == name)).map
      (fun c => Graph.weight connections depth c.sink)).sum

/-- The weight of a message waiting at an operator of the graph, counted to
the depth of the operator. -/
def Graph.messageWeight (g : Graph) (depth : String → Nat) (name : String) : Nat :=
  Graph.weight g.connections (depth name) name

/-- A bound on the executions still to come: what the `COUNT` conditions
admit, and what the messages waiting on the ports "in" can cause. -/
def Graph.potential (w : String → Nat) (ops : List OperatorNode) : Nat :=
  (ops.map (fun op => op.remaining + op.pending "in" * w op.name)).sum

/-- The weights `w` cover the connections of the graph: the weight of an
operator exceeds the weights of the operators its connections lead to, taken
together. -/
def Graph.weighted (g : Graph) (w : String → Nat) : Prop :=
  ∀ name ∈ g.names,
    1 + ((g.connections.filter (fun c => c.source == name)).map (fun c => w c.sink)).sum
      ≤ w name

/-- The bound of `Graph.potential` for a graph, with the weights of its
connections. -/
def Graph.bound (g : Graph) (depth : String → Nat) : Nat :=
  Graph.potential (g.messageWeight depth) g.operators

/-! ## Concrete inputs used by the witnesses -/

/-- A message used in the examples. -/
def sampleMessage : Message := ⟨"int", [42]⟩

/-- An input context whose port "in" holds `sampleMessage` and one more
message. -/
def sampleInput : InputContext :=
  ⟨[("in", ⟨2, [sampleMessage, ⟨"int", [7]⟩]⟩)]⟩

/-- An output context whose port "out" feeds one empty buffer of capacity 1. -/
def sampleOutput : OutputContext := ⟨[("out", [⟨1, []⟩])], []⟩

/-- A GXF runtime in which every call succeeds. -/
def sampleRuntime : GxfRuntime where
  createEntity := some 7
  componentAdd := fun eid _ => eid + 100
  componentTypeId := fun _ => .ok 3
  componentFind := fun _ _ _ => true
  addEntityGroup := fun _ => 50
  createGpuDeviceEntity := fun _ => 60
  updateEntityGroup := fun _ _ => true
  setParam := fun _ _ => true

/-- A GXF runtime in which `GXFParameterAdaptor::set_param` fails for every
parameter and every other call succeeds. -/
def failingRuntime : GxfRuntime := { sampleRuntime with setParam := fun _ _ => false }

/-- A fragment run by a `GXFExecutor`. -/
def sampleFragment : FragmentHandle := ⟨"fragment1", ⟨true, 1⟩⟩

/-- A resource that declares the parameter `buffer_size` and was given an
argument for it. -/
def sampleResource : GXFResource where
  name_ := "serialization_buffer"
  id_ := -1
  is_initialized_ := false
  resource_type_ := .kNative
  fragment_ := some sampleFragment
  spec_ := some ⟨some sampleFragment, [("buffer_size", .size none)]⟩
  args_ := [⟨"buffer_size", .size 4096⟩]
  gxf_context_ := none
  gxf_eid_ := 5
  gxf_cid_ := 0
  gxf_cname_ := ""

/-- A resource without a component specification, as the constructor
`GXFResource(name, component)` leaves it, attached to an entity and a
fragment. -/
def specLessResource : GXFResource := { sampleResource with name_ := "pool", spec_ := none, args_ := [] }

/-- A buffer of capacity 1 that holds one message: it is at capacity. -/
def fullBuffer : PortBuffer := ⟨1, [⟨"int", [7]⟩]⟩

/-- An output context whose port "out" feeds one buffer, which is full. -/
def fullOutput : OutputContext := ⟨[("out", [fullBuffer])], []⟩

/-- An operator without any condition. -/
def unconditionalForwardOp : OperatorNode :=
  { name := "forward", kind := .forwardOp, conditions := [], input_conditions := [],
    output_conditions := [], op_input := sampleInput, op_output := sampleOutput }

/-- An allocator resource that declares the parameters `dev_id`, holding the
device id 2, and `block_size`, holding nothing. -/
def allocatorResource : GXFResource :=
  { sampleResource with
    name_ := "pool"
    spec_ := some ⟨some sampleFragment, [("dev_id", .int32 (some 2)), ("block_size", .size none)]⟩
    args_ := [] }

/-- A GXF runtime in which `GxfCreateEntity` fails and every other call
succeeds. -/
def noEntityRuntime : GxfRuntime := { sampleRuntime with createEntity := none }

/-- A resource without a component specification that has no entity yet. -/
def unboundResource : GXFResource := { specLessResource with gxf_eid_ := 0 }

/-- A resource that declares the parameter `buffer_size` and no entity yet,
with one argument for the declared parameter between two arguments whose
names are not declared. -/
def mixedArgsResource : GXFResource :=
  { sampleResource with
    gxf_eid_ := 0
    args_ := [⟨"block_size", .size 16⟩, ⟨"buffer_size", .size 4096⟩, ⟨"name", .str "x"⟩] }

/-- An operator of class `ForwardOp` with the ports its `setup` declares, the
given conditions of its own and on its port "in", and an input buffer of the
given capacity holding the given messages. -/
def make_operator_ForwardOp (name : String) (conditions : List Condition)
    (in_conditions : List Condition) (capacity : Nat) (pending : List Message) :
    OperatorNode :=
  { name := name, kind := .forwardOp, conditions := conditions,
    input_conditions := in_conditions.map (fun c => ("in", c)), output_conditions := [],
    op_input := ⟨(ForwardOp.setup OperatorSpec.empty).inputs.map
      (fun io => (io.name, ⟨capacity, pending⟩))⟩,
    op_output := ⟨(ForwardOp.setup OperatorSpec.empty).outputs.map
      (fun io => (io.name, [])), []⟩ }

/-- A graph of two operators: the source "source", bounded by a `COUNT`
condition, is connected to "forward", a `ForwardOp` as its `setup` leaves it,
without any condition.  No buffer holds a message. -/
def ungatedGraph : Graph :=
  ⟨[make_operator_ForwardOp "source" [make_condition_CountCondition 1] [] 2 [],
    make_operator_ForwardOp "forward" [] [] 2 []],
   [⟨"source", "out", "forward", "in"⟩]⟩

/-- The graph `ungatedGraph` with a `MESSAGE_AVAILABLE` condition on port "in"
of "forward", and two messages waiting at the source. -/
def gatedGraph : Graph :=
  ⟨[make_operator_ForwardOp "source" [make_condition_CountCondition 3] [] 2
      [sampleMessage, sampleMessage],
    make_operator_ForwardOp "forward" [] [.messageAvailable 1] 2 []],
   [⟨"source", "out", "forward", "in"⟩]⟩

/-- A graph without connections in which an operator without any condition
stands before the operator "tx" of ping_distributed, bounded by a `COUNT`
condition of 3. -/
def starvedGraph : Graph :=
  ⟨[make_operator_ForwardOp "forward" [] [] 2 [],
    make_operator_DummyOp "tx" (make_condition_CountCondition 3)], []⟩

/-! ## Facts about the contexts -/

theorem receive_eq_of_none (ctx : InputContext) (name : String)
    (h : (ctx.receive name).1 = none) : ctx.receive name = (none, ctx) := by
  unfold InputContext.receive at *
  split
  · rfl
  · split
    · rfl
    · simp_all

theorem emit_calls (ctx : OutputContext) (m : Message) (name : String) :
    (ctx.emit m name).2.calls = ctx.calls ++ [⟨name, m, (ctx.emit m name).1⟩] := by
  unfold OutputContext.emit
  split
  · rfl
  · split <;> rfl

theorem compute_of_some (op_input : InputContext) (op_output : OutputContext) (m : Message)
    (h : (op_input.receive "in").1 = some m) :
    ForwardOp.compute op_input op_output
      = ((op_input.receive "in").2, (op_output.emit m "out").2) := by
  unfold ForwardOp.compute
  cases hr : op_input.receive "in" with
  | mk msg ctx =>
    rw [hr] at h
    simp only at h
    subst h
    rfl

theorem compute_of_none (op_input : InputContext) (op_output : OutputContext)
    (h : (op_input.receive "in").1 = none) :
    ForwardOp.compute op_input op_output = (op_input, op_output) := by
  unfold ForwardOp.compute
  rw [receive_eq_of_none op_input "in" h]

/-! ## Claims about `ForwardOp` -/

/-- C1: `ForwardOp::compute` makes exactly one `emit` call, on port "out" and
with the very message it received on port "in", when a message is present (and
that message is the one taken off "in"); when no message is present it leaves
both contexts as they were, making no `emit` call; in every case it makes at
most one `emit` call and none on a port other than "out". -/
theorem forwardOp_compute_forwards (op_input : InputContext) (op_output : OutputContext) :
    (∀ m, (op_input.receive "in").1 = some m →
      (ForwardOp.compute op_input op_output).1 = (op_input.receive "in").2 ∧
      (ForwardOp.compute op_input op_output).2.calls
        = op_output.calls ++ [⟨"out", m, (op_output.emit m "out").1⟩]) ∧
    ((op_input.receive "in").1 = none →
      ForwardOp.compute op_input op_output = (op_input, op_output)) ∧
    (∃ l, (ForwardOp.compute op_input op_output).2.calls = op_output.calls ++ l ∧
      l.length ≤ 1 ∧ ∀ c ∈ l, c.port = "out") := by
  refine ⟨?_, compute_of_none op_input op_output, ?_⟩
  · intro m h
    rw [compute_of_some op_input op_output m h]
    exact ⟨rfl, emit_calls op_output m "out"⟩
  · cases h : (op_input.receive "in").1 with
    | none =>
      refine ⟨[], ?_, by simp, by simp⟩
      rw [compute_of_none op_input op_output h]
      simp
    | some m =>
      refine ⟨[⟨"out", m, (op_output.emit m "out").1⟩], ?_, by simp, by simp⟩
      rw [compute_of_some op_input op_output m h]
      exact emit_calls op_output m "out"

/-- Witness for C1: on `sampleInput` the message at the head of "in" is the
one emitted on "out". -/
theorem forwardOp_compute_forwards_witness :
    (sampleInput.receive "in").1 = some sampleMessage ∧
    (ForwardOp.compute sampleInput sampleOutput).2.calls
      = sampleOutput.calls ++ [⟨"out", sampleMessage, (sampleOutput.emit sampleMessage "out").1⟩] :=
  ⟨by decide, ((forwardOp_compute_forwards sampleInput sampleOutput).1 sampleMessage
    (by decide)).2⟩

/-- C2: `ForwardOp::setup` adds one input port named "in" and one output port
named "out", both of the `std::any` wildcard type and with no condition, to the
specification and leaves its parameters and conditions as they were; on an
empty specification the result has exactly these two ports and nothing else. -/
theorem forwardOp_setup_declares (spec : OperatorSpec) :
    (ForwardOp.setup spec).inputs = spec.inputs ++ [⟨"in", .kInput, .any, .kDefault, []⟩] ∧
    (ForwardOp.setup spec).outputs = spec.outputs ++ [⟨"out", .kOutput, .any, .kDefault, []⟩] ∧
    (ForwardOp.setup spec).params = spec.params ∧
    (ForwardOp.setup spec).conditions = spec.conditions ∧
    ForwardOp.setup OperatorSpec.empty
      = ⟨[⟨"in", .kInput, .any, .kDefault, []⟩], [⟨"out", .kOutput, .any, .kDefault, []⟩],
          [], []⟩ :=
  ⟨rfl, rfl, rfl, rfl, rfl⟩

/-! ## Claims about `GXFResource::initialize` -/

/-- C3 as stated fails: a resource without a component specification is not
marked initialized by its first `initialize` call, which returns normally, and
its second call goes through `GXFComponent::gxf_initialize` again, a call into
the GXF runtime. -/
theorem initialize_twice_repeats_gxf_calls :
    ( GXFResource.initialize sampleRuntime none specLessResource).outcome = .returned ∧
    ( GXFResource.initialize sampleRuntime none specLessResource).resource.is_initialized_ = false ∧
    ( GXFResource.initialize sampleRuntime
        ( GXFResource.initialize sampleRuntime none specLessResource).allocator_tid
        ( GXFResource.initialize sampleRuntime none specLessResource).resource).events
      = [.resourceInitialize, .gxfInitialize 5 "pool",
          .log .error "No component spec for GXFResource 'pool'"] ∧
    ( GXFResource.initialize sampleRuntime
        ( GXFResource.initialize sampleRuntime none specLessResource).allocator_tid
        ( GXFResource.initialize sampleRuntime none specLessResource).resource).events.any
      Event.isGxfCall = true := by
  decide

/-- C3, amended: when a call of `GXFResource::initialize` leaves the resource
marked initialized, the next call is a no-op whatever the runtime would
answer: the resource and the static `allocator_tid` stay as they are, the call
returns normally, and all it does is log one debug line, so it makes no call
into the GXF runtime and sets no parameter. -/
theorem initialize_second_call_noop (rt rt' : GxfRuntime) (allocator_tid : Option Nat)
    (r : GXFResource)
    (h : ( GXFResource.initialize rt allocator_tid r).resource.is_initialized_ = true) :
    ( GXFResource.initialize rt' ( GXFResource.initialize rt allocator_tid r).allocator_tid
        ( GXFResource.initialize rt allocator_tid r).resource)
      = ⟨( GXFResource.initialize rt allocator_tid r).resource,
          ( GXFResource.initialize rt allocator_tid r).allocator_tid,
          [.log .debug ("GXFResource '" ++ ( GXFResource.initialize rt allocator_tid r).resource.name_
            ++ "' is already initialized. Skipping...")],
          .returned⟩ ∧
    ∀ e ∈ ( GXFResource.initialize rt' ( GXFResource.initialize rt allocator_tid r).allocator_tid
        ( GXFResource.initialize rt allocator_tid r).resource).events,
      e.isGxfCall = false ∧ e.isParamSet = false := by
  have key : ∀ (t : Option Nat) (q : GXFResource), q.is_initialized_ = true →
      GXFResource.initialize rt' t q
        = ⟨q, t, [.log .debug ("GXFResource '" ++ q.name_
            ++ "' is already initialized. Skipping...")], .returned⟩ := by
    intro t q hq
    simp [ GXFResource.initialize, hq]
  rw [key _ _ h]
  refine ⟨rfl, ?_⟩
  intro e he
  simp only [List.mem_singleton] at he
  subst he
  exact ⟨rfl, rfl⟩

/-- Witness for C3, amended: the first call on `sampleResource` runs the whole
parameter loop and marks the resource initialized; the second call changes
nothing. -/
theorem initialize_second_call_noop_witness :
    ( GXFResource.initialize sampleRuntime none sampleResource).resource.is_initialized_ = true ∧
    ( GXFResource.initialize failingRuntime
        ( GXFResource.initialize sampleRuntime none sampleResource).allocator_tid
        ( GXFResource.initialize sampleRuntime none sampleResource).resource).resource
      = ( GXFResource.initialize sampleRuntime none sampleResource).resource :=
  ⟨by decide, by
    rw [(initialize_second_call_noop sampleRuntime failingRuntime none sampleResource
      (by decide)).1]⟩

/-! ## The outcome of `initialize` does not depend on `set_param` -/

theorem handleDevId_setParam (rt : GxfRuntime) (f : Int → String → Bool) (r : GXFResource)
    (device_id : Int) :
    GXFResource.handleDevId { rt with setParam := f } r device_id
      = GXFResource.handleDevId rt r device_id := rfl

theorem setHandlerParam_setParam (rt : GxfRuntime) (f : Int → String → Bool) (r : GXFResource)
    (allocator_tid : Option Nat) (key : String) (param_wrap : ParameterWrapper) :
    (GXFResource.setHandlerParam { rt with setParam := f } r allocator_tid key param_wrap).1
      = (GXFResource.setHandlerParam rt r allocator_tid key param_wrap).1 ∧
    (GXFResource.setHandlerParam { rt with setParam := f } r allocator_tid key param_wrap).2.2
      = (GXFResource.setHandlerParam rt r allocator_tid key param_wrap).2.2 := by
  unfold GXFResource.setHandlerParam
  simp only [handleDevId_setParam]
  split_ifs <;> (try exact ⟨rfl, rfl⟩)
  all_goals (split <;> (try exact ⟨rfl, rfl⟩))

theorem setHandlerParams_setParam (rt : GxfRuntime) (f : Int → String → Bool) (r : GXFResource)
    (params : List (String × ParameterWrapper)) :
    ∀ allocator_tid : Option Nat,
      (GXFResource.setHandlerParams { rt with setParam := f } r allocator_tid params).1
        = (GXFResource.setHandlerParams rt r allocator_tid params).1 ∧
      (GXFResource.setHandlerParams { rt with setParam := f } r allocator_tid params).2.2
        = (GXFResource.setHandlerParams rt r allocator_tid params).2.2 := by
  induction params with
  | nil => intro tid; exact ⟨rfl, rfl⟩
  | cons kp rest ih =>
    intro tid
    obtain ⟨key, pw⟩ := kp
    have h := setHandlerParam_setParam rt f r tid key pw
    unfold GXFResource.setHandlerParams
    rcases h1 : GXFResource.setHandlerParam { rt with setParam := f } r tid key pw with ⟨t1, e1, o1⟩
    rcases h2 : GXFResource.setHandlerParam rt r tid key pw with ⟨t2, e2, o2⟩
    rw [h1, h2] at h
    simp only at h
    obtain ⟨rfl, rfl⟩ := h
    cases o1 with
    | returned =>
      simp only
      exact ih t1
    | thrown w => exact ⟨rfl, rfl⟩
    | aborted w => exact ⟨rfl, rfl⟩
theorem setParameters_setParam (rt : GxfRuntime) (f : Int → String → Bool)
    (allocator_tid : Option Nat) (r : GXFResource) (spec : ComponentSpec) (events : List Event) :
    (GXFResource.setParameters { rt with setParam := f } allocator_tid r spec events).resource
      = (GXFResource.setParameters rt allocator_tid r spec events).resource ∧
    (GXFResource.setParameters { rt with setParam := f } allocator_tid r spec events).allocator_tid
      = (GXFResource.setParameters rt allocator_tid r spec events).allocator_tid ∧
    (GXFResource.setParameters { rt with setParam := f } allocator_tid r spec events).outcome
      = (GXFResource.setParameters rt allocator_tid r spec events).outcome := by
  unfold GXFResource.setParameters
  rcases GXFResource.setArguments r.name_ spec.params r.args_ with ⟨params, events'⟩
  simp only
  have h := setHandlerParams_setParam rt f
    { r with spec_ := some { spec with params := params } } params allocator_tid
  rcases h1 : GXFResource.setHandlerParams { rt with setParam := f }
    { r with spec_ := some { spec with params := params } } allocator_tid params
    with ⟨t1, e1, o1⟩
  rcases h2 : GXFResource.setHandlerParams rt
    { r with spec_ := some { spec with params := params } } allocator_tid params
    with ⟨t2, e2, o2⟩
  rw [h1, h2] at h
  simp only at h
  obtain ⟨rfl, rfl⟩ := h
  cases o1 <;> exact ⟨rfl, rfl, rfl⟩

theorem initialize_setParam (rt : GxfRuntime) (f : Int → String → Bool)
    (allocator_tid : Option Nat) (r : GXFResource) :
    ( GXFResource.initialize { rt with setParam := f } allocator_tid r).resource
      = ( GXFResource.initialize rt allocator_tid r).resource ∧
    ( GXFResource.initialize { rt with setParam := f } allocator_tid r).allocator_tid
      = ( GXFResource.initialize rt allocator_tid r).allocator_tid ∧
    ( GXFResource.initialize { rt with setParam := f } allocator_tid r).outcome
      = ( GXFResource.initialize rt allocator_tid r).outcome := by
  have hce : ∀ q : GXFResource, GXFResource.createEntityIfUnset { rt with setParam := f } q
      = GXFResource.createEntityIfUnset rt q := fun _ => rfl
  obtain ⟨name_, id_, init, rtype, frag, spec_, args_, ctx, eid, cid, cname⟩ := r
  unfold GXFResource.initialize
  simp only [hce]
  cases init with
  | true => exact ⟨rfl, rfl, rfl⟩
  | false =>
    cases frag with
    | none => exact ⟨rfl, rfl, rfl⟩
    | some fragment =>
      obtain ⟨fname, ⟨is_gxf, context⟩⟩ := fragment
      cases is_gxf with
      | false => exact ⟨rfl, rfl, rfl⟩
      | true =>
        simp only [Bool.false_eq_true, if_false, Bool.not_true]
        split
        · split
          · exact ⟨rfl, rfl, rfl⟩
          · exact setParameters_setParam rt f allocator_tid _ _ _
        · exact ⟨rfl, rfl, rfl⟩

/-- C4, what the code does: whether `GXFParameterAdaptor::set_param` succeeds
or fails makes no difference to how `GXFResource::initialize` ends, to the
resource it leaves, or to the static `allocator_tid`: replacing the answers of
`set_param` by any others changes none of them.  At the failing input, a
runtime in which `set_param` fails: `initialize` on `sampleResource` makes the
failing call for the declared parameter `buffer_size`, logs it, returns
normally and leaves the resource marked initialized. -/
theorem initialize_ignores_set_param_failure (rt : GxfRuntime) (f : Int → String → Bool)
    (allocator_tid : Option Nat) (r : GXFResource) :
    (( GXFResource.initialize { rt with setParam := f } allocator_tid r).resource
        = ( GXFResource.initialize rt allocator_tid r).resource ∧
      ( GXFResource.initialize { rt with setParam := f } allocator_tid r).allocator_tid
        = ( GXFResource.initialize rt allocator_tid r).allocator_tid ∧
      ( GXFResource.initialize { rt with setParam := f } allocator_tid r).outcome
        = ( GXFResource.initialize rt allocator_tid r).outcome) ∧
    failingRuntime.setParam 105 "buffer_size" = false ∧
    ( GXFResource.initialize failingRuntime none sampleResource).events
      = [.resourceInitialize, .gxfInitialize 5 "serialization_buffer",
          .log .trace "GXFResource 'serialization_buffer':: setting argument 'buffer_size'",
          .setSpecParam ⟨"buffer_size", .size 4096⟩,
          .gxfSetParam 105 "buffer_size",
          .log .error "GXF call GXFParameterAdaptor::set_param failed",
          .log .trace "GXFResource 'serialization_buffer':: setting GXF parameter 'buffer_size'"] ∧
    ( GXFResource.initialize failingRuntime none sampleResource).outcome = .returned ∧
    ( GXFResource.initialize failingRuntime none sampleResource).resource.is_initialized_ = true :=
  ⟨initialize_setParam rt f allocator_tid r, by decide⟩

/-! ## What the events of `initialize` show about the parameters -/

theorem handleDevId_events (rt : GxfRuntime) (r : GXFResource) (d : Int) (evs : List Event)
    (h : GXFResource.handleDevId rt r d = (evs, .returned)) :
    evs.filterMap Event.forwardedKey = [] ∧
    evs.filterMap Event.createdGroup = [GXFResource.entity_group_name r.name_ r.gxf_eid_ d] ∧
    evs.filterMap Event.createdDevice
      = [(rt.createGpuDeviceEntity (GXFResource.device_entity_name r.name_ r.gxf_eid_ d), d)] ∧
    evs.filterMap Event.groupMember
      = [(rt.addEntityGroup (GXFResource.entity_group_name r.name_ r.gxf_eid_ d), r.gxf_eid_),
         (rt.addEntityGroup (GXFResource.entity_group_name r.name_ r.gxf_eid_ d),
          rt.createGpuDeviceEntity (GXFResource.device_entity_name r.name_ r.gxf_eid_ d))] := by
  unfold GXFResource.handleDevId at h
  by_cases h1 : rt.updateEntityGroup
      (rt.addEntityGroup (GXFResource.entity_group_name r.name_ r.gxf_eid_ d)) r.gxf_eid_ = true
  · simp only [GXF_ASSERT_SUCCESS, h1, if_true, Prod.mk.injEq] at h
    obtain ⟨rfl, _⟩ := h
    simp [List.filterMap, Event.forwardedKey, Event.createdGroup, Event.createdDevice,
      Event.groupMember]
  · simp [GXF_ASSERT_SUCCESS, h1] at h

theorem forwardParam_events (rt : GxfRuntime) (r : GXFResource) (key : String) :
    (GXFResource.forwardParam rt r key).filterMap Event.forwardedKey = [key] ∧
    (GXFResource.forwardParam rt r key).filterMap Event.createdGroup = [] ∧
    (GXFResource.forwardParam rt r key).filterMap Event.createdDevice = [] ∧
    (GXFResource.forwardParam rt r key).filterMap Event.groupMember = [] := by
  unfold GXFResource.forwardParam HOLOSCAN_GXF_CALL
  cases rt.setParam r.gxf_cid_ key <;>
    simp [List.filterMap, Event.forwardedKey, Event.createdGroup, Event.createdDevice,
      Event.groupMember]

theorem setHandlerParam_events (rt : GxfRuntime) (r : GXFResource) (tid tid' : Option Nat)
    (key : String) (pw : ParameterWrapper) (ev : List Event)
    (h : GXFResource.setHandlerParam rt r tid key pw = (tid', ev, .returned)) :
    GXFResource.resolvedAllocatorTid rt tid' = GXFResource.resolvedAllocatorTid rt tid ∧
    GXFResource.forwardsParams rt r tid [(key, pw)] ev := by
  obtain ⟨f1, f2, f3, f4⟩ := forwardParam_events rt r key
  unfold GXFResource.setHandlerParam at h
  by_cases hk : key = "dev_id"
  · subst hk
    simp only [if_true] at h
    cases tid with
    | some t =>
      simp only at h
      by_cases hf : rt.componentFind r.gxf_eid_ (some t) r.gxf_cname_ = true
      · simp only [hf, if_true] at h
        cases pw with
        | int32 v =>
          cases v with
          | none =>
            simp only [Prod.mk.injEq, and_true] at h
            obtain ⟨rfl, rfl⟩ := h
            refine ⟨rfl, ?_⟩
            simp [GXFResource.forwardsParams, GXFResource.handledDevId,
              GXFResource.resolvedAllocatorTid, hf, f1, f2, f3, f4, GXFResource.groupMembers,
              List.filterMap_append, Event.forwardedKey, Event.createdGroup,
              Event.createdDevice, Event.groupMember]
          | some d =>
            simp only at h
            rcases hh : GXFResource.handleDevId rt r d with ⟨evs, o⟩
            rw [hh] at h
            cases o with
            | returned =>
              simp only [Prod.mk.injEq, and_true] at h
              obtain ⟨rfl, rfl⟩ := h
              obtain ⟨g1, g2, g3, g4⟩ := handleDevId_events rt r d evs hh
              refine ⟨rfl, ?_⟩
              simp [GXFResource.forwardsParams, GXFResource.handledDevId,
                GXFResource.resolvedAllocatorTid, hf, g1, g2, g3, g4,
                GXFResource.groupMembers, List.filterMap_append, Event.forwardedKey,
                Event.createdGroup, Event.createdDevice, Event.groupMember]
            | thrown w => simp at h
            | aborted w => simp at h
        | int64 v => simp at h
        | size v => simp at h
        | str v => simp at h
        | handle v => simp at h
      · simp only [hf] at h
        simp only [Bool.false_eq_true, if_false, Prod.mk.injEq, and_true] at h
        obtain ⟨rfl, rfl⟩ := h
        refine ⟨rfl, ?_⟩
        simp [GXFResource.forwardsParams, GXFResource.handledDevId,
          GXFResource.resolvedAllocatorTid, hf, f1, f2, f3, f4, GXFResource.groupMembers,
          List.filterMap_append, Event.forwardedKey, Event.createdGroup,
          Event.createdDevice, Event.groupMember]
    | none =>
      cases hc : rt.componentTypeId "nvidia::gxf::Allocator" with
      | ok t =>
        simp only [hc] at h
        by_cases hf : rt.componentFind r.gxf_eid_ (some t) r.gxf_cname_ = true
        · simp only [hf, if_true] at h
          cases pw with
          | int32 v =>
            cases v with
            | none =>
              simp only [Prod.mk.injEq, and_true] at h
              obtain ⟨rfl, rfl⟩ := h
              refine ⟨by simp [GXFResource.resolvedAllocatorTid, hc], ?_⟩
              simp [GXFResource.forwardsParams, GXFResource.handledDevId,
                GXFResource.resolvedAllocatorTid, hc, hf, f1, f2, f3, f4, GXFResource.groupMembers,
                List.filterMap_append, Event.forwardedKey, Event.createdGroup,
                Event.createdDevice, Event.groupMember]
            | some d =>
              simp only at h
              rcases hh : GXFResource.handleDevId rt r d with ⟨evs, o⟩
              rw [hh] at h
              cases o with
              | returned =>
                simp only [Prod.mk.injEq, and_true] at h
                obtain ⟨rfl, rfl⟩ := h
                obtain ⟨g1, g2, g3, g4⟩ := handleDevId_events rt r d evs hh
                refine ⟨by simp [GXFResource.resolvedAllocatorTid, hc], ?_⟩
                simp [GXFResource.forwardsParams, GXFResource.handledDevId,
                  GXFResource.resolvedAllocatorTid, hc, hf, g1, g2, g3, g4,
                  GXFResource.groupMembers, List.filterMap_append, Event.forwardedKey,
                  Event.createdGroup, Event.createdDevice, Event.groupMember]
              | thrown w => simp at h
              | aborted w => simp at h
          | int64 v => simp at h
          | size v => simp at h
          | str v => simp at h
          | handle v => simp at h
        · simp only [hf] at h
          simp only [Bool.false_eq_true, if_false, Prod.mk.injEq, and_true] at h
          obtain ⟨rfl, rfl⟩ := h
          refine ⟨by simp [GXFResource.resolvedAllocatorTid, hc], ?_⟩
          simp [GXFResource.forwardsParams, GXFResource.handledDevId,
            GXFResource.resolvedAllocatorTid, hc, hf, f1, f2, f3, f4, GXFResource.groupMembers,
            List.filterMap_append, Event.forwardedKey, Event.createdGroup,
            Event.createdDevice, Event.groupMember]
      | error c =>
        simp only [hc] at h
        by_cases hf : rt.componentFind r.gxf_eid_ none r.gxf_cname_ = true
        · simp only [hf, if_true] at h
          cases pw with
          | int32 v =>
            cases v with
            | none =>
              simp only [Prod.mk.injEq, and_true] at h
              obtain ⟨rfl, rfl⟩ := h
              refine ⟨by simp [GXFResource.resolvedAllocatorTid, hc], ?_⟩
              simp [GXFResource.forwardsParams, GXFResource.handledDevId,
                GXFResource.resolvedAllocatorTid, hc, hf, f1, f2, f3, f4, GXFResource.groupMembers,
                List.filterMap_append, Event.forwardedKey, Event.createdGroup,
                Event.createdDevice, Event.groupMember]
            | some d =>
              simp only at h
              rcases hh : GXFResource.handleDevId rt r d with ⟨evs, o⟩
              rw [hh] at h
              cases o with
              | returned =>
                simp only [Prod.mk.injEq, and_true] at h
                obtain ⟨rfl, rfl⟩ := h
                obtain ⟨g1, g2, g3, g4⟩ := handleDevId_events rt r d evs hh
                refine ⟨by simp [GXFResource.resolvedAllocatorTid, hc], ?_⟩
                simp [GXFResource.forwardsParams, GXFResource.handledDevId,
                  GXFResource.resolvedAllocatorTid, hc, hf, g1, g2, g3, g4,
                  GXFResource.groupMembers, List.filterMap_append, Event.forwardedKey,
                  Event.createdGroup, Event.createdDevice, Event.groupMember]
              | thrown w => simp at h
              | aborted w => simp at h
          | int64 v => simp at h
          | size v => simp at h
          | str v => simp at h
          | handle v => simp at h
        · simp only [hf] at h
          simp only [Bool.false_eq_true, if_false, Prod.mk.injEq, and_true] at h
          obtain ⟨rfl, rfl⟩ := h
          refine ⟨by simp [GXFResource.resolvedAllocatorTid, hc], ?_⟩
          simp [GXFResource.forwardsParams, GXFResource.handledDevId,
            GXFResource.resolvedAllocatorTid, hc, hf, f1, f2, f3, f4, GXFResource.groupMembers,
            List.filterMap_append, Event.forwardedKey, Event.createdGroup,
            Event.createdDevice, Event.groupMember]
  · simp only [hk, if_false, Prod.mk.injEq, and_true] at h
    obtain ⟨rfl, rfl⟩ := h
    refine ⟨rfl, ?_⟩
    simp [GXFResource.forwardsParams, GXFResource.handledDevId, hk, f1, f2, f3, f4,
      GXFResource.groupMembers]

theorem handledDevId_congr (rt : GxfRuntime) (r1 r2 : GXFResource) (t1 t2 : Option Nat)
    (ht : GXFResource.resolvedAllocatorTid rt t1 = GXFResource.resolvedAllocatorTid rt t2)
    (he : r1.gxf_eid_ = r2.gxf_eid_) (hc : r1.gxf_cname_ = r2.gxf_cname_) :
    GXFResource.handledDevId rt r1 t1 = GXFResource.handledDevId rt r2 t2 := by
  funext p
  simp only [GXFResource.handledDevId, ht, he, hc]

theorem groupMembers_congr (rt : GxfRuntime) (r1 r2 : GXFResource)
    (hn : r1.name_ = r2.name_) (he : r1.gxf_eid_ = r2.gxf_eid_) (ds : List Int) :
    GXFResource.groupMembers rt r1 ds = GXFResource.groupMembers rt r2 ds := by
  induction ds with
  | nil => rfl
  | cons d ds ih => simp only [GXFResource.groupMembers, hn, he, ih]

theorem groupMembers_append (rt : GxfRuntime) (r : GXFResource) (ds1 ds2 : List Int) :
    GXFResource.groupMembers rt r (ds1 ++ ds2)
      = GXFResource.groupMembers rt r ds1 ++ GXFResource.groupMembers rt r ds2 := by
  induction ds1 with
  | nil => rfl
  | cons d ds ih => simp [GXFResource.groupMembers, ih]

theorem forwardsParams_congr (rt : GxfRuntime) (r1 r2 : GXFResource) (t1 t2 : Option Nat)
    (ht : GXFResource.resolvedAllocatorTid rt t1 = GXFResource.resolvedAllocatorTid rt t2)
    (hn : r1.name_ = r2.name_) (he : r1.gxf_eid_ = r2.gxf_eid_)
    (hc : r1.gxf_cname_ = r2.gxf_cname_) (params : List (String × ParameterWrapper))
    (events : List Event) (h : GXFResource.forwardsParams rt r1 t1 params events) :
    GXFResource.forwardsParams rt r2 t2 params events := by
  unfold GXFResource.forwardsParams at h ⊢
  rw [← handledDevId_congr rt r1 r2 t1 t2 ht he hc, ← groupMembers_congr rt r1 r2 hn he,
    ← hn, ← he]
  exact h

theorem forwardsParams_nil (rt : GxfRuntime) (r : GXFResource) (tid : Option Nat) :
    GXFResource.forwardsParams rt r tid [] [] := by
  simp [GXFResource.forwardsParams, GXFResource.groupMembers]

theorem forwardsParams_append (rt : GxfRuntime) (r : GXFResource) (tid : Option Nat)
    (p1 p2 : List (String × ParameterWrapper)) (e1 e2 : List Event)
    (h1 : GXFResource.forwardsParams rt r tid p1 e1)
    (h2 : GXFResource.forwardsParams rt r tid p2 e2) :
    GXFResource.forwardsParams rt r tid (p1 ++ p2) (e1 ++ e2) := by
  obtain ⟨a1, a2, a3, a4⟩ := h1
  obtain ⟨b1, b2, b3, b4⟩ := h2
  unfold GXFResource.forwardsParams
  simp only [List.filterMap_append, List.filter_append, List.map_append, a1, a2, a3, a4, b1,
    b2, b3, b4, groupMembers_append, and_self]

theorem setHandlerParams_events (rt : GxfRuntime) (r : GXFResource)
    (params : List (String × ParameterWrapper)) :
    ∀ (tid tid' : Option Nat) (ev : List Event),
      GXFResource.setHandlerParams rt r tid params = (tid', ev, .returned) →
      GXFResource.forwardsParams rt r tid params ev := by
  induction params with
  | nil =>
    intro tid tid' ev h
    simp only [GXFResource.setHandlerParams, Prod.mk.injEq, and_true] at h
    obtain ⟨_, rfl⟩ := h
    exact forwardsParams_nil rt r tid
  | cons kp rest ih =>
    intro tid tid' ev h
    obtain ⟨key, pw⟩ := kp
    unfold GXFResource.setHandlerParams at h
    rcases h1 : GXFResource.setHandlerParam rt r tid key pw with ⟨t1, e1, o1⟩
    rw [h1] at h
    cases o1 with
    | returned =>
      simp only at h
      rcases h2 : GXFResource.setHandlerParams rt r t1 rest with ⟨t2, e2, o2⟩
      rw [h2] at h
      simp only [Prod.mk.injEq] at h
      obtain ⟨_, rfl, rfl⟩ := h
      obtain ⟨hres, hfirst⟩ := setHandlerParam_events rt r tid t1 key pw e1 h1
      have hrest := forwardsParams_congr rt r r t1 tid hres rfl rfl rfl rest e2
        (ih t1 t2 e2 h2)
      exact forwardsParams_append rt r tid [(key, pw)] rest e1 e2 hfirst hrest
    | thrown w => simp at h
    | aborted w => simp at h

theorem setArguments_events (name : String) (args : List Arg) :
    ∀ params : List (String × ParameterWrapper),
      (GXFResource.setArguments name params args).2.filterMap Event.forwardedKey = [] ∧
      (GXFResource.setArguments name params args).2.filterMap Event.createdGroup = [] ∧
      (GXFResource.setArguments name params args).2.filterMap Event.createdDevice = [] ∧
      (GXFResource.setArguments name params args).2.filterMap Event.groupMember = [] := by
  induction args with
  | nil => intro params; simp [GXFResource.setArguments]
  | cons arg rest ih =>
    intro params
    unfold GXFResource.setArguments
    cases params.lookup arg.name with
    | none =>
      obtain ⟨a1, a2, a3, a4⟩ := ih params
      simp [List.filterMap, Event.forwardedKey, Event.createdGroup, Event.createdDevice,
        Event.groupMember, a1, a2, a3, a4]
    | some pw =>
      obtain ⟨a1, a2, a3, a4⟩ :=
        ih (setEntry arg.name (ArgumentSetter.set_param pw arg) params)
      simp [List.filterMap, Event.forwardedKey, Event.createdGroup, Event.createdDevice,
        Event.groupMember, a1, a2, a3, a4]

theorem createEntityIfUnset_events (rt : GxfRuntime) (r : GXFResource) :
    (GXFResource.createEntityIfUnset rt r).2.2.filterMap Event.forwardedKey = [] ∧
    (GXFResource.createEntityIfUnset rt r).2.2.filterMap Event.createdGroup = [] ∧
    (GXFResource.createEntityIfUnset rt r).2.2.filterMap Event.createdDevice = [] ∧
    (GXFResource.createEntityIfUnset rt r).2.2.filterMap Event.groupMember = [] := by
  unfold GXFResource.createEntityIfUnset HOLOSCAN_GXF_CALL_FATAL
  by_cases h : r.gxf_eid_ = 0
  · cases rt.createEntity <;>
      simp [h, List.filterMap, Event.forwardedKey, Event.createdGroup, Event.createdDevice,
        Event.groupMember]
  · simp [h]

theorem createEntityIfUnset_keeps (rt : GxfRuntime) (r : GXFResource) :
    (GXFResource.createEntityIfUnset rt r).1.is_initialized_ = r.is_initialized_ := by
  unfold GXFResource.createEntityIfUnset
  by_cases h : r.gxf_eid_ = 0
  · cases rt.createEntity <;> simp [h]
  · simp [h]

theorem setParameters_events (rt : GxfRuntime) (tid : Option Nat) (q : GXFResource)
    (spec : ComponentSpec) (ev0 : List Event) (hq : q.is_initialized_ = false)
    (hev0 : ev0.filterMap Event.forwardedKey = [] ∧ ev0.filterMap Event.createdGroup = [] ∧
      ev0.filterMap Event.createdDevice = [] ∧ ev0.filterMap Event.groupMember = [])
    (h : (GXFResource.setParameters rt tid q spec ev0).resource.is_initialized_ = true) :
    ∃ spec', (GXFResource.setParameters rt tid q spec ev0).resource.spec_ = some spec' ∧
      GXFResource.forwardsParams rt (GXFResource.setParameters rt tid q spec ev0).resource tid
        spec'.params (GXFResource.setParameters rt tid q spec ev0).events := by
  unfold GXFResource.setParameters at h ⊢
  have hargs := setArguments_events q.name_ q.args_ spec.params
  revert h hargs
  rcases GXFResource.setArguments q.name_ spec.params q.args_ with ⟨params, ev1⟩
  simp only
  intro h hargs
  revert h
  rcases hsp : GXFResource.setHandlerParams rt
    { q with spec_ := some { spec with params := params } } tid params with ⟨t2, ev2, o⟩
  intro h
  cases o with
  | returned =>
    simp only
    refine ⟨{ spec with params := params }, rfl, ?_⟩
    have hloop := setHandlerParams_events rt _ params tid t2 ev2 hsp
    have hpre : GXFResource.forwardsParams rt
        { q with spec_ := some { spec with params := params } } tid [] (ev0 ++ ev1) := by
      obtain ⟨a1, a2, a3, a4⟩ := hev0
      obtain ⟨b1, b2, b3, b4⟩ := hargs
      simp [GXFResource.forwardsParams, GXFResource.groupMembers, List.filterMap_append, a1, a2,
        a3, a4, b1, b2, b3, b4]
    have hall := forwardsParams_append rt _ tid [] params (ev0 ++ ev1) ev2 hpre hloop
    simp only [List.nil_append] at hall
    exact forwardsParams_congr rt
      { q with spec_ := some { spec with params := params } }
      { q with spec_ := some { spec with params := params }, is_initialized_ := true }
      tid tid rfl rfl rfl rfl params _ hall
  | thrown w => simp [hq] at h
  | aborted w => simp [hq] at h

theorem initialize_events (rt : GxfRuntime) (allocator_tid : Option Nat) (r : GXFResource)
    (h0 : r.is_initialized_ = false)
    (h1 : ( GXFResource.initialize rt allocator_tid r).resource.is_initialized_ = true) :
    ∃ spec, ( GXFResource.initialize rt allocator_tid r).resource.spec_ = some spec ∧
      GXFResource.forwardsParams rt ( GXFResource.initialize rt allocator_tid r).resource
        allocator_tid spec.params ( GXFResource.initialize rt allocator_tid r).events := by
  obtain ⟨name_, id_, init, rtype, frag, spec_, args_, ctx, eid, cid, cname⟩ := r
  simp only at h0
  subst h0
  revert h1
  unfold GXFResource.initialize
  cases frag with
  | none => intro h1; simp at h1
  | some fragment =>
    obtain ⟨fname, ⟨is_gxf, context⟩⟩ := fragment
    cases is_gxf with
    | false => intro h1; simp at h1
    | true =>
      simp only [Bool.false_eq_true, if_false, Bool.not_true]
      split
      · next q evs heq =>
        have hk := congrArg (fun x => x.1.is_initialized_) heq
        simp only [createEntityIfUnset_keeps] at hk
        have hev := createEntityIfUnset_events rt
          { name_ := name_, id_ := id_, is_initialized_ := false, resource_type_ := .kGXF,
            fragment_ := some ⟨fname, ⟨true, context⟩⟩, spec_ := spec_, args_ := args_,
            gxf_context_ := some context, gxf_eid_ := eid, gxf_cid_ := cid,
            gxf_cname_ := cname }
        rw [heq] at hev
        simp only at hev
        split
        · intro h1
          simp [← hk] at h1
        · next spec hspec =>
          intro h1
          refine setParameters_events rt allocator_tid _ spec _ ?_ ?_ h1
          · simp [← hk]
          · obtain ⟨a1, a2, a3, a4⟩ := hev
            simp [List.filterMap_append, a1, a2, a3, a4, List.filterMap, Event.forwardedKey,
              Event.createdGroup, Event.createdDevice, Event.groupMember]
      · next q o evs hne heq =>
        intro h1
        have hk := congrArg (fun x => x.1.is_initialized_) heq
        simp only [createEntityIfUnset_keeps] at hk
        simp [← hk] at h1

/-! ## Claim about the forwarding of parameters -/

/-- C17: a call of `GXFResource::initialize` that runs the loop over the
declared parameters to its end (the resource was not initialized before and
is marked initialized after) makes one `GXFParameterAdaptor::set_param` call
for every declared parameter, in order, except for a parameter named "dev_id"
of a resource whose component is found to be an `nvidia::gxf::Allocator` and
whose `dev_id` holds a value: for such a parameter no `set_param` call is
made; one entity group is created, one GPU-device entity is created with a
component of that device id, and the resource's entity and the device entity
are added to the group.  The parameters being those of a map, with distinct
names, every other parameter is forwarded exactly once. -/
theorem initialize_forwards_each_parameter_once (rt : GxfRuntime)
    (allocator_tid : Option Nat) (r : GXFResource) (h0 : r.is_initialized_ = false)
    (h1 : ( GXFResource.initialize rt allocator_tid r).resource.is_initialized_ = true) :
    ∃ spec, ( GXFResource.initialize rt allocator_tid r).resource.spec_ = some spec ∧
      ( GXFResource.initialize rt allocator_tid r).events.filterMap Event.forwardedKey
        = (spec.params.filter (fun p => (GXFResource.handledDevId rt
            ( GXFResource.initialize rt allocator_tid r).resource allocator_tid p).isNone)).map
            Prod.fst ∧
      ( GXFResource.initialize rt allocator_tid r).events.filterMap Event.createdGroup
        = (spec.params.filterMap (GXFResource.handledDevId rt
            ( GXFResource.initialize rt allocator_tid r).resource allocator_tid)).map
            (GXFResource.entity_group_name
              ( GXFResource.initialize rt allocator_tid r).resource.name_
              ( GXFResource.initialize rt allocator_tid r).resource.gxf_eid_) ∧
      ( GXFResource.initialize rt allocator_tid r).events.filterMap Event.createdDevice
        = (spec.params.filterMap (GXFResource.handledDevId rt
            ( GXFResource.initialize rt allocator_tid r).resource allocator_tid)).map
            (fun d => (rt.createGpuDeviceEntity (GXFResource.device_entity_name
              ( GXFResource.initialize rt allocator_tid r).resource.name_
              ( GXFResource.initialize rt allocator_tid r).resource.gxf_eid_ d), d)) ∧
      ( GXFResource.initialize rt allocator_tid r).events.filterMap Event.groupMember
        = GXFResource.groupMembers rt ( GXFResource.initialize rt allocator_tid r).resource
            (spec.params.filterMap (GXFResource.handledDevId rt
              ( GXFResource.initialize rt allocator_tid r).resource allocator_tid)) ∧
      ((spec.params.map Prod.fst).Nodup → ∀ p ∈ spec.params,
        (( GXFResource.initialize rt allocator_tid r).events.filterMap
            Event.forwardedKey).count p.1
          = if (GXFResource.handledDevId rt
              ( GXFResource.initialize rt allocator_tid r).resource allocator_tid p).isNone
            then 1 else 0) := by
  obtain ⟨spec, hspec, hf, hg, hd, hm⟩ := initialize_events rt allocator_tid r h0 h1
  refine ⟨spec, hspec, hf, hg, hd, hm, ?_⟩
  intro hnodup p hp
  rw [hf]
  have hsub : ((spec.params.filter (fun p => (GXFResource.handledDevId rt
      ( GXFResource.initialize rt allocator_tid r).resource allocator_tid p).isNone)).map
      Prod.fst).Sublist (spec.params.map Prod.fst) :=
    List.Sublist.map _ (List.filter_sublist _)
  by_cases hh : (GXFResource.handledDevId rt
      ( GXFResource.initialize rt allocator_tid r).resource allocator_tid p).isNone = true
  · simp only [hh, if_true]
    apply List.count_eq_one_of_mem (hnodup.sublist hsub)
    exact List.mem_map.mpr ⟨p, List.mem_filter.mpr ⟨hp, hh⟩, rfl⟩
  · simp only [hh]
    simp only [Bool.false_eq_true, if_false]
    apply List.count_eq_zero_of_not_mem
    intro hmem
    obtain ⟨p', hp', hkey⟩ := List.mem_map.mp hmem
    obtain ⟨hp'l, hp'h⟩ := List.mem_filter.mp hp'
    have heq : p' = p := List.inj_on_of_nodup_map hnodup hp'l hp hkey
    subst heq
    exact hh hp'h

/-- Witness for C17: an allocator resource with the parameters `dev_id`,
holding 2, and `block_size`: `block_size` is forwarded, `dev_id` is not, and
one entity group is created. -/
theorem initialize_forwards_each_parameter_once_witness :
    allocatorResource.is_initialized_ = false ∧
    ( GXFResource.initialize sampleRuntime none allocatorResource).resource.is_initialized_
      = true ∧
    ( GXFResource.initialize sampleRuntime none allocatorResource).events.filterMap
      Event.forwardedKey = ["block_size"] ∧
    ( GXFResource.initialize sampleRuntime none allocatorResource).events.filterMap
      Event.createdGroup = ["pool_eid5_dev_id2_group"] ∧
    ( GXFResource.initialize sampleRuntime none allocatorResource).events.filterMap
      Event.groupMember = [(50, 5), (50, 60)] ∧
    ∃ spec, ( GXFResource.initialize sampleRuntime none allocatorResource).resource.spec_
      = some spec :=
  ⟨by decide, by decide, by decide, by decide, by decide,
    (initialize_forwards_each_parameter_once sampleRuntime none allocatorResource
      (by decide) (by decide)).imp (fun _ h => h.1)⟩

/-! ## Facts about conditions and the scheduler -/

theorem countOnly_ready (op : OperatorNode) (N : Int) (e : Nat) (h : op.countOnly N e) :
    op.ready = decide ((e : Int) < N) := by
  obtain ⟨h1, h2, h3⟩ := h
  simp [OperatorNode.ready, h1, h2, h3, Condition.ready]

theorem countOnly_execute (op : OperatorNode) (N : Int) (e : Nat) (h : op.countOnly N e) :
    op.execute.countOnly N (e + 1) ∧ op.execute.name = op.name := by
  obtain ⟨h1, h2, h3⟩ := h
  unfold OperatorNode.execute
  cases hk : op.kind with
  | dummyOp d => simp [OperatorNode.countOnly, h1, h2, h3, Condition.tick]
  | forwardOp => simp [OperatorNode.countOnly, h1, h2, h3, Condition.tick]

theorem budget_pos (s : Scheduler) (hs : 0 < s.threads) : ∃ b, s.budget 1 = b + 1 := by
  cases s with
  | greedy => exact ⟨0, rfl⟩
  | multiThread w =>
    cases w with
    | zero => simp [Scheduler.threads] at hs
    | succ w => exact ⟨w, rfl⟩

theorem tick_single (s : Scheduler) (hs : 0 < s.threads) (name : String) (op : OperatorNode) :
    s.tick ⟨name, [op]⟩
      = if op.ready then (⟨name, [op.execute]⟩, [op.name]) else (⟨name, [op]⟩, []) := by
  obtain ⟨b, hb⟩ := budget_pos s hs
  unfold Scheduler.tick
  simp only [List.length_singleton, hb]
  by_cases hr : op.ready = true
  · cases b <;> simp [Scheduler.dispatch, hr]
  · cases b <;> simp [Scheduler.dispatch, hr]

theorem run_countOnly (s : Scheduler) (hs : 0 < s.threads) (name : String) (N : Int) :
    ∀ (ticks : Nat) (e : Nat) (op : OperatorNode), op.countOnly N e →
      (s.run ticks ⟨name, [op]⟩).2 = List.replicate (min ticks (N - e).toNat) op.name := by
  intro ticks
  induction ticks with
  | zero => intro e op _; simp [Scheduler.run]
  | succ t ih =>
    intro e op h
    unfold Scheduler.run
    rw [tick_single s hs name op, countOnly_ready op N e h]
    by_cases hlt : (e : Int) < N
    · obtain ⟨hex, hname⟩ := countOnly_execute op N e h
      have hrec := ih (e + 1) op.execute hex
      simp only [hlt, decide_True, if_true]
      rw [hrec, hname]
      have h1 : (N - (e : Int)).toNat = (N - ((e + 1 : Nat) : Int)).toNat + 1 := by
        push_cast
        omega
      rw [h1, Nat.succ_min_succ, List.replicate_succ]
      rfl
    · have hrec := ih e op h
      simp only [hlt, decide_False]
      simp only [Bool.false_eq_true, if_false]
      rw [hrec]
      have h0 : (N - (e : Int)).toNat = 0 := by omega
      simp [h0]

theorem dispatch_names (ops : List OperatorNode) :
    ∀ budget : Nat, (Scheduler.dispatch budget ops).2
      = ((ops.filter OperatorNode.ready).take budget).map OperatorNode.name := by
  induction ops with
  | nil => intro budget; cases budget <;> simp [Scheduler.dispatch]
  | cons op rest ih =>
    intro budget
    cases budget with
    | zero => simp [Scheduler.dispatch]
    | succ b =>
      by_cases hr : op.ready = true
      · simp [Scheduler.dispatch, hr, ih b]
      · simp [Scheduler.dispatch, hr, ih (b + 1)]

/-! ## Facts about quiescence -/

theorem tick_kind (c : Condition) : c.tick.kind = c.kind := by
  cases c <;> rfl

theorem remaining_tick_le (l : List Condition) (h : ∀ c ∈ l, c.ready 0 [] = true) :
    ((l.map Condition.tick).map Condition.remaining).sum ≤ (l.map Condition.remaining).sum ∧
    ((∃ c ∈ l, c.kind = .kCount) →
      ((l.map Condition.tick).map Condition.remaining).sum
        < (l.map Condition.remaining).sum) := by
  induction l with
  | nil => simp
  | cons c rest ih =>
    have hrest := ih (fun c hc => h c (List.mem_cons_of_mem _ hc))
    have hc := h c (List.mem_cons_self _ _)
    cases c with
    | count bound executed =>
      simp only [Condition.ready, decide_eq_true_eq] at hc
      have hstep : Condition.remaining (Condition.tick (.count bound executed)) + 1
          = Condition.remaining (.count bound executed) := by
        simp only [Condition.tick, Condition.remaining]
        push_cast
        omega
      simp only [List.map_cons, List.sum_cons]
      refine ⟨by omega, fun _ => by omega⟩
    | noCondition =>
      simp only [List.map_cons, List.sum_cons, Condition.tick, Condition.remaining, Nat.zero_add]
      refine ⟨hrest.1, fun hex => hrest.2 ?_⟩
      obtain ⟨c, hmem, hkind⟩ := hex
      rcases List.mem_cons.mp hmem with rfl | hmem
      · simp [Condition.kind] at hkind
      · exact ⟨c, hmem, hkind⟩
    | messageAvailable m =>
      simp only [List.map_cons, List.sum_cons, Condition.tick, Condition.remaining, Nat.zero_add]
      refine ⟨hrest.1, fun hex => hrest.2 ?_⟩
      obtain ⟨c, hmem, hkind⟩ := hex
      rcases List.mem_cons.mp hmem with rfl | hmem
      · simp [Condition.kind] at hkind
      · exact ⟨c, hmem, hkind⟩
    | downstreamMessageAffordable =>
      simp only [List.map_cons, List.sum_cons, Condition.tick, Condition.remaining, Nat.zero_add]
      refine ⟨hrest.1, fun hex => hrest.2 ?_⟩
      obtain ⟨c, hmem, hkind⟩ := hex
      rcases List.mem_cons.mp hmem with rfl | hmem
      · simp [Condition.kind] at hkind
      · exact ⟨c, hmem, hkind⟩
    | boolean b =>
      simp only [List.map_cons, List.sum_cons, Condition.tick, Condition.remaining, Nat.zero_add]
      refine ⟨hrest.1, fun hex => hrest.2 ?_⟩
      obtain ⟨c, hmem, hkind⟩ := hex
      rcases List.mem_cons.mp hmem with rfl | hmem
      · simp [Condition.kind] at hkind
      · exact ⟨c, hmem, hkind⟩

theorem execute_conditions (op : OperatorNode) :
    op.execute.conditions = op.conditions.map Condition.tick := by
  unfold OperatorNode.execute
  cases op.kind <;> rfl

theorem execute_hasCount (op : OperatorNode) (h : op.hasCount) : op.execute.hasCount := by
  obtain ⟨c, hc, hk⟩ := h
  refine ⟨c.tick, ?_, by rw [tick_kind, hk]⟩
  rw [execute_conditions]
  exact List.mem_map_of_mem _ hc

theorem execute_remaining (op : OperatorNode) (hr : op.ready = true) (h : op.hasCount) :
    op.execute.remaining < op.remaining := by
  have hall : ∀ c ∈ op.conditions, c.ready 0 [] = true := by
    simp only [OperatorNode.ready, Bool.and_eq_true, List.all_eq_true] at hr
    exact hr.1.1
  unfold OperatorNode.remaining
  rw [execute_conditions]
  exact (remaining_tick_le op.conditions hall).2 h

theorem dispatch_remaining (ops : List OperatorNode) :
    ∀ budget : Nat, (∀ op ∈ ops, op.hasCount) →
      (((Scheduler.dispatch budget ops).1.map OperatorNode.remaining).sum
          + (Scheduler.dispatch budget ops).2.length ≤ (ops.map OperatorNode.remaining).sum) ∧
      (∀ op ∈ (Scheduler.dispatch budget ops).1, op.hasCount) := by
  induction ops with
  | nil => intro budget _; cases budget <;> simp [Scheduler.dispatch]
  | cons op rest ih =>
    intro budget hall
    have hop := hall op (List.mem_cons_self _ _)
    have hrest : ∀ o ∈ rest, o.hasCount := fun o ho => hall o (List.mem_cons_of_mem _ ho)
    cases budget with
    | zero => simpa [Scheduler.dispatch] using hall
    | succ b =>
      by_cases hr : op.ready = true
      · obtain ⟨h1, h2⟩ := ih b hrest
        have hlt := execute_remaining op hr hop
        simp only [Scheduler.dispatch, hr, if_true, List.map_cons, List.sum_cons,
          List.length_cons, List.mem_cons]
        refine ⟨by omega, ?_⟩
        rintro o (rfl | ho)
        · exact execute_hasCount op hop
        · exact h2 o ho
      · obtain ⟨h1, h2⟩ := ih (b + 1) hrest
        simp only [Scheduler.dispatch, hr, List.map_cons, List.sum_cons, List.mem_cons]
        simp only [Bool.false_eq_true, if_false, List.map_cons, List.sum_cons, List.mem_cons]
        refine ⟨by omega, ?_⟩
        rintro o (rfl | ho)
        · exact hop
        · exact h2 o ho

theorem dispatch_of_names_nil (ops : List OperatorNode) :
    ∀ budget : Nat, (Scheduler.dispatch budget ops).2 = [] →
      (Scheduler.dispatch budget ops).1 = ops := by
  induction ops with
  | nil => intro budget _; cases budget <;> rfl
  | cons op rest ih =>
    intro budget h
    cases budget with
    | zero => rfl
    | succ b =>
      by_cases hr : op.ready = true
      · simp [Scheduler.dispatch, hr] at h
      · simp only [Scheduler.dispatch, hr] at h ⊢
        simp only [Bool.false_eq_true, if_false] at h ⊢
        rw [ih (b + 1) h]

theorem tick_of_names_nil (s : Scheduler) (f : Fragment) (h : (s.tick f).2 = []) :
    s.tick f = (f, []) := by
  unfold Scheduler.tick at h ⊢
  simp only at h ⊢
  rw [dispatch_of_names_nil _ _ h, h]

theorem run_of_quiescent (s : Scheduler) (f : Fragment) (h : (s.tick f).2 = []) :
    ∀ t : Nat, s.run t f = (f, []) := by
  intro t
  induction t with
  | zero => rfl
  | succ t ih =>
    unfold Scheduler.run
    rw [tick_of_names_nil s f h]
    simp only [ih, List.append_nil]

theorem tick_remaining (s : Scheduler) (f : Fragment) (hall : ∀ op ∈ f.operators, op.hasCount) :
    (s.tick f).1.remaining + (s.tick f).2.length ≤ f.remaining ∧
    (∀ op ∈ (s.tick f).1.operators, op.hasCount) := by
  unfold Scheduler.tick Fragment.remaining
  exact dispatch_remaining f.operators _ hall

theorem run_succ (s : Scheduler) (t : Nat) (f : Fragment) :
    s.run (t + 1) f = ((s.run t (s.tick f).1).1, (s.tick f).2 ++ (s.run t (s.tick f).1).2) := by
  conv_lhs => unfold Scheduler.run

theorem run_quiescent_of_remaining (s : Scheduler) :
    ∀ (t : Nat) (f : Fragment), (∀ op ∈ f.operators, op.hasCount) → f.remaining ≤ t →
      (s.tick (s.run t f).1).2 = [] ∧ (s.run t f).2.length ≤ f.remaining := by
  intro t
  induction t with
  | zero =>
    intro f hall hle
    have h := (tick_remaining s f hall).1
    refine ⟨?_, by simp [Scheduler.run]⟩
    simp only [Scheduler.run]
    exact List.length_eq_zero.mp (by omega)
  | succ t ih =>
    intro f hall hle
    rw [run_succ]
    obtain ⟨h1, h2⟩ := tick_remaining s f hall
    by_cases hn : (s.tick f).2 = []
    · have htick := tick_of_names_nil s f hn
      rw [htick, run_of_quiescent s f hn t]
      simp only [List.append_nil, List.length_nil, Nat.zero_le, and_true]
      exact hn
    · have hpos : 0 < (s.tick f).2.length := List.length_pos.mpr hn
      obtain ⟨i1, i2⟩ := ih (s.tick f).1 h2 (by omega)
      refine ⟨i1, ?_⟩
      simp only [List.length_append]
      omega

theorem run_add (s : Scheduler) (a : Nat) :
    ∀ (b : Nat) (f : Fragment), s.run (a + b) f
      = ((s.run b (s.run a f).1).1, (s.run a f).2 ++ (s.run b (s.run a f).1).2) := by
  induction a with
  | zero => intro b f; simp [Scheduler.run]
  | succ a ih =>
    intro b f
    have : a + 1 + b = (a + b) + 1 := by omega
    rw [this, run_succ, run_succ, ih b (s.tick f).1]
    simp [List.append_assoc]

theorem not_ready_of_names_nil (s : Scheduler) (hs : 0 < s.threads) (f : Fragment)
    (h : (s.tick f).2 = []) : ∀ op ∈ f.operators, op.ready = false := by
  intro op hop
  unfold Scheduler.tick at h
  simp only at h
  rw [dispatch_names] at h
  have hb : 0 < s.budget f.operators.length := by
    cases s with
    | greedy => exact List.length_pos_of_mem hop
    | multiThread w => exact hs
  have hfil : f.operators.filter OperatorNode.ready = [] := by
    cases hfl : f.operators.filter OperatorNode.ready with
    | nil => rfl
    | cons x xs =>
      rw [hfl] at h
      obtain ⟨b, hb'⟩ : ∃ b, s.budget f.operators.length = b + 1 := ⟨_, (Nat.succ_pred_eq_of_pos hb).symm⟩
      rw [hb'] at h
      simp at h
  cases hr : op.ready with
  | false => rfl
  | true =>
    have : op ∈ f.operators.filter OperatorNode.ready := List.mem_filter.mpr ⟨hop, hr⟩
    rw [hfil] at this
    exact absurd this (List.not_mem_nil _)

/-! ## Facts about buffers, `emit` and `receive` -/

theorem lookup_setEntry {β : Type} (name : String) (v : β) (l : List (String × β))
    (h : (l.lookup name).isSome = true) : (setEntry name v l).lookup name = some v := by
  induction l with
  | nil => simp at h
  | cons kw rest ih =>
    obtain ⟨k, w⟩ := kw
    by_cases hk : k = name
    · subst hk
      simp [setEntry, List.lookup]
    · have hne : (name == k) = false := by
        simp only [beq_eq_false_iff_ne, ne_eq]
        exact fun hh => hk hh.symm
      simp only [List.lookup, hne] at h
      simp [setEntry, hk, List.lookup, hne, ih h]

theorem pushAll_eq_none (m : Message) (sinks : List PortBuffer)
    (h : ∃ b ∈ sinks, b.capacity ≤ b.queue.length) : pushAll m sinks = none := by
  induction sinks with
  | nil => simp at h
  | cons b rest ih =>
    by_cases hb : b.capacity ≤ b.queue.length
    · have : b.push m = none := by
        simp [PortBuffer.push, PortBuffer.hasSpace, Nat.not_lt.mpr hb]
      simp [pushAll, this]
    · have hrest : ∃ b ∈ rest, b.capacity ≤ b.queue.length := by
        obtain ⟨c, hc, hfull⟩ := h
        rcases List.mem_cons.mp hc with rfl | hc'
        · exact absurd hfull hb
        · exact ⟨c, hc', hfull⟩
      simp only [pushAll, ih hrest]
      cases b.push m <;> rfl

theorem pushAll_single (m : Message) (b : PortBuffer) (h : b.queue.length < b.capacity) :
    pushAll m [b] = some [{ b with queue := b.queue ++ [m] }] := by
  simp [pushAll, PortBuffer.push, PortBuffer.hasSpace, h]

theorem emit_of_full (ctx : OutputContext) (m : Message) (name : String)
    (sinks : List PortBuffer) (hport : ctx.outputs.lookup name = some sinks)
    (hfull : ∃ b ∈ sinks, b.capacity ≤ b.queue.length) :
    ctx.emit m name
      = (.failedBufferFull, { ctx with calls := ctx.calls ++ [⟨name, m, .failedBufferFull⟩] }) := by
  simp [OutputContext.emit, hport, pushAll_eq_none m sinks hfull]

theorem emit_single (ctx : OutputContext) (m : Message) (name : String) (b : PortBuffer)
    (hport : ctx.outputs.lookup name = some [b]) (h : b.queue.length < b.capacity) :
    ctx.emit m name
      = (.delivered,
          { outputs := setEntry name [{ b with queue := b.queue ++ [m] }] ctx.outputs,
            calls := ctx.calls ++ [⟨name, m, .delivered⟩] }) := by
  simp [OutputContext.emit, hport, pushAll_single m b h]

theorem receive_cons (ctx : InputContext) (name : String) (b : PortBuffer) (m : Message)
    (rest : List Message) (hport : ctx.inputs.lookup name = some b) (hq : b.queue = m :: rest) :
    ctx.receive name
      = (some m, { inputs := setEntry name { b with queue := rest } ctx.inputs }) := by
  simp [InputContext.receive, hport, PortBuffer.pop, hq]

theorem receive_nil (ctx : InputContext) (name : String) (b : PortBuffer)
    (hport : ctx.inputs.lookup name = some b) (hq : b.queue = []) :
    ctx.receive name = (none, ctx) := by
  simp [InputContext.receive, hport, PortBuffer.pop, hq]

theorem edge_emit_eq (e : Edge) (m : Message) :
    e.emit m = if e.buffer.queue.length < e.buffer.capacity
      then (.delivered, { e with buffer := { e.buffer with queue := e.buffer.queue ++ [m] } })
      else (.failedBufferFull, e) := by
  have hport : e.outputContext.outputs.lookup e.src_port = some [e.buffer] := by
    simp [Edge.outputContext, List.lookup]
  by_cases h : e.buffer.queue.length < e.buffer.capacity
  · simp only [Edge.emit, emit_single _ m _ _ hport h, h, if_true]
    simp [Edge.outputContext, setEntry, List.lookup]
  · have hfull : ∃ b ∈ [e.buffer], b.capacity ≤ b.queue.length :=
      ⟨e.buffer, by simp, Nat.not_lt.mp h⟩
    simp only [Edge.emit, emit_of_full _ m _ _ hport hfull, h, if_false]
    simp [Edge.outputContext, List.lookup]

theorem edge_receive_eq (e : Edge) :
    e.receive = match e.buffer.queue with
      | [] => (none, e)
      | m :: rest => (some m, { e with buffer := { e.buffer with queue := rest } }) := by
  have hport : e.inputContext.inputs.lookup e.dst_port = some e.buffer := by
    simp [Edge.inputContext, List.lookup]
  cases hq : e.buffer.queue with
  | nil =>
    simp only [Edge.receive, receive_nil _ _ _ hport hq]
    simp [Edge.inputContext, List.lookup]
  | cons m rest =>
    simp only [Edge.receive, receive_cons _ _ _ m rest hport hq]
    simp [Edge.inputContext, setEntry, List.lookup]

theorem edge_run_fifo (ops : List EdgeOp) :
    ∀ e : Edge, e.buffer.queue ++ (e.run ops).emitted
      = (e.run ops).observed ++ (e.run ops).edge.buffer.queue := by
  induction ops with
  | nil => intro e; simp [Edge.run]
  | cons op ops ih =>
    intro e
    cases op with
    | emit m =>
      unfold Edge.run
      rw [edge_emit_eq]
      by_cases h : e.buffer.queue.length < e.buffer.capacity
      · simp only [h, if_true]
        have := ih { e with buffer := { e.buffer with queue := e.buffer.queue ++ [m] } }
        simpa using this
      · simp only [h, if_false]
        exact ih e
    | receive =>
      unfold Edge.run
      rw [edge_receive_eq]
      cases hq : e.buffer.queue with
      | nil =>
        simp only
        have := ih e
        rw [hq] at this
        exact this
      | cons m rest =>
        simp only
        have := ih { e with buffer := { e.buffer with queue := rest } }
        simpa using this

theorem computeN_chain (k : Nat) :
    ∀ (op_input : InputContext) (op_output : OutputContext) (bin bout : PortBuffer),
      op_input.inputs.lookup "in" = some bin → op_output.outputs.lookup "out" = some [bout] →
      bout.queue.length + k ≤ bout.capacity →
      (ForwardOp.computeN k (op_input, op_output)).1.inputs.lookup "in"
        = some { bin with queue := bin.queue.drop k } ∧
      (ForwardOp.computeN k (op_input, op_output)).2.outputs.lookup "out"
        = some [{ bout with queue := bout.queue ++ bin.queue.take k }] := by
  induction k with
  | zero =>
    intro op_input op_output bin bout hin hout _
    simp [ForwardOp.computeN, hin, hout]
  | succ k ih =>
    intro op_input op_output bin bout hin hout hcap
    unfold ForwardOp.computeN
    cases hq : bin.queue with
    | nil =>
      have hnone : (op_input.receive "in").1 = none := by
        rw [receive_nil op_input "in" bin hin hq]
      rw [compute_of_none op_input op_output hnone]
      have := ih op_input op_output bin bout hin hout (by omega)
      simpa [hq] using this
    | cons m rest =>
      have hrecv := receive_cons op_input "in" bin m rest hin hq
      have hsome : (op_input.receive "in").1 = some m := by rw [hrecv]
      rw [compute_of_some op_input op_output m hsome, hrecv,
        emit_single op_output m "out" bout hout (by omega)]
      have hin' : (setEntry "in" { bin with queue := rest } op_input.inputs).lookup "in"
          = some { bin with queue := rest } := lookup_setEntry _ _ _ (by simp [hin])
      have hout' : (setEntry "out" [{ bout with queue := bout.queue ++ [m] }]
          op_output.outputs).lookup "out" = some [{ bout with queue := bout.queue ++ [m] }] :=
        lookup_setEntry _ _ _ (by simp [hout])
      have := ih ⟨setEntry "in" { bin with queue := rest } op_input.inputs⟩
        ⟨setEntry "out" [{ bout with queue := bout.queue ++ [m] }] op_output.outputs,
          op_output.calls ++ [⟨"out", m, .delivered⟩]⟩
        { bin with queue := rest } { bout with queue := bout.queue ++ [m] } hin' hout'
        (by simp; omega)
      simpa using this

theorem computeN_order (k : Nat) :
    ∀ (op_input : InputContext) (op_output : OutputContext) (bin bout : PortBuffer),
      op_input.inputs.lookup "in" = some bin → op_output.outputs.lookup "out" = some [bout] →
      ∃ l : List Message, l.Sublist (bin.queue.take k) ∧
        (ForwardOp.computeN k (op_input, op_output)).2.outputs.lookup "out"
          = some [{ bout with queue := bout.queue ++ l }] := by
  induction k with
  | zero =>
    intro op_input op_output bin bout _ hout
    exact ⟨[], by simp, by simp [ForwardOp.computeN, hout]⟩
  | succ k ih =>
    intro op_input op_output bin bout hin hout
    unfold ForwardOp.computeN
    cases hq : bin.queue with
    | nil =>
      have hnone : (op_input.receive "in").1 = none := by
        rw [receive_nil op_input "in" bin hin hq]
      rw [compute_of_none op_input op_output hnone]
      obtain ⟨l, hl, hfinal⟩ := ih op_input op_output bin bout hin hout
      rw [hq] at hl
      exact ⟨l, by simpa using hl, hfinal⟩
    | cons m rest =>
      have hrecv := receive_cons op_input "in" bin m rest hin hq
      have hsome : (op_input.receive "in").1 = some m := by rw [hrecv]
      have hin' : (setEntry "in" { bin with queue := rest } op_input.inputs).lookup "in"
          = some { bin with queue := rest } := lookup_setEntry _ _ _ (by simp [hin])
      rw [compute_of_some op_input op_output m hsome, hrecv]
      by_cases hspace : bout.queue.length < bout.capacity
      · rw [emit_single op_output m "out" bout hout hspace]
        have hout' : (setEntry "out" [{ bout with queue := bout.queue ++ [m] }]
            op_output.outputs).lookup "out" = some [{ bout with queue := bout.queue ++ [m] }] :=
          lookup_setEntry _ _ _ (by simp [hout])
        obtain ⟨l, hl, hfinal⟩ := ih ⟨setEntry "in" { bin with queue := rest } op_input.inputs⟩
          ⟨setEntry "out" [{ bout with queue := bout.queue ++ [m] }] op_output.outputs,
            op_output.calls ++ [⟨"out", m, .delivered⟩]⟩
          { bin with queue := rest } { bout with queue := bout.queue ++ [m] } hin' hout'
        refine ⟨m :: l, ?_, ?_⟩
        · simpa using hl
        · simpa using hfinal
      · rw [emit_of_full op_output m "out" [bout] hout
          ⟨bout, by simp, Nat.not_lt.mp hspace⟩]
        obtain ⟨l, hl, hfinal⟩ := ih ⟨setEntry "in" { bin with queue := rest } op_input.inputs⟩
          { op_output with calls := op_output.calls ++ [⟨"out", m, .failedBufferFull⟩] }
          { bin with queue := rest } bout hin' hout
        refine ⟨l, ?_, hfinal⟩
        simp only [List.take_succ_cons]
        exact List.Sublist.cons m (by simpa using hl)

/-! ## Claims about connections, conditions and delivery -/

/-- C6: on every connection, for every interleaving of emits at the source and
receives at the sink, the messages already in the buffer followed by the
messages emitted (those whose emit succeeded) are exactly the messages
observed at the sink followed by the messages still in the buffer, in that
order; so on a connection that starts and ends empty the observed sequence is
the emitted sequence.  A chain through `ForwardOp`: `k` invocations of
`compute` take the first `k` messages off "in" and put them, in the same
order, behind the messages already pending downstream of "out", when the
downstream buffer has room for them; whether it has room or not, what they
put there is a selection of those `k` messages in their original order. -/
theorem connection_is_fifo (e : Edge) (ops : List EdgeOp) :
    e.buffer.queue ++ (e.run ops).emitted
      = (e.run ops).observed ++ (e.run ops).edge.buffer.queue ∧
    (e.buffer.queue = [] → (e.run ops).edge.buffer.queue = [] →
      (e.run ops).observed = (e.run ops).emitted) ∧
    (∀ (k : Nat) (op_input : InputContext) (op_output : OutputContext) (bin bout : PortBuffer),
      op_input.inputs.lookup "in" = some bin → op_output.outputs.lookup "out" = some [bout] →
      bout.queue.length + k ≤ bout.capacity →
      (ForwardOp.computeN k (op_input, op_output)).1.inputs.lookup "in"
        = some { bin with queue := bin.queue.drop k } ∧
      (ForwardOp.computeN k (op_input, op_output)).2.outputs.lookup "out"
        = some [{ bout with queue := bout.queue ++ bin.queue.take k }]) ∧
    (∀ (k : Nat) (op_input : InputContext) (op_output : OutputContext) (bin bout : PortBuffer),
      op_input.inputs.lookup "in" = some bin → op_output.outputs.lookup "out" = some [bout] →
      ∃ l : List Message, l.Sublist (bin.queue.take k) ∧
        (ForwardOp.computeN k (op_input, op_output)).2.outputs.lookup "out"
          = some [{ bout with queue := bout.queue ++ l }]) := by
  refine ⟨edge_run_fifo ops e, ?_, fun k => computeN_chain k, fun k => computeN_order k⟩
  intro h0 h1
  have := edge_run_fifo ops e
  rw [h0, h1] at this
  simpa using this.symm

/-- Witness for C6: two messages emitted on an empty connection of capacity 2,
with a receive in between and two after, are observed in the order they were
emitted. -/
theorem connection_is_fifo_witness :
    ((Edge.mk "out" "in" ⟨2, []⟩).run
        [.emit ⟨"int", [1]⟩, .receive, .emit ⟨"int", [2]⟩, .emit ⟨"int", [3]⟩,
          .receive, .receive]).observed
      = ((Edge.mk "out" "in" ⟨2, []⟩).run
        [.emit ⟨"int", [1]⟩, .receive, .emit ⟨"int", [2]⟩, .emit ⟨"int", [3]⟩,
          .receive, .receive]).emitted ∧
    ((Edge.mk "out" "in" ⟨2, []⟩).run
        [.emit ⟨"int", [1]⟩, .receive, .emit ⟨"int", [2]⟩, .emit ⟨"int", [3]⟩,
          .receive, .receive]).emitted = [⟨"int", [1]⟩, ⟨"int", [2]⟩, ⟨"int", [3]⟩] :=
  ⟨(connection_is_fifo (Edge.mk "out" "in" ⟨2, []⟩)
      [.emit ⟨"int", [1]⟩, .receive, .emit ⟨"int", [2]⟩, .emit ⟨"int", [3]⟩,
        .receive, .receive]).2.1 (by decide) (by decide),
    by decide⟩

/-- C8: the admission test of an operator is the conjunction of the readiness
of every one of its own conditions and of every condition attached to one of
its input or output ports, whatever their kinds; an operator without any
condition is ready.  The scheduler executes only operators that pass the
test: one scan executes the ready operators, in order, as far as its budget
reaches, and the greedy scheduler executes exactly the ready operators. -/
theorem operator_ready_iff_all_conditions (n : OperatorNode) :
    (n.ready = true ↔
      (∀ c ∈ n.conditions, c.ready 0 [] = true) ∧
      (∀ pc ∈ n.input_conditions, pc.2.ready (n.pending pc.1) [] = true) ∧
      (∀ pc ∈ n.output_conditions, pc.2.ready 0 (n.sinks pc.1) = true)) ∧
    (n.conditions = [] → n.input_conditions = [] → n.output_conditions = [] →
      n.ready = true) ∧
    (∀ (budget : Nat) (ops : List OperatorNode), (Scheduler.dispatch budget ops).2
      = ((ops.filter OperatorNode.ready).take budget).map OperatorNode.name) ∧
    (∀ f : Fragment, (Scheduler.greedy.tick f).2
      = (f.operators.filter OperatorNode.ready).map OperatorNode.name) := by
  refine ⟨?_, ?_, fun budget ops => dispatch_names ops budget, ?_⟩
  · simp only [OperatorNode.ready, Bool.and_eq_true, List.all_eq_true, and_assoc]
  · intro h1 h2 h3
    simp [OperatorNode.ready, h1, h2, h3]
  · intro f
    unfold Scheduler.tick
    simp only [Scheduler.budget]
    rw [dispatch_names f.operators f.operators.length]
    congr 1
    exact List.take_of_length_le (List.length_filter_le _ _)

/-- Witness for C8: an operator without conditions is ready, and a greedy
iteration over a fragment that holds it alone executes it. -/
theorem operator_ready_iff_all_conditions_witness :
    unconditionalForwardOp.ready = true ∧
    (Scheduler.greedy.tick ⟨"fragment", [unconditionalForwardOp]⟩).2 = ["forward"] :=
  ⟨(operator_ready_iff_all_conditions unconditionalForwardOp).2.1 rfl rfl rfl,
    by
      rw [(operator_ready_iff_all_conditions unconditionalForwardOp).2.2.2
        ⟨"fragment", [unconditionalForwardOp]⟩]
      decide⟩

/-- C10: an `emit` on a port one of whose downstream buffers is full gives
the operator the explicit result `failedBufferFull`; it places the message on
no buffer, leaves every buffer as it was, records the failed delivery, and it
always returns.  This is so for the `emit` performed by `ForwardOp::compute`:
when it has received a message `m` on "in" and "out" feeds a full buffer, the
`emit` it makes is recorded with the result `failedBufferFull` and `compute`
returns normally, `m` taken off "in" and the buffers behind "out" unchanged
(what to do after a failed delivery is the operator's decision).  With no
condition attached to the output port the admission test does not look at
the downstream buffers, so the operator is executed all the same and gets
that result. -/
theorem emit_to_full_buffer_fails_explicitly (ctx : OutputContext) (m : Message)
    (name : String) (sinks : List PortBuffer)
    (hport : ctx.outputs.lookup name = some sinks)
    (hfull : ∃ b ∈ sinks, b.capacity ≤ b.queue.length) :
    (ctx.emit m name).1 = .failedBufferFull ∧
    (ctx.emit m name).2.outputs = ctx.outputs ∧
    (ctx.emit m name).2.calls = ctx.calls ++ [⟨name, m, .failedBufferFull⟩] ∧
    (name = "out" → ∀ op_input : InputContext, (op_input.receive "in").1 = some m →
      ForwardOp.compute op_input ctx
        = ((op_input.receive "in").2,
            { ctx with calls := ctx.calls ++ [⟨"out", m, .failedBufferFull⟩] })) ∧
    (name = "out" → ∀ n : OperatorNode, n.kind = .forwardOp → n.op_output = ctx →
      n.output_conditions = [] → (n.op_input.receive "in").1 = some m →
      n.ready = (n.conditions.all (fun c => c.ready 0 [])
        && n.input_conditions.all (fun pc => pc.2.ready (n.pending pc.1) [])) ∧
      n.execute.op_output.calls = ctx.calls ++ [⟨"out", m, .failedBufferFull⟩] ∧
      n.execute.op_output.outputs = ctx.outputs ∧
      n.execute.op_input = (n.op_input.receive "in").2) := by
  have h := emit_of_full ctx m name sinks hport hfull
  refine ⟨by rw [h], by rw [h], by rw [h], ?_, ?_⟩
  · intro hname op_input hrecv
    subst hname
    rw [compute_of_some op_input ctx m hrecv, h]
  · intro hname n hkind hout hcond hrecv
    subst hname
    have hc := compute_of_some n.op_input ctx m hrecv
    rw [h] at hc
    refine ⟨by simp [OperatorNode.ready, hcond], ?_, ?_, ?_⟩ <;>
      simp [OperatorNode.execute, hkind, hout, hc]

/-- Witness for C10: `fullOutput` has a full buffer behind "out"; the `emit`
fails explicitly and changes no buffer. -/
theorem emit_to_full_buffer_fails_explicitly_witness :
    fullOutput.outputs.lookup "out" = some [fullBuffer] ∧
    (fullOutput.emit sampleMessage "out").1 = .failedBufferFull ∧
    (fullOutput.emit sampleMessage "out").2.outputs = fullOutput.outputs :=
  ⟨by decide,
    (emit_to_full_buffer_fails_explicitly fullOutput sampleMessage "out" [fullBuffer]
      (by decide) ⟨fullBuffer, by simp, by decide⟩).1,
    (emit_to_full_buffer_fails_explicitly fullOutput sampleMessage "out" [fullBuffer]
      (by decide) ⟨fullBuffer, by simp, by decide⟩).2.1⟩

/-! ## Facts about the serialization buffer -/

theorem serializeAll_data (ms : List Message) :
    ∀ b b' : SerializationBuffer, serializeAll ms b = some b' →
      b' = { b with data := b.data ++ payloadBytes ms } := by
  induction ms with
  | nil =>
    intro b b' h
    simp only [serializeAll, Option.some.injEq] at h
    simp [payloadBytes, ← h]
  | cons m ms ih =>
    intro b b' h
    unfold serializeAll serialize SerializationBuffer.write at h
    by_cases hfit : b.data.length + m.data.length ≤ b.buffer_size
    · simp only [hfit, if_true] at h
      have := ih _ _ h
      simp [this, payloadBytes]
    · simp [hfit] at h

theorem serializeAll_of_fits (ms : List Message) :
    ∀ b : SerializationBuffer, b.data.length + (payloadBytes ms).length ≤ b.buffer_size →
      ∃ b', serializeAll ms b = some b' := by
  induction ms with
  | nil => intro b _; exact ⟨b, rfl⟩
  | cons m ms ih =>
    intro b hfit
    simp only [payloadBytes, List.length_append] at hfit
    have h1 : b.data.length + m.data.length ≤ b.buffer_size := by omega
    unfold serializeAll serialize SerializationBuffer.write
    simp only [h1, if_true]
    apply ih
    simp only [List.length_append]
    omega

theorem deserializeAll_written (ms : List Message) :
    ∀ (cap : Nat) (pre post : List (Fin 256)),
      deserializeAll (ms.map Message.layout) ⟨cap, pre ++ (payloadBytes ms ++ post), pre.length⟩
        = some (ms, ⟨cap, pre ++ (payloadBytes ms ++ post),
            pre.length + (payloadBytes ms).length⟩) := by
  induction ms with
  | nil => intro cap pre post; simp [deserializeAll, payloadBytes]
  | cons m ms ih =>
    intro cap pre post
    have hread : SerializationBuffer.read
        ⟨cap, pre ++ (payloadBytes (m :: ms) ++ post), pre.length⟩ m.data.length
        = some (m.data, ⟨cap, pre ++ (payloadBytes (m :: ms) ++ post),
            pre.length + m.data.length⟩) := by
      unfold SerializationBuffer.read
      have hle : pre.length + m.data.length
          ≤ (pre ++ (payloadBytes (m :: ms) ++ post)).length := by
        simp only [payloadBytes, List.length_append]
        omega
      simp only [payloadBytes, List.append_assoc] at hle ⊢
      simp only [hle, if_true, List.drop_left, List.take_left]
    have hrest := ih cap (pre ++ m.data) post
    simp only [List.append_assoc, List.length_append] at hrest
    simp only [List.map_cons, deserializeAll, deserialize, Message.layout, hread]
    simp only [payloadBytes, List.append_assoc] at hrest ⊢
    rw [hrest]
    simp [Nat.add_assoc]

/-! ## Claim about the serialization round trip -/

/-- C9: on a serialization buffer whose content has been read completely (a
fresh or reset one, for instance), when serializing messages one after the
other succeeds, deserializing with the layouts of these messages gives back
the same messages, byte for byte and in the order written; serializing does
succeed when the payloads fit into the configured byte size.  The buffer of a
resource constructed by `PySerializationBuffer` or `PyUcxSerializationBuffer`
with byte size `buffer_size` is such a buffer, of capacity `buffer_size`. -/
theorem serialization_round_trip (b : SerializationBuffer) (ms : List Message)
    (hread : b.read_offset = b.data.length) :
    (∀ b', serializeAll ms b = some b' →
      deserializeAll (ms.map Message.layout) b'
        = some (ms, { b' with read_offset := b'.data.length })) ∧
    (b.data.length + (payloadBytes ms).length ≤ b.buffer_size →
      ∃ b', serializeAll ms b = some b') ∧
    (∀ (setup : ComponentSpec → ComponentSpec) (fragment : Option FragmentHandle)
        (allocator : Option Nat) (buffer_size : Nat) (name : String),
      SerializationBuffer.ofResource
          (PySerializationBuffer setup fragment allocator buffer_size name)
        = some ⟨buffer_size, [], 0⟩ ∧
      SerializationBuffer.ofResource
          (PyUcxSerializationBuffer setup fragment allocator buffer_size name)
        = some ⟨buffer_size, [], 0⟩) := by
  refine ⟨?_, serializeAll_of_fits ms b, ?_⟩
  · intro b' h
    have hb' := serializeAll_data ms b b' h
    obtain ⟨cap, data, off⟩ := b
    simp only at hread hb'
    subst hread hb'
    have := deserializeAll_written ms cap data []
    simpa using this
  · intro setup fragment allocator buffer_size name
    cases allocator <;>
      simp [SerializationBuffer.ofResource, PySerializationBuffer, PyUcxSerializationBuffer,
        List.find?]

/-- Witness for C9: two messages written to the buffer of a resource
constructed with byte size 8 are read back unchanged and in order. -/
theorem serialization_round_trip_witness :
    serializeAll [⟨"int32", [1, 0, 0, 0]⟩, ⟨"uint16", [255, 1]⟩] ⟨8, [], 0⟩
      = some ⟨8, [1, 0, 0, 0, 255, 1], 0⟩ ∧
    deserializeAll [⟨"int32", 4⟩, ⟨"uint16", 2⟩] ⟨8, [1, 0, 0, 0, 255, 1], 0⟩
      = some ([⟨"int32", [1, 0, 0, 0]⟩, ⟨"uint16", [255, 1]⟩], ⟨8, [1, 0, 0, 0, 255, 1], 6⟩) :=
  ⟨by decide,
    (serialization_round_trip ⟨8, [], 0⟩ [⟨"int32", [1, 0, 0, 0]⟩, ⟨"uint16", [255, 1]⟩]
      rfl).1 ⟨8, [1, 0, 0, 0, 255, 1], 0⟩ (by decide)⟩

/-! ## Facts about `get_int64_arg` -/

theorem get_int64_arg_of_not_mem (args : List String) (name : String) (h : name ∉ args) :
    get_int64_arg args name = .empty false := by
  have hloc : args.indexOf name = args.length := List.indexOf_eq_length.mpr h
  simp [get_int64_arg, hloc]

theorem get_int64_arg_of_mem (args : List String) (name : String) (h : name ∈ args) :
    get_int64_arg args name
      = match args.get? (args.indexOf name + 1) with
        | none => .readPastEnd
        | some str =>
          match stoll str with
          | some v => .value v
          | none => .empty true := by
  have hloc : args.indexOf name ≠ args.length :=
    Nat.ne_of_lt (List.indexOf_lt_length.mpr h)
  simp [get_int64_arg, hloc]

/-! ## `std::stoll` reads back what decimal printing writes -/

theorem digitChar_props (d : Nat) (h : d < 10) :
    (Nat.digitChar d).isDigit = true ∧ (Nat.digitChar d).toNat - 48 = d ∧
    isspace (Nat.digitChar d) = false ∧ Nat.digitChar d ≠ '-' ∧ Nat.digitChar d ≠ '+' := by
  interval_cases d <;> decide

theorem digitsValue_append (ds : List Char) (c : Char) :
    digitsValue (ds ++ [c]) = 10 * digitsValue ds + (c.toNat - 48) := by
  simp [digitsValue, List.foldl_append]

theorem toDigitsCore_value (steps k : Nat) (rest : List Char) (hk : k < steps) :
    ∃ front : List Char, digitsValue front = k ∧ (∀ ch ∈ front, ch.isDigit = true) ∧
      front ≠ [] ∧ Nat.toDigitsCore 10 steps k rest = front ++ rest := by
  induction steps generalizing k rest with
  | zero => omega
  | succ steps ih =>
    have hd := digitChar_props (k % 10) (Nat.mod_lt k (by decide))
    unfold Nat.toDigitsCore
    by_cases h0 : k / 10 = 0
    · have hsmall : k % 10 = k := Nat.mod_eq_of_lt (by omega)
      have hv := hd.2.1
      rw [hsmall] at hv
      refine ⟨[Nat.digitChar (k % 10)], ?_, by simpa using hd.1, by simp, by simp [h0]⟩
      simp [digitsValue, hsmall, hv]
    · obtain ⟨front, hval, hall, _, hcore⟩ :=
        ih (k / 10) (Nat.digitChar (k % 10) :: rest) (by omega)
      refine ⟨front ++ [Nat.digitChar (k % 10)], ?_, ?_, by simp, by simp [h0, hcore]⟩
      · rw [digitsValue_append, hval, hd.2.1]
        omega
      · intro ch hch
        rcases List.mem_append.mp hch with hch | hch
        · exact hall ch hch
        · simp only [List.mem_singleton] at hch
          subst hch
          exact hd.1

theorem natToDec_digits (n : Nat) :
    ∃ ds : List Char, (natToDec n).toList = ds ∧ ds ≠ [] ∧
      (∀ c ∈ ds, c.isDigit = true) ∧ digitsValue ds = n := by
  obtain ⟨ds, hval, hall, hne, hds⟩ := toDigitsCore_value (n + 1) n [] (by omega)
  refine ⟨ds, ?_, hne, hall, hval⟩
  simp [natToDec, Nat.toDigits, hds]

theorem dropWhile_isspace_digits (ds : List Char) (hne : ds ≠ [])
    (hall : ∀ c ∈ ds, c.isDigit = true) : ds.dropWhile isspace = ds := by
  cases ds with
  | nil => exact absurd rfl hne
  | cons c rest =>
    have hc : c.isDigit = true := hall c (by simp)
    have hs : isspace c = false := by
      simp only [Char.isDigit, Bool.and_eq_true, decide_eq_true_eq] at hc
      have h1 : 48 ≤ c.toNat := by
        have := hc.1
        simpa [Char.toNat] using this
      have hne' : c ≠ ' ' := by
        intro h
        subst h
        simp at h1
      simp only [isspace, Bool.or_eq_false_iff, decide_eq_false_iff_not, Bool.and_eq_false_iff]
      exact ⟨hne', Or.inr (by omega)⟩
    simp [List.dropWhile, hs]

theorem takeWhile_isDigit_digits (ds : List Char) (hall : ∀ c ∈ ds, c.isDigit = true) :
    ds.takeWhile Char.isDigit = ds :=
  List.takeWhile_eq_self_iff.mpr hall

theorem stollScan_natToDec (n : Nat) :
    ∃ ds : List Char, stollScan (natToDec n) = (false, ds) ∧ ds ≠ [] ∧ digitsValue ds = n := by
  obtain ⟨ds, hds, hne, hall, hval⟩ := natToDec_digits n
  refine ⟨ds, ?_, hne, hval⟩
  unfold stollScan
  rw [hds, dropWhile_isspace_digits ds hne hall]
  cases ds with
  | nil => exact absurd rfl hne
  | cons c rest =>
    have hc : c.isDigit = true := hall c (by simp)
    have h1 : c ≠ '-' := by
      intro h
      subst h
      simp [Char.isDigit] at hc
    have h2 : c ≠ '+' := by
      intro h
      subst h
      simp [Char.isDigit] at hc
    split
    · next heq => simp only [List.cons.injEq] at heq; exact absurd heq.1 h1
    · next heq => simp only [List.cons.injEq] at heq; exact absurd heq.1 h2
    · rw [takeWhile_isDigit_digits _ hall]

theorem stollScan_neg_natToDec (n : Nat) :
    ∃ ds : List Char, stollScan ("-" ++ natToDec n) = (true, ds) ∧ ds ≠ [] ∧
      digitsValue ds = n := by
  obtain ⟨ds, hds, hne, hall, hval⟩ := natToDec_digits n
  refine ⟨ds, ?_, hne, hval⟩
  have hlist : ("-" ++ natToDec n).toList = '-' :: ds := by
    simp only [String.toList] at hds ⊢
    rw [String.data_append, hds]
    rfl
  unfold stollScan
  rw [hlist]
  have : ('-' :: ds).dropWhile isspace = '-' :: ds := by
    simp [List.dropWhile, isspace]
  rw [this]
  simp only
  rw [takeWhile_isDigit_digits _ hall]

theorem stoll_intToDec (n : Int) (hlo : -9223372036854775808 ≤ n)
    (hhi : n ≤ 9223372036854775807) : stoll (intToDec n) = some n := by
  unfold intToDec
  by_cases hneg : n < 0
  · obtain ⟨ds, hscan, hne, hval⟩ := stollScan_neg_natToDec n.natAbs
    have hv : stollValue (true, ds) = n := by
      simp only [stollValue, hval, if_true]
      omega
    simp only [hneg, if_true, stoll, hscan, hv]
    have : ds.isEmpty = false := by
      cases ds with
      | nil => exact absurd rfl hne
      | cons _ _ => rfl
    simp [this, hlo, hhi]
  · obtain ⟨ds, hscan, hne, hval⟩ := stollScan_natToDec n.natAbs
    have hv : stollValue (false, ds) = n := by
      simp only [stollValue, hval]
      simp only [Bool.false_eq_true, if_false]
      omega
    simp only [hneg, if_false, stoll, hscan, hv]
    have : ds.isEmpty = false := by
      cases ds with
      | nil => exact absurd rfl hne
      | cons _ _ => rfl
    simp [this, hlo, hhi]

/-! ## Claims about the application of ping_distributed.cpp -/

/-- C13 as stated fails: run by `main` with no `--count` argument, the
operator of fragment1 is bounded by a `COUNT` condition of 15, not 10. -/
theorem main_without_count_bounds_tx_by_15 :
    "--count" ∉ ["ping_distributed"] ∧
    (main ["ping_distributed"]).map
        (fun app => (app.operatorsOf "fragment1").map OperatorNode.countBounds) = some [[15]] ∧
    (main ["ping_distributed"]).map
        (fun app => (app.operatorsOf "fragment1").map OperatorNode.countBounds) ≠ some [[10]] := by
  decide

/-- C13, amended: when `main` runs with no `--count` argument, it composes
the application with the count 15, its fallback: the operator "tx" of
fragment1 carries a `COUNT` condition of 15 as its only condition and the
operator "rx" of fragment2 one of 5. -/
theorem main_without_count (argv : List String) (h : "--count" ∉ argv) :
    main argv = some (App.compose ⟨15⟩) ∧
    (App.compose ⟨15⟩).operatorsOf "fragment1"
      = [make_operator_DummyOp "tx" (.count 15 0)] ∧
    (App.compose ⟨15⟩).operatorsOf "fragment2"
      = [make_operator_DummyOp "rx" (.count 5 0)] ∧
    ((App.compose ⟨15⟩).operatorsOf "fragment1").map OperatorNode.countBounds = [[15]] ∧
    ((App.compose ⟨15⟩).operatorsOf "fragment2").map OperatorNode.countBounds = [[5]] := by
  refine ⟨?_, by decide, by decide, by decide, by decide⟩
  simp [main, get_int64_arg_of_not_mem argv "--count" h, App.set_options]

/-- Witness for C13, amended: the argument list that holds the program name
alone. -/
theorem main_without_count_witness :
    "--count" ∉ ["ping_distributed"] ∧ main ["ping_distributed"] = some (App.compose ⟨15⟩) :=
  ⟨by decide, (main_without_count ["ping_distributed"] (by decide)).1⟩

/-- C14 as stated fails: the composed application has the two fragments and
no connection between them. -/
theorem app_compose_declares_no_flow :
    (App.compose App.new).fragments.map Fragment.name = ["fragment1", "fragment2"] ∧
    (App.compose App.new).flows = [] := by
  decide

/-- C14, amended: `App::compose` adds exactly two fragments, named "fragment1"
and "fragment2", in this order, and declares no connection between them; their
operators, "tx" and "rx", are `DummyOp`s, which declare no port, so that no
message passes from one to the other. -/
theorem app_compose_adds_two_unconnected_fragments (app : App) :
    (App.compose app).fragments.map Fragment.name = ["fragment1", "fragment2"] ∧
    (App.compose app).flows = [] ∧
    (App.compose app).fragments.map (fun f => f.operators.map OperatorNode.name)
      = [["tx"], ["rx"]] ∧
    (∀ f ∈ (App.compose app).fragments, ∀ op ∈ f.operators,
      op.op_input.inputs = [] ∧ op.op_output.outputs = []) ∧
    (DummyOp.setup OperatorSpec.empty).inputs = [] ∧
    (DummyOp.setup OperatorSpec.empty).outputs = [] := by
  refine ⟨rfl, rfl, rfl, ?_, rfl, rfl⟩
  intro f hf op hop
  simp only [App.compose, Application.add_fragment, Application.empty, List.nil_append,
    List.cons_append, List.mem_cons, List.mem_singleton, List.not_mem_nil, or_false] at hf
  rcases hf with rfl | rfl
  · simp only [make_fragment_Fragment1, Fragment1.compose, Fragment.add_operator,
      List.nil_append, List.mem_singleton] at hop
    subst hop
    exact ⟨rfl, rfl⟩
  · simp only [make_fragment_Fragment2, Fragment2.compose, Fragment.add_operator,
      List.nil_append, List.mem_singleton] at hop
    subst hop
    exact ⟨rfl, rfl⟩

/-- C15: for every count `c` passed to `App::set_options`, `App::compose`
gives the operator "tx" of fragment1 a `COUNT` condition bound to `c` as its
only condition, and the operator "rx" of fragment2 one bound to 5; fragment2 is
the same for any two values of `c`. -/
theorem app_compose_count_bounds (app : App) (c : Int) :
    (App.compose (app.set_options c)).operatorsOf "fragment1"
      = [make_operator_DummyOp "tx" (.count c 0)] ∧
    ((App.compose (app.set_options c)).operatorsOf "fragment1").map OperatorNode.countBounds
      = [[c]] ∧
    ((App.compose (app.set_options c)).operatorsOf "fragment2").map OperatorNode.countBounds
      = [[5]] ∧
    (∀ (app' : App) (c' : Int), (App.compose (app'.set_options c')).operatorsOf "fragment2"
      = (App.compose (app.set_options c)).operatorsOf "fragment2") := by
  refine ⟨rfl, rfl, rfl, fun _ _ => rfl⟩

/-- C18, the code at the failing input: `name` is the last element of the
argument list; `get_int64_arg` goes on to read the element after it, which is
past the end of the list, instead of returning an empty optional; so does
`main`, which then has no defined result. -/
theorem get_int64_arg_reads_past_end (args : List String) (name : String)
    (h : name ∉ args) :
    get_int64_arg (args ++ [name]) name = .readPastEnd ∧
    (get_int64_arg (args ++ [name]) name).isEmpty = false ∧
    get_int64_arg ["ping_distributed", "--count"] "--count" = .readPastEnd ∧
    main ["ping_distributed", "--count"] = none := by
  have hmem : name ∈ args ++ [name] := by simp
  have hidx : (args ++ [name]).indexOf name = args.length := by
    rw [List.indexOf_append_of_not_mem h]
    simp
  have hget : (args ++ [name]).get? (args.length + 1) = none := by
    apply List.get?_eq_none.mpr
    simp
  have h1 : get_int64_arg (args ++ [name]) name = .readPastEnd := by
    rw [get_int64_arg_of_mem _ _ hmem, hidx, hget]
  refine ⟨h1, by rw [h1]; rfl, by decide, by decide⟩

/-- Instance of C18's theorem: the list `["ping_distributed", "--count"]`. -/
theorem get_int64_arg_reads_past_end_witness :
    "--count" ∉ ["ping_distributed"] ∧
    get_int64_arg (["ping_distributed"] ++ ["--count"]) "--count" = .readPastEnd :=
  ⟨by decide, (get_int64_arg_reads_past_end ["ping_distributed"] "--count" (by decide)).1⟩

/-- C19: for every signed 64-bit integer `n`, `std::stoll` applied to the
decimal rendering of `n` gives `n`; so for every argument list in which the
first occurrence of `name` is immediately followed by that rendering,
`get_int64_arg` returns `n`, and `main`, for the name "--count", composes the
application with the count `n`. -/
theorem get_int64_arg_parses_decimal (args : List String) (name : String) (n : Int)
    (hlo : -9223372036854775808 ≤ n) (hhi : n ≤ 9223372036854775807)
    (hmem : name ∈ args)
    (hnext : args.get? (args.indexOf name + 1) = some (intToDec n)) :
    stoll (intToDec n) = some n ∧
    get_int64_arg args name = .value n ∧
    (name = "--count" → main args = some (App.compose ⟨n⟩)) := by
  have hs := stoll_intToDec n hlo hhi
  have hg : get_int64_arg args name = .value n := by
    rw [get_int64_arg_of_mem args name hmem, hnext]
    simp only [hs]
  refine ⟨hs, hg, ?_⟩
  intro hname
  subst hname
  simp [main, hg, App.set_options]

/-- Witness for C19: the smallest 64-bit integer after "--count". -/
theorem get_int64_arg_parses_decimal_witness :
    intToDec (-9223372036854775808) = "-9223372036854775808" ∧
    get_int64_arg ["ping_distributed", "--count", "-9223372036854775808"] "--count"
      = .value (-9223372036854775808) :=
  ⟨by decide,
    (get_int64_arg_parses_decimal ["ping_distributed", "--count", "-9223372036854775808"]
      "--count" (-9223372036854775808) (by decide) (by decide) (by decide) (by decide)).2.1⟩

/-- C20: when `get_int64_arg` returns a value `v`, `name` occurs in the
argument list and `std::stoll` reads the element right after its first
occurrence as `v`.  It returns an empty optional when `name` does not occur,
and when that element has no digit to read or a value outside the 64-bit
range; with an empty optional for "--count", `main` composes the application
with the count 15. -/
theorem get_int64_arg_value_sound (args : List String) (name : String) :
    (∀ v, get_int64_arg args name = .value v →
      name ∈ args ∧
      ∃ str, args.get? (args.indexOf name + 1) = some str ∧ stoll str = some v) ∧
    (name ∉ args → (get_int64_arg args name).isEmpty = true) ∧
    (∀ str, name ∈ args → args.get? (args.indexOf name + 1) = some str →
      ((stollScan str).2 = [] ∨
        ¬ (-9223372036854775808 ≤ stollValue (stollScan str)
          ∧ stollValue (stollScan str) ≤ 9223372036854775807)) →
      (get_int64_arg args name).isEmpty = true) ∧
    ((get_int64_arg args "--count").isEmpty = true →
      main args = some (App.compose ⟨15⟩)) := by
  refine ⟨?_, ?_, ?_, ?_⟩
  · intro v hv
    by_cases hmem : name ∈ args
    · refine ⟨hmem, ?_⟩
      rw [get_int64_arg_of_mem args name hmem] at hv
      cases hget : args.get? (args.indexOf name + 1) with
      | none =>
        rw [hget] at hv
        cases hv
      | some str =>
        rw [hget] at hv
        simp only at hv
        cases hst : stoll str with
        | none =>
          rw [hst] at hv
          cases hv
        | some w =>
          rw [hst] at hv
          simp only [ArgLookup.value.injEq] at hv
          subst hv
          exact ⟨str, rfl, hst⟩
    · rw [get_int64_arg_of_not_mem args name hmem] at hv
      simp at hv
  · intro hmem
    rw [get_int64_arg_of_not_mem args name hmem]
    rfl
  · intro str hmem hget hbad
    have hst : stoll str = none := by
      unfold stoll
      rcases hbad with hnil | hrange
      · simp [hnil]
      · simp [hrange]
    rw [get_int64_arg_of_mem args name hmem, hget]
    simp only [hst]
    rfl
  · intro hempty
    unfold main
    cases hres : get_int64_arg args "--count" with
    | value v => simp [hres, ArgLookup.isEmpty] at hempty
    | empty logged => rfl
    | readPastEnd => simp [hres, ArgLookup.isEmpty] at hempty

/-- Witness for C20: "--count" followed by an element without digits gives an
empty optional, and `main` falls back to 15. -/
theorem get_int64_arg_value_sound_witness :
    (get_int64_arg ["ping_distributed", "--count", "many"] "--count").isEmpty = true ∧
    main ["ping_distributed", "--count", "many"] = some (App.compose ⟨15⟩) :=
  ⟨(get_int64_arg_value_sound ["ping_distributed", "--count", "many"] "--count").2.2.1
      "many" (by decide) (by decide) (Or.inl (by decide)),
    (get_int64_arg_value_sound ["ping_distributed", "--count", "many"] "--count").2.2.2
      (by decide)⟩

/-! ## Claims about the serialization-buffer constructors and the connectors -/

/-- C12: a resource constructed by `PySerializationBuffer` or by
`PyUcxSerializationBuffer` with byte size `b` has the argument list that
starts with `Arg{"buffer_size", b}`, its only argument of that name, followed
by `Arg{"allocator", a}` when the allocator `a` was supplied and by nothing
when the allocator was null; it has the supplied name and fragment.  Through
the Python constructors, a size left out is
`kDefaultSerializationBufferSize` and a name left out is
"serialization_buffer", each independently of the other, while a size, a
name, an allocator and the fragment that are supplied are the ones the
resource carries. -/
theorem serialization_buffer_constructor_args (setup : ComponentSpec → ComponentSpec)
    (fragment : Option FragmentHandle) (allocator : Option Nat) (b : Nat) (name : String)
    (kDefaultSerializationBufferSize : Nat) :
    (PySerializationBuffer setup fragment allocator b name).args_
      = ⟨"buffer_size", .size b⟩ ::
          (match allocator with
           | some a => [⟨"allocator", .handle a⟩]
           | none => []) ∧
    (PyUcxSerializationBuffer setup fragment allocator b name).args_
      = (PySerializationBuffer setup fragment allocator b name).args_ ∧
    (PySerializationBuffer setup fragment allocator b name).args_.filter
        (fun arg => arg.name = "buffer_size") = [⟨"buffer_size", .size b⟩] ∧
    ((∃ arg ∈ (PySerializationBuffer setup fragment allocator b name).args_,
        arg.name = "allocator") ↔ allocator ≠ none) ∧
    (PySerializationBuffer setup fragment allocator b name).name_ = name ∧
    (PySerializationBuffer setup fragment allocator b name).fragment_ = fragment ∧
    (PyUcxSerializationBuffer setup fragment allocator b name).name_ = name ∧
    (PyUcxSerializationBuffer setup fragment allocator b name).fragment_ = fragment ∧
    (SerializationBuffer.py_init kDefaultSerializationBufferSize setup fragment allocator
        none none).args_.filter (fun arg => arg.name = "buffer_size")
      = [⟨"buffer_size", .size kDefaultSerializationBufferSize⟩] ∧
    (SerializationBuffer.py_init kDefaultSerializationBufferSize setup fragment allocator
        none none).name_ = "serialization_buffer" ∧
    (UcxSerializationBuffer.py_init kDefaultSerializationBufferSize setup fragment allocator
        none none).args_.filter (fun arg => arg.name = "buffer_size")
      = [⟨"buffer_size", .size kDefaultSerializationBufferSize⟩] ∧
    (UcxSerializationBuffer.py_init kDefaultSerializationBufferSize setup fragment allocator
        none none).name_ = "serialization_buffer" ∧
    (∀ (size : Option Nat) (given_name : Option String),
      (SerializationBuffer.py_init kDefaultSerializationBufferSize setup fragment allocator
          size given_name).args_
        = ⟨"buffer_size", .size (match size with
                                 | some supplied => supplied
                                 | none => kDefaultSerializationBufferSize)⟩ ::
            (match allocator with
             | some a => [⟨"allocator", .handle a⟩]
             | none => []) ∧
      (SerializationBuffer.py_init kDefaultSerializationBufferSize setup fragment allocator
          size given_name).name_
        = (match given_name with
           | some supplied => supplied
           | none => "serialization_buffer") ∧
      (SerializationBuffer.py_init kDefaultSerializationBufferSize setup fragment allocator
          size given_name).fragment_ = fragment ∧
      (UcxSerializationBuffer.py_init kDefaultSerializationBufferSize setup fragment allocator
          size given_name).args_
        = (SerializationBuffer.py_init kDefaultSerializationBufferSize setup fragment allocator
          size given_name).args_ ∧
      (UcxSerializationBuffer.py_init kDefaultSerializationBufferSize setup fragment allocator
          size given_name).name_
        = (SerializationBuffer.py_init kDefaultSerializationBufferSize setup fragment allocator
          size given_name).name_ ∧
      (UcxSerializationBuffer.py_init kDefaultSerializationBufferSize setup fragment allocator
          size given_name).fragment_ = fragment) := by
  have hpy : ∀ (size : Option Nat) (given_name : Option String),
      (SerializationBuffer.py_init kDefaultSerializationBufferSize setup fragment allocator
          size given_name).args_
        = ⟨"buffer_size", .size (match size with
                                 | some supplied => supplied
                                 | none => kDefaultSerializationBufferSize)⟩ ::
            (match allocator with
             | some a => [⟨"allocator", .handle a⟩]
             | none => []) ∧
      (SerializationBuffer.py_init kDefaultSerializationBufferSize setup fragment allocator
          size given_name).name_
        = (match given_name with
           | some supplied => supplied
           | none => "serialization_buffer") ∧
      (SerializationBuffer.py_init kDefaultSerializationBufferSize setup fragment allocator
          size given_name).fragment_ = fragment ∧
      (UcxSerializationBuffer.py_init kDefaultSerializationBufferSize setup fragment allocator
          size given_name).args_
        = (SerializationBuffer.py_init kDefaultSerializationBufferSize setup fragment allocator
          size given_name).args_ ∧
      (UcxSerializationBuffer.py_init kDefaultSerializationBufferSize setup fragment allocator
          size given_name).name_
        = (SerializationBuffer.py_init kDefaultSerializationBufferSize setup fragment allocator
          size given_name).name_ ∧
      (UcxSerializationBuffer.py_init kDefaultSerializationBufferSize setup fragment allocator
          size given_name).fragment_ = fragment := by
    intro size given_name
    cases size <;> cases given_name <;> cases allocator <;>
      exact ⟨rfl, rfl, rfl, rfl, rfl, rfl⟩
  cases allocator with
  | none =>
    refine ⟨rfl, rfl, ?_, ?_, rfl, rfl, rfl, rfl, ?_, rfl, ?_, rfl, hpy⟩ <;>
      simp [PySerializationBuffer, PyUcxSerializationBuffer, SerializationBuffer.py_init,
        UcxSerializationBuffer.py_init, List.filter]
  | some a =>
    refine ⟨rfl, rfl, ?_, ?_, rfl, rfl, rfl, rfl, ?_, rfl, ?_, rfl, hpy⟩ <;>
      simp [PySerializationBuffer, PyUcxSerializationBuffer, SerializationBuffer.py_init,
        UcxSerializationBuffer.py_init, List.filter]

/-- C16: a port on which `connector()` has not been called, whatever
conditions have been added to it, has the connector type `DEFAULT`, and so
have the ports `ForwardOp::setup` declares; a `DEFAULT` connector results in a
double-buffered receiver for an input port and in a double-buffered
transmitter for an output port: `DoubleBufferReceiver` and
`DoubleBufferTransmitter`, or their annotated variants when flow tracking is
enabled. -/
theorem default_connector_is_double_buffered (name : String) (io_type : IOType)
    (typeinfo : PayloadType) (kinds : List ConditionType) (flow_tracking : Bool) :
    (kinds.foldl IOSpec.condition (IOSpec.new name io_type typeinfo)).connector_type
      = .kDefault ∧
    (∀ io ∈ (ForwardOp.setup OperatorSpec.empty).inputs
        ++ (ForwardOp.setup OperatorSpec.empty).outputs, io.connector_type = .kDefault) ∧
    (∀ io : IOSpec, io.connector_type = .kDefault →
      (io.resolveConnector flow_tracking).isDoubleBuffered = true ∧
      (io.io_type = .kInput → (io.resolveConnector flow_tracking).isReceiver = true) ∧
      (io.io_type = .kOutput → (io.resolveConnector flow_tracking).isReceiver = false) ∧
      (io.io_type = .kInput → io.resolveConnector false = .DoubleBufferReceiver) ∧
      (io.io_type = .kOutput → io.resolveConnector false = .DoubleBufferTransmitter)) := by
  refine ⟨?_, by decide, ?_⟩
  · have h : ∀ (ks : List ConditionType) (io : IOSpec),
        (ks.foldl IOSpec.condition io).connector_type = io.connector_type := by
      intro ks
      induction ks with
      | nil => intro io; rfl
      | cons k ks ih => intro io; rw [List.foldl_cons, ih]; rfl
    rw [h]
    rfl
  · intro io hdef
    obtain ⟨n, t, ty, ct, cs⟩ := io
    simp only at hdef
    subst hdef
    cases t <;> cases flow_tracking <;> simp [IOSpec.resolveConnector,
      ConnectorResource.isDoubleBuffered, ConnectorResource.isReceiver]

/-- Witness for C16: an input port with a `MESSAGE_AVAILABLE` condition added
and no connector chosen gets a `DoubleBufferReceiver`. -/
theorem default_connector_is_double_buffered_witness :
    ((IOSpec.new "in" .kInput .any).condition .kMessageAvailable).connector_type = .kDefault ∧
    ((IOSpec.new "in" .kInput .any).condition .kMessageAvailable).resolveConnector false
      = .DoubleBufferReceiver :=
  ⟨(default_connector_is_double_buffered "in" .kInput .any [.kMessageAvailable] false).1,
    ((default_connector_is_double_buffered "in" .kInput .any [.kMessageAvailable] false).2.2
      ((IOSpec.new "in" .kInput .any).condition .kMessageAvailable) rfl).2.2.2.1 rfl⟩

/-! ## The events of the second loop -/

theorem forwardParam_loopEvents (rt : GxfRuntime) (r : GXFResource) (key : String) :
    (GXFResource.forwardParam rt r key).all Event.isLoopEvent = true := by
  unfold GXFResource.forwardParam HOLOSCAN_GXF_CALL
  cases rt.setParam r.gxf_cid_ key <;>
    simp [List.all_append, Event.isLoopEvent, Event.appliedArg, Event.isEntityCreation]

theorem handleDevId_loopEvents (rt : GxfRuntime) (r : GXFResource) (d : Int) :
    (GXFResource.handleDevId rt r d).1.all Event.isLoopEvent = true := by
  unfold GXFResource.handleDevId GXF_ASSERT_SUCCESS
  by_cases h : rt.updateEntityGroup
      (rt.addEntityGroup (GXFResource.entity_group_name r.name_ r.gxf_eid_ d)) r.gxf_eid_ = true
  · simp [h, List.all_append, Event.isLoopEvent, Event.appliedArg, Event.isEntityCreation]
  · simp [h, List.all_append, Event.isLoopEvent, Event.appliedArg, Event.isEntityCreation]

theorem setHandlerParam_loopEvents (rt : GxfRuntime) (r : GXFResource) (tid : Option Nat)
    (key : String) (pw : ParameterWrapper) :
    (GXFResource.setHandlerParam rt r tid key pw).2.1.all Event.isLoopEvent = true := by
  have hf := forwardParam_loopEvents rt r key
  unfold GXFResource.setHandlerParam
  by_cases hk : key = "dev_id"
  · subst hk
    simp only [if_true]
    cases tid with
    | some t =>
      simp only
      split
      · split
        · next d =>
          have hd := handleDevId_loopEvents rt r d
          rcases hh : GXFResource.handleDevId rt r d with ⟨evs, o⟩
          rw [hh] at hd
          cases o <;>
            simp_all [List.all_append, Event.isLoopEvent, Event.appliedArg,
              Event.isEntityCreation]
        · simp_all [List.all_append, Event.isLoopEvent, Event.appliedArg,
            Event.isEntityCreation]
        · simp_all [List.all_append, Event.isLoopEvent, Event.appliedArg,
            Event.isEntityCreation]
      · simp_all [List.all_append, Event.isLoopEvent, Event.appliedArg,
          Event.isEntityCreation]
    | none =>
      cases hc : rt.componentTypeId "nvidia::gxf::Allocator" with
      | ok t =>
        simp only
        split
        · split
          · next d =>
            have hd := handleDevId_loopEvents rt r d
            rcases hh : GXFResource.handleDevId rt r d with ⟨evs, o⟩
            rw [hh] at hd
            cases o <;>
              simp_all [List.all_append, Event.isLoopEvent, Event.appliedArg,
                Event.isEntityCreation]
          · simp_all [List.all_append, Event.isLoopEvent, Event.appliedArg,
              Event.isEntityCreation]
          · simp_all [List.all_append, Event.isLoopEvent, Event.appliedArg,
              Event.isEntityCreation]
        · simp_all [List.all_append, Event.isLoopEvent, Event.appliedArg,
            Event.isEntityCreation]
      | error c =>
        simp only
        split
        · split
          · next d =>
            have hd := handleDevId_loopEvents rt r d
            rcases hh : GXFResource.handleDevId rt r d with ⟨evs, o⟩
            rw [hh] at hd
            cases o <;>
              simp_all [List.all_append, Event.isLoopEvent, Event.appliedArg,
                Event.isEntityCreation]
          · simp_all [List.all_append, Event.isLoopEvent, Event.appliedArg,
              Event.isEntityCreation]
          · simp_all [List.all_append, Event.isLoopEvent, Event.appliedArg,
              Event.isEntityCreation]
        · simp_all [List.all_append, Event.isLoopEvent, Event.appliedArg,
            Event.isEntityCreation]
  · simp only [hk, if_false]
    exact hf

theorem setHandlerParams_loopEvents (rt : GxfRuntime) (r : GXFResource)
    (params : List (String × ParameterWrapper)) :
    ∀ tid : Option Nat,
      (GXFResource.setHandlerParams rt r tid params).2.1.all Event.isLoopEvent = true := by
  induction params with
  | nil => intro tid; simp [GXFResource.setHandlerParams]
  | cons kp rest ih =>
    intro tid
    obtain ⟨key, pw⟩ := kp
    have h1 := setHandlerParam_loopEvents rt r tid key pw
    unfold GXFResource.setHandlerParams
    revert h1
    rcases GXFResource.setHandlerParam rt r tid key pw with ⟨t1, e1, o1⟩
    intro h1
    cases o1 with
    | returned =>
      have h2 := ih t1
      rcases h2e : GXFResource.setHandlerParams rt r t1 rest with ⟨t2, e2, o2⟩
      rw [h2e] at h2
      simp only [h2e, List.all_append, Bool.and_eq_true]
      exact ⟨h1, h2⟩
    | thrown w => exact h1
    | aborted w => exact h1

theorem loopEvents_no_creation (events : List Event)
    (h : events.all Event.isLoopEvent = true) :
    events.filter Event.isEntityCreation = [] ∧ events.filterMap Event.appliedArg = [] := by
  induction events with
  | nil => simp
  | cons e rest ih =>
    simp only [List.all_cons, Bool.and_eq_true] at h
    obtain ⟨he, hrest⟩ := h
    obtain ⟨i1, i2⟩ := ih hrest
    simp only [Event.isLoopEvent, Bool.and_eq_true, Option.isNone_iff_eq_none,
      Bool.not_eq_true'] at he
    simp [List.filter, List.filterMap, he.1, he.2, i1, i2]

theorem setArguments_no_creation (name : String) (args : List Arg) :
    ∀ params : List (String × ParameterWrapper),
      (GXFResource.setArguments name params args).2.filter Event.isEntityCreation = [] := by
  induction args with
  | nil => intro params; simp [GXFResource.setArguments]
  | cons arg rest ih =>
    intro params
    unfold GXFResource.setArguments
    cases params.lookup arg.name with
    | none =>
      have a := ih params
      simp [List.filter, Event.isEntityCreation, a]
    | some pw =>
      have a := ih (setEntry arg.name (ArgumentSetter.set_param pw arg) params)
      simp [List.filter, Event.isEntityCreation, a]

/-- What `setParameters` leaves behind, in terms of its two loops. -/
theorem setParameters_shape (rt : GxfRuntime) (tid : Option Nat) (q : GXFResource)
    (spec : ComponentSpec) (ev0 : List Event) :
    (GXFResource.setParameters rt tid q spec ev0).events
      = ev0 ++ (GXFResource.setArguments q.name_ spec.params q.args_).2
          ++ (GXFResource.setHandlerParams rt
              { q with spec_ := some { spec with
                  params := (GXFResource.setArguments q.name_ spec.params q.args_).1 } }
              tid (GXFResource.setArguments q.name_ spec.params q.args_).1).2.1 ∧
    (GXFResource.setParameters rt tid q spec ev0).resource.gxf_eid_ = q.gxf_eid_ ∧
    (GXFResource.setParameters rt tid q spec ev0).resource.spec_
      = some { spec with params := (GXFResource.setArguments q.name_ spec.params q.args_).1 } ∧
    (GXFResource.setParameters rt tid q spec ev0).outcome
      = (GXFResource.setHandlerParams rt
              { q with spec_ := some { spec with
                  params := (GXFResource.setArguments q.name_ spec.params q.args_).1 } }
              tid (GXFResource.setArguments q.name_ spec.params q.args_).1).2.2 ∧
    ((GXFResource.setParameters rt tid q spec ev0).resource.is_initialized_ = true →
      q.is_initialized_ = true
        ∨ (GXFResource.setParameters rt tid q spec ev0).outcome = .returned) := by
  unfold GXFResource.setParameters
  rcases GXFResource.setArguments q.name_ spec.params q.args_ with ⟨params, ev1⟩
  simp only
  rcases GXFResource.setHandlerParams rt
    { q with spec_ := some { spec with params := params } } tid params with ⟨t2, ev2, o⟩
  cases o <;> simp

/-! ## The first loop: arguments and declared parameters -/

theorem setEntry_keys {β : Type} (name : String) (v : β) (l : List (String × β)) :
    (setEntry name v l).map Prod.fst = l.map Prod.fst := by
  induction l with
  | nil => rfl
  | cons kw rest ih =>
    obtain ⟨k, w⟩ := kw
    by_cases hk : k = name
    · simp [setEntry, hk]
    · simp [setEntry, hk, ih]

theorem lookup_isSome_keys {β : Type} (name : String) (l : List (String × β)) :
    (l.lookup name).isSome = decide (name ∈ l.map Prod.fst) := by
  induction l with
  | nil => simp
  | cons kw rest ih =>
    obtain ⟨k, w⟩ := kw
    by_cases hk : name = k
    · subst hk
      simp [List.lookup]
    · have hne : (name == k) = false := by simpa using hk
      simp [List.lookup, hne, ih, hk]

theorem isDeclared_of_keys (p q : List (String × ParameterWrapper))
    (h : p.map Prod.fst = q.map Prod.fst) (arg : Arg) : isDeclared p arg = isDeclared q arg := by
  simp only [isDeclared, lookup_isSome_keys, h]

theorem applyArg_keys (params : List (String × ParameterWrapper)) (arg : Arg) :
    (applyArg params arg).map Prod.fst = params.map Prod.fst := by
  unfold applyArg
  cases params.lookup arg.name with
  | none => rfl
  | some pw => exact setEntry_keys _ _ _

theorem applyArg_undeclared (params : List (String × ParameterWrapper)) (arg : Arg)
    (h : isDeclared params arg = false) : applyArg params arg = params := by
  unfold isDeclared at h
  unfold applyArg
  cases hl : params.lookup arg.name with
  | none => rfl
  | some pw => rw [hl] at h; simp at h

theorem setArguments_params (name : String) (args : List Arg) :
    ∀ params : List (String × ParameterWrapper),
      (GXFResource.setArguments name params args).1 = args.foldl applyArg params := by
  induction args with
  | nil => intro params; rfl
  | cons arg rest ih =>
    intro params
    unfold GXFResource.setArguments
    cases hl : params.lookup arg.name with
    | none =>
      have a := ih params
      simp only [List.foldl_cons, applyArg, hl]
      exact a
    | some pw =>
      have a := ih (setEntry arg.name (ArgumentSetter.set_param pw arg) params)
      simp only [List.foldl_cons, applyArg, hl]
      exact a

theorem foldl_applyArg_keys (args : List Arg) :
    ∀ params : List (String × ParameterWrapper),
      (args.foldl applyArg params).map Prod.fst = params.map Prod.fst := by
  induction args with
  | nil => intro params; rfl
  | cons arg rest ih =>
    intro params
    simp only [List.foldl_cons]
    rw [ih, applyArg_keys]

theorem foldl_applyArg_declared (declared : List (String × ParameterWrapper))
    (args : List Arg) :
    ∀ params : List (String × ParameterWrapper),
      params.map Prod.fst = declared.map Prod.fst →
      (args.filter (isDeclared declared)).foldl applyArg params = args.foldl applyArg params := by
  induction args with
  | nil => intro params _; rfl
  | cons arg rest ih =>
    intro params hkeys
    have hd := isDeclared_of_keys params declared hkeys arg
    cases hdecl : isDeclared declared arg with
    | true =>
      simp only [List.filter, hdecl, List.foldl_cons]
      exact ih _ (by rw [applyArg_keys, hkeys])
    | false =>
      rw [hdecl] at hd
      simp only [List.filter, hdecl, List.foldl_cons, applyArg_undeclared params arg hd]
      exact ih _ hkeys

theorem setArguments_applied (name : String) (declared : List (String × ParameterWrapper))
    (args : List Arg) :
    ∀ params : List (String × ParameterWrapper),
      params.map Prod.fst = declared.map Prod.fst →
      (GXFResource.setArguments name params args).2.filterMap Event.appliedArg
        = args.filter (isDeclared declared) := by
  induction args with
  | nil => intro params _; simp [GXFResource.setArguments]
  | cons arg rest ih =>
    intro params hkeys
    have hd := isDeclared_of_keys params declared hkeys arg
    unfold GXFResource.setArguments
    cases hl : params.lookup arg.name with
    | none =>
      have a := ih params hkeys
      have hdecl : isDeclared declared arg = false := by
        rw [← hd]; simp [isDeclared, hl]
      simp [List.filterMap, Event.appliedArg, List.filter, hdecl, a]
    | some pw =>
      have a := ih (setEntry arg.name (ArgumentSetter.set_param pw arg) params)
        (by rw [setEntry_keys, hkeys])
      have hdecl : isDeclared declared arg = true := by
        rw [← hd]; simp [isDeclared, hl]
      simp [List.filterMap, Event.appliedArg, List.filter, hdecl, a]

/-- The result of `initialize` on the path that reaches the two loops. -/
theorem initialize_reaches_loops (rt : GxfRuntime) (allocator_tid : Option Nat)
    (r : GXFResource) (fragment : FragmentHandle) (spec : ComponentSpec)
    (h0 : r.is_initialized_ = false) (hf : r.fragment_ = some fragment)
    (hg : fragment.executor.is_gxf = true) (hs : r.spec_ = some spec)
    (he : r.gxf_eid_ ≠ 0 ∨ rt.createEntity ≠ none) :
    ∃ (q : GXFResource) (ev0 : List Event),
      GXFResource.initialize rt allocator_tid r
        = GXFResource.setParameters rt allocator_tid q spec ev0 ∧
      q.name_ = r.name_ ∧ q.args_ = r.args_ ∧ q.is_initialized_ = false ∧
      ev0.filterMap Event.appliedArg = [] := by
  obtain ⟨name_, id_, init, rtype, frag, spec_, args_, ctx, eid, cid, cname⟩ := r
  simp only at h0 hf hs he
  subst h0 hf hs
  obtain ⟨fname, ⟨is_gxf, context⟩⟩ := fragment
  simp only at hg
  subst hg
  by_cases heid : eid = 0
  · subst heid
    cases hce : rt.createEntity with
    | none => simp [hce] at he
    | some e =>
      refine ⟨(⟨name_, rt.componentAdd e name_, false, .kGXF,
          some ⟨fname, ⟨true, context⟩⟩, some spec, args_, some context, e,
          rt.componentAdd e name_, name_⟩ : GXFResource),
        [Event.resourceInitialize] ++ ([Event.gxfCreateEntity] ++ [])
          ++ [.gxfInitialize e name_], ?_, rfl, rfl, rfl, ?_⟩
      · simp only [ GXFResource.initialize, GXFResource.createEntityIfUnset, hce,
          HOLOSCAN_GXF_CALL_FATAL, Bool.false_eq_true, if_false, if_true, Bool.not_true]
      · simp [List.filterMap, Event.appliedArg]
  · refine ⟨(⟨name_, rt.componentAdd eid name_, false, .kGXF,
        some ⟨fname, ⟨true, context⟩⟩, some spec, args_, some context, eid,
        rt.componentAdd eid name_, name_⟩ : GXFResource),
      [Event.resourceInitialize] ++ [] ++ [.gxfInitialize eid name_], ?_, rfl, rfl, rfl, ?_⟩
    · simp only [ GXFResource.initialize, GXFResource.createEntityIfUnset, heid,
        Bool.false_eq_true, if_false, Bool.not_true]
    · simp [List.filterMap, Event.appliedArg]

/-- C22: on the path of `GXFResource::initialize` that reaches the first loop
(the resource is not initialized yet, its fragment runs on a `GXFExecutor`,
it has a component specification, and it has an entity or gets one), for
every argument list the `ArgumentSetter::set_param` calls are exactly the
arguments whose name is a declared parameter, once each and in argument
order; the parameters afterwards are the declared ones with those arguments
assigned in that order; an argument whose name is not declared is skipped
with a warning; and the declared parameter names are the same before and
after. -/
theorem initialize_applies_declared_arguments (rt : GxfRuntime) (allocator_tid : Option Nat)
    (r : GXFResource) (fragment : FragmentHandle) (spec : ComponentSpec)
    (h0 : r.is_initialized_ = false) (hf : r.fragment_ = some fragment)
    (hg : fragment.executor.is_gxf = true) (hs : r.spec_ = some spec)
    (he : r.gxf_eid_ ≠ 0 ∨ rt.createEntity ≠ none) :
    ( GXFResource.initialize rt allocator_tid r).events.filterMap Event.appliedArg
      = r.args_.filter (isDeclared spec.params) ∧
    (∃ spec', ( GXFResource.initialize rt allocator_tid r).resource.spec_ = some spec' ∧
      spec'.params.map Prod.fst = spec.params.map Prod.fst ∧
      spec'.params = (r.args_.filter (isDeclared spec.params)).foldl applyArg spec.params) ∧
    (∀ (name : String) (params : List (String × ParameterWrapper)) (arg : Arg)
        (rest : List Arg), isDeclared params arg = false →
      GXFResource.setArguments name params (arg :: rest)
        = ((GXFResource.setArguments name params rest).1,
            Event.log .warn ("Argument '" ++ arg.name ++ "' is not defined in spec")
              :: (GXFResource.setArguments name params rest).2)) := by
  obtain ⟨q, ev0, hinit, hname, hargs, _, hev0⟩ :=
    initialize_reaches_loops rt allocator_tid r fragment spec h0 hf hg hs he
  obtain ⟨s1, _, s3, _, _⟩ := setParameters_shape rt allocator_tid q spec ev0
  refine ⟨?_, ⟨_, by rw [hinit]; exact s3, ?_, ?_⟩, ?_⟩
  · rw [hinit, s1]
    simp only [List.filterMap_append, hev0, List.nil_append]
    rw [(loopEvents_no_creation _ (setHandlerParams_loopEvents rt _ _ _)).2,
      setArguments_applied q.name_ spec.params q.args_ spec.params rfl, hargs]
    simp
  · simp only
    rw [setArguments_params, foldl_applyArg_keys]
  · simp only
    rw [setArguments_params, hargs, foldl_applyArg_declared spec.params r.args_ spec.params rfl]
  · intro name params arg rest hd
    unfold isDeclared at hd
    have hl : params.lookup arg.name = none := by
      cases hl : params.lookup arg.name with
      | none => rfl
      | some pw => rw [hl] at hd; simp at hd
    conv => lhs; unfold GXFResource.setArguments
    simp only [hl]

/-- The `GxfCreateEntity` calls among the events of `initialize`: one when the
call gets as far as the entity and the entity id is 0, none otherwise; and
the entity id afterwards. -/
theorem initialize_creations (rt : GxfRuntime) (allocator_tid : Option Nat) (r : GXFResource) :
    (r.gxf_eid_ ≠ 0 →
      ( GXFResource.initialize rt allocator_tid r).events.filter Event.isEntityCreation = [] ∧
      ( GXFResource.initialize rt allocator_tid r).resource.gxf_eid_ = r.gxf_eid_) ∧
    (r.gxf_eid_ = 0 → r.is_initialized_ = false →
      ∀ fragment, r.fragment_ = some fragment → fragment.executor.is_gxf = true →
      ( GXFResource.initialize rt allocator_tid r).events.filter Event.isEntityCreation
        = [Event.gxfCreateEntity] ∧
      (∀ eid, rt.createEntity = some eid →
        ( GXFResource.initialize rt allocator_tid r).resource.gxf_eid_ = eid) ∧
      (rt.createEntity = none →
        ( GXFResource.initialize rt allocator_tid r).resource.gxf_eid_ = 0 ∧
        ( GXFResource.initialize rt allocator_tid r).outcome
          = .thrown "GXF call GxfCreateEntity failed")) := by
  obtain ⟨name_, id_, init, rtype, frag, spec_, args_, ctx, eid, cid, cname⟩ := r
  cases init with
  | true =>
    refine ⟨fun _ => ?_, fun _ h => ?_⟩
    · simp [ GXFResource.initialize, List.filter, Event.isEntityCreation]
    · simp at h
  | false =>
    cases frag with
    | none =>
      refine ⟨fun _ => ?_, fun _ _ f hf => ?_⟩
      · simp [ GXFResource.initialize, List.filter, Event.isEntityCreation]
      · simp at hf
    | some fragment =>
      obtain ⟨fname, ⟨is_gxf, context⟩⟩ := fragment
      cases is_gxf with
      | false =>
        refine ⟨fun _ => ?_, fun _ _ f hf hg => ?_⟩
        · simp [ GXFResource.initialize, List.filter, Event.isEntityCreation]
        · simp only [Option.some.injEq] at hf
          subst hf
          simp at hg
      | true =>
        refine ⟨fun hne => ?_, fun h0 _ f _ _ => ?_⟩
        · simp only at hne
          cases spec_ with
          | none =>
            simp [ GXFResource.initialize, GXFResource.createEntityIfUnset, hne, List.filter,
              Event.isEntityCreation]
          | some spec =>
            simp only [ GXFResource.initialize, GXFResource.createEntityIfUnset, hne,
              Bool.false_eq_true, if_false, Bool.not_true]
            obtain ⟨s1, s2, -, -, -⟩ := setParameters_shape rt allocator_tid
              { name_ := name_, id_ := rt.componentAdd eid name_, is_initialized_ := false,
                resource_type_ := .kGXF, fragment_ := some ⟨fname, ⟨true, context⟩⟩,
                spec_ := some spec, args_ := args_, gxf_context_ := some context,
                gxf_eid_ := eid, gxf_cid_ := rt.componentAdd eid name_, gxf_cname_ := name_ }
              spec ([Event.resourceInitialize] ++ [] ++ [.gxfInitialize eid name_])
            refine ⟨?_, s2⟩
            rw [s1]
            simp only [List.filter_append]
            rw [setArguments_no_creation,
              (loopEvents_no_creation _ (setHandlerParams_loopEvents rt _ _ _)).1]
            simp [List.filter, Event.isEntityCreation]
        · simp only at h0
          subst h0
          cases hce : rt.createEntity with
          | none =>
            simp [ GXFResource.initialize, GXFResource.createEntityIfUnset, hce,
              HOLOSCAN_GXF_CALL_FATAL, List.filter, Event.isEntityCreation]
          | some e =>
            cases spec_ with
            | none =>
              simp [ GXFResource.initialize, GXFResource.createEntityIfUnset, hce,
                HOLOSCAN_GXF_CALL_FATAL, List.filter, Event.isEntityCreation]
            | some spec =>
              simp only [ GXFResource.initialize, GXFResource.createEntityIfUnset, hce,
                HOLOSCAN_GXF_CALL_FATAL, Bool.false_eq_true, if_false, if_true, Bool.not_true]
              obtain ⟨s1, s2, -, -, -⟩ := setParameters_shape rt allocator_tid
                { name_ := name_, id_ := rt.componentAdd e name_, is_initialized_ := false,
                  resource_type_ := .kGXF, fragment_ := some ⟨fname, ⟨true, context⟩⟩,
                  spec_ := some spec, args_ := args_, gxf_context_ := some context,
                  gxf_eid_ := e, gxf_cid_ := rt.componentAdd e name_, gxf_cname_ := name_ }
                spec ([Event.resourceInitialize] ++ ([Event.gxfCreateEntity] ++ [])
                  ++ [.gxfInitialize e name_])
              refine ⟨?_, ?_, ?_⟩
              · rw [s1]
                simp only [List.filter_append]
                rw [setArguments_no_creation,
                  (loopEvents_no_creation _ (setHandlerParams_loopEvents rt _ _ _)).1]
                simp [List.filter, Event.isEntityCreation]
              · intro eid' he
                cases he
                exact s2
              · intro hn; cases hn

/-- C23: `GXFResource::initialize` calls `GxfCreateEntity` only when the
resource's entity id `gxf_eid_` is 0 at the time of the call.  A resource
with a non-zero entity id triggers no entity creation and keeps that id.  A
resource with entity id 0 that is not initialized and whose fragment runs on
a `GXFExecutor` triggers exactly one creation and gets the id the runtime
hands out; when the creation fails the id stays 0 and the call throws. -/
theorem initialize_creates_entity_only_when_unset (rt : GxfRuntime)
    (allocator_tid : Option Nat) (r : GXFResource) :
    (Event.gxfCreateEntity ∈ ( GXFResource.initialize rt allocator_tid r).events →
      r.gxf_eid_ = 0) ∧
    (r.gxf_eid_ ≠ 0 →
      ( GXFResource.initialize rt allocator_tid r).events.filter Event.isEntityCreation = [] ∧
      ( GXFResource.initialize rt allocator_tid r).resource.gxf_eid_ = r.gxf_eid_) ∧
    (r.gxf_eid_ = 0 → r.is_initialized_ = false →
      ∀ fragment, r.fragment_ = some fragment → fragment.executor.is_gxf = true →
      ( GXFResource.initialize rt allocator_tid r).events.filter Event.isEntityCreation
        = [Event.gxfCreateEntity] ∧
      (∀ eid, rt.createEntity = some eid →
        ( GXFResource.initialize rt allocator_tid r).resource.gxf_eid_ = eid) ∧
      (rt.createEntity = none →
        ( GXFResource.initialize rt allocator_tid r).resource.gxf_eid_ = 0 ∧
        ( GXFResource.initialize rt allocator_tid r).outcome
          = .thrown "GXF call GxfCreateEntity failed")) := by
  obtain ⟨hset, hunset⟩ := initialize_creations rt allocator_tid r
  refine ⟨?_, hset, hunset⟩
  intro hmem
  by_contra hne
  have hin : Event.gxfCreateEntity
      ∈ ( GXFResource.initialize rt allocator_tid r).events.filter Event.isEntityCreation :=
    List.mem_filter.mpr ⟨hmem, rfl⟩
  rw [(hset hne).1] at hin
  cases hin

/-- Witness for C23: a resource attached to entity 5 keeps it and no entity is
created; the same resource without an entity gets entity 7 from the runtime
through one `GxfCreateEntity` call. -/
theorem initialize_creates_entity_only_when_unset_witness :
    sampleResource.gxf_eid_ = 5 ∧
    ( GXFResource.initialize sampleRuntime none sampleResource).events.filter
      Event.isEntityCreation = [] ∧
    ( GXFResource.initialize sampleRuntime none sampleResource).resource.gxf_eid_ = 5 ∧
    mixedArgsResource.gxf_eid_ = 0 ∧
    ( GXFResource.initialize sampleRuntime none mixedArgsResource).events.filter
      Event.isEntityCreation = [Event.gxfCreateEntity] ∧
    ( GXFResource.initialize sampleRuntime none mixedArgsResource).resource.gxf_eid_ = 7 :=
  ⟨rfl,
    ((initialize_creates_entity_only_when_unset sampleRuntime none sampleResource).2.1
      (by decide)).1,
    ((initialize_creates_entity_only_when_unset sampleRuntime none sampleResource).2.1
      (by decide)).2,
    rfl,
    ((initialize_creates_entity_only_when_unset sampleRuntime none mixedArgsResource).2.2
      rfl rfl sampleFragment rfl rfl).1,
    ((initialize_creates_entity_only_when_unset sampleRuntime none mixedArgsResource).2.2
      rfl rfl sampleFragment rfl rfl).2.1 7 rfl⟩

/-- Witness for C22: of the arguments `block_size`, `buffer_size` and `name`
only `buffer_size` is declared: it is the one argument applied, and
`buffer_size` is still the one declared parameter. -/
theorem initialize_applies_declared_arguments_witness :
    mixedArgsResource.is_initialized_ = false ∧
    mixedArgsResource.fragment_ = some sampleFragment ∧
    sampleFragment.executor.is_gxf = true ∧
    mixedArgsResource.spec_ = some ⟨some sampleFragment, [("buffer_size", .size none)]⟩ ∧
    sampleRuntime.createEntity ≠ none ∧
    ( GXFResource.initialize sampleRuntime none mixedArgsResource).events.filterMap
      Event.appliedArg = [⟨"buffer_size", .size 4096⟩] ∧
    ( GXFResource.initialize sampleRuntime none mixedArgsResource).resource.spec_
      = some ⟨some sampleFragment, [("buffer_size", .size (some 4096))]⟩ :=
  ⟨by decide, by decide, by decide, by decide, by decide,
    (initialize_applies_declared_arguments sampleRuntime none mixedArgsResource sampleFragment
      ⟨some sampleFragment, [("buffer_size", .size none)]⟩ (by decide) (by decide) (by decide)
      (by decide) (Or.inr (by decide))).1.trans (by decide),
    by decide⟩

/-! ## The paths of `initialize` that end before the loops -/

/-- A call that marks the resource initialized went through both loops: the
fragment runs on a `GXFExecutor`, there is a component specification, and the
call returned. -/
theorem initialize_marked (rt : GxfRuntime) (allocator_tid : Option Nat) (r : GXFResource)
    (h0 : r.is_initialized_ = false)
    (h1 : ( GXFResource.initialize rt allocator_tid r).resource.is_initialized_ = true) :
    (∃ fragment spec, r.fragment_ = some fragment ∧ fragment.executor.is_gxf = true ∧
      r.spec_ = some spec) ∧
    ( GXFResource.initialize rt allocator_tid r).outcome = .returned := by
  obtain ⟨name_, id_, init, rtype, frag, spec_, args_, ctx, eid, cid, cname⟩ := r
  simp only at h0
  subst h0
  cases frag with
  | none => simp [ GXFResource.initialize] at h1
  | some fragment =>
    obtain ⟨fname, ⟨is_gxf, context⟩⟩ := fragment
    cases is_gxf with
    | false => simp [ GXFResource.initialize] at h1
    | true =>
      cases spec_ with
      | none =>
        exfalso
        revert h1
        by_cases heid : eid = 0
        · cases hce : rt.createEntity <;>
            simp [ GXFResource.initialize, GXFResource.createEntityIfUnset, heid, hce,
              HOLOSCAN_GXF_CALL_FATAL]
        · simp [ GXFResource.initialize, GXFResource.createEntityIfUnset, heid]
      | some spec =>
        refine ⟨⟨_, spec, rfl, rfl, rfl⟩, ?_⟩
        by_cases he : eid ≠ 0 ∨ rt.createEntity ≠ none
        · obtain ⟨q, ev0, hinit, _, _, hq, _⟩ := initialize_reaches_loops rt allocator_tid
            (⟨name_, id_, false, rtype, some ⟨fname, ⟨true, context⟩⟩, some spec, args_, ctx,
              eid, cid, cname⟩ : GXFResource) ⟨fname, ⟨true, context⟩⟩ spec rfl rfl rfl rfl he
          rw [hinit] at h1 ⊢
          rcases (setParameters_shape rt allocator_tid q spec ev0).2.2.2.2 h1 with h | h
          · rw [hq] at h; cases h
          · exact h
        · exfalso
          simp only [not_or, not_not, ne_eq] at he
          obtain ⟨heid, hce⟩ := he
          subst heid
          simp [ GXFResource.initialize, GXFResource.createEntityIfUnset, hce,
            HOLOSCAN_GXF_CALL_FATAL] at h1

/-- C21, amended: a call of `GXFResource::initialize` on a resource that is
not initialized, whose fragment's executor is not a `GXFExecutor` or which
has no component specification, ends with the resource still not marked
initialized, its specification untouched, and without any spec or GXF
parameter set.  It ends by returning, except when the resource has no entity
and `GxfCreateEntity` fails: then it ends by throwing.  A call marks a
resource initialized only on the path that runs the whole parameter loop: the
executor is a `GXFExecutor`, there is a specification, the call returns, and
every declared parameter was forwarded or handled as `dev_id`. -/
theorem initialize_early_exits_leave_uninitialized (rt : GxfRuntime)
    (allocator_tid : Option Nat) (r : GXFResource) (fragment : FragmentHandle)
    (h0 : r.is_initialized_ = false) (hf : r.fragment_ = some fragment)
    (h : fragment.executor.is_gxf = false ∨ r.spec_ = none) :
    ( GXFResource.initialize rt allocator_tid r).resource.is_initialized_ = false ∧
    ( GXFResource.initialize rt allocator_tid r).resource.spec_ = r.spec_ ∧
    ( GXFResource.initialize rt allocator_tid r).events.filter Event.isParamSet = [] ∧
    (fragment.executor.is_gxf = false ∨ r.gxf_eid_ ≠ 0 ∨ rt.createEntity ≠ none →
      ( GXFResource.initialize rt allocator_tid r).outcome = .returned) ∧
    (fragment.executor.is_gxf = true → r.gxf_eid_ = 0 → rt.createEntity = none →
      ( GXFResource.initialize rt allocator_tid r).outcome
        = .thrown "GXF call GxfCreateEntity failed") ∧
    (∀ (rt' : GxfRuntime) (tid' : Option Nat) (r' : GXFResource),
      r'.is_initialized_ = false →
      ( GXFResource.initialize rt' tid' r').resource.is_initialized_ = true →
      (∃ fragment' spec, r'.fragment_ = some fragment' ∧ fragment'.executor.is_gxf = true ∧
        r'.spec_ = some spec) ∧
      ( GXFResource.initialize rt' tid' r').outcome = .returned ∧
      ∃ spec', ( GXFResource.initialize rt' tid' r').resource.spec_ = some spec' ∧
        GXFResource.forwardsParams rt' ( GXFResource.initialize rt' tid' r').resource tid'
          spec'.params ( GXFResource.initialize rt' tid' r').events) := by
  refine ⟨?_, ?_, ?_, ?_, ?_, ?_⟩
  case refine_6 =>
    intro rt' tid' r' h0' h1'
    obtain ⟨a, b⟩ := initialize_marked rt' tid' r' h0' h1'
    exact ⟨a, b, initialize_events rt' tid' r' h0' h1'⟩
  case refine_1 =>
    cases hres : ( GXFResource.initialize rt allocator_tid r).resource.is_initialized_ with
    | false => rfl
    | true =>
      exfalso
      obtain ⟨⟨f, spec, hf', hg, hs⟩, _⟩ := initialize_marked rt allocator_tid r h0 hres
      rw [hf] at hf'
      cases hf'
      rcases h with h | h
      · rw [hg] at h; cases h
      · rw [hs] at h; cases h
  all_goals
    obtain ⟨name_, id_, init, rtype, frag, spec_, args_, ctx, eid, cid, cname⟩ := r
    simp only at h0 hf h
    subst h0 hf
    obtain ⟨fname, ⟨is_gxf, context⟩⟩ := fragment
    simp only at h
    cases is_gxf with
    | false =>
      simp [ GXFResource.initialize, List.filter, Event.isParamSet]
    | true =>
      simp only [Bool.true_eq_false, false_or] at h
      subst h
      by_cases heid : eid = 0
      · cases hce : rt.createEntity <;>
          simp [ GXFResource.initialize, GXFResource.createEntityIfUnset, heid, hce,
            HOLOSCAN_GXF_CALL_FATAL, List.filter, Event.isParamSet]
      · simp [ GXFResource.initialize, GXFResource.createEntityIfUnset, heid,
          List.filter, Event.isParamSet]

/-- Counterexample for C21: a resource without a component specification and
without an entity, in a runtime where `GxfCreateEntity` fails: the call does
not return, it throws. -/
theorem initialize_without_spec_can_throw :
    unboundResource.spec_ = none ∧ unboundResource.is_initialized_ = false ∧
    ( GXFResource.initialize noEntityRuntime none unboundResource).outcome
      = .thrown "GXF call GxfCreateEntity failed" ∧
    ( GXFResource.initialize noEntityRuntime none unboundResource).outcome ≠ .returned := by
  decide

/-- Witness for C21: a resource without a component specification, attached
to an entity: the call returns and the resource is not marked initialized. -/
theorem initialize_early_exits_leave_uninitialized_witness :
    specLessResource.is_initialized_ = false ∧
    specLessResource.fragment_ = some sampleFragment ∧
    specLessResource.spec_ = none ∧
    ( GXFResource.initialize sampleRuntime none specLessResource).resource.is_initialized_
      = false ∧
    ( GXFResource.initialize sampleRuntime none specLessResource).outcome = .returned :=
  ⟨by decide, by decide, by decide,
    (initialize_early_exits_leave_uninitialized sampleRuntime none specLessResource
      sampleFragment (by decide) (by decide) (Or.inr (by decide))).1,
    by decide⟩

/-! ## The entity-group name determines its parts -/

theorem takeWhile_numerals (front : List Char) (stop : Char) (back : List Char)
    (hfront : ∀ c ∈ front, isNumeral c = true) (hstop : isNumeral stop = false) :
    (front ++ stop :: back).takeWhile isNumeral = front := by
  induction front with
  | nil => simp [List.takeWhile, hstop]
  | cons c rest ih =>
    have hc : isNumeral c = true := hfront c (by simp)
    have hrest := ih (fun x hx => hfront x (List.mem_cons_of_mem _ hx))
    simp [List.takeWhile, hc, hrest]

/-- A list that ends in a character which is no numeral, followed by
numerals only, splits in one way. -/
theorem split_at_numerals (x1 x2 : List Char) (s1 s2 : Char) (n1 n2 : List Char)
    (h1 : ∀ c ∈ n1, isNumeral c = true) (h2 : ∀ c ∈ n2, isNumeral c = true)
    (hs1 : isNumeral s1 = false) (hs2 : isNumeral s2 = false)
    (h : x1 ++ [s1] ++ n1 = x2 ++ [s2] ++ n2) :
    x1 ++ [s1] = x2 ++ [s2] ∧ n1 = n2 := by
  have hrev := congrArg List.reverse h
  simp only [List.reverse_append, List.reverse_cons, List.reverse_nil, List.nil_append,
    List.singleton_append, List.append_assoc] at hrev
  have t1 := takeWhile_numerals n1.reverse s1 x1.reverse
    (fun c hc => h1 c (List.mem_reverse.mp hc)) hs1
  have t2 := takeWhile_numerals n2.reverse s2 x2.reverse
    (fun c hc => h2 c (List.mem_reverse.mp hc)) hs2
  have hn : n1.reverse = n2.reverse := by
    rw [← t1, ← t2, hrev]
  have hn' : n1 = n2 := List.reverse_injective hn
  subst hn'
  exact ⟨List.append_cancel_right h, rfl⟩

theorem intToDec_numerals (i : Int) :
    (∀ c ∈ (intToDec i).data, isNumeral c = true) := by
  obtain ⟨ds, hds, _, hall, _⟩ := natToDec_digits i.natAbs
  simp only [String.toList] at hds
  unfold intToDec
  by_cases hneg : i < 0
  · simp only [hneg, if_true, String.data_append, hds]
    intro c hc
    rcases List.mem_append.mp hc with hc | hc
    · have : c = '-' := by simpa using hc
      subst this
      decide
    · simp [isNumeral, hall c hc]
  · simp only [hneg, if_false, hds]
    intro c hc
    simp [isNumeral, hall c hc]

theorem intToDec_injective (a b : Int)
    (ha : -9223372036854775808 ≤ a ∧ a ≤ 9223372036854775807)
    (hb : -9223372036854775808 ≤ b ∧ b ≤ 9223372036854775807)
    (h : intToDec a = intToDec b) : a = b := by
  have h1 := stoll_intToDec a ha.1 ha.2
  have h2 := stoll_intToDec b hb.1 hb.2
  rw [h, h2] at h1
  exact (Option.some.inj h1).symm

theorem entity_group_name_data (name : String) (eid d : Int) :
    (GXFResource.entity_group_name name eid d).data
      = (name.data ++ ['_', 'e', 'i'] ++ ['d'] ++ (intToDec eid).data
          ++ ['_', 'd', 'e', 'v', '_', 'i'] ++ ['d'] ++ (intToDec d).data)
        ++ ['_', 'g', 'r', 'o', 'u', 'p'] := by
  simp [GXFResource.entity_group_name, String.data_append]
/-- C24: the entity-group name "{name}_eid{eid}_dev_id{device_id}_group" is an
injective function of the triple (resource name, entity id, device id), for
every resource name, every 64-bit entity id and every 32-bit device id: equal
group names come from equal triples. -/
theorem entity_group_name_injective (name1 name2 : String) (eid1 eid2 d1 d2 : Int)
    (he1 : -9223372036854775808 ≤ eid1 ∧ eid1 ≤ 9223372036854775807)
    (he2 : -9223372036854775808 ≤ eid2 ∧ eid2 ≤ 9223372036854775807)
    (hd1 : -2147483648 ≤ d1 ∧ d1 ≤ 2147483647)
    (hd2 : -2147483648 ≤ d2 ∧ d2 ≤ 2147483647)
    (h : GXFResource.entity_group_name name1 eid1 d1
          = GXFResource.entity_group_name name2 eid2 d2) :
    name1 = name2 ∧ eid1 = eid2 ∧ d1 = d2 := by
  have hdata := congrArg String.data h
  rw [entity_group_name_data, entity_group_name_data] at hdata
  have hbody := List.append_cancel_right hdata
  obtain ⟨hfront, hdev⟩ := split_at_numerals _ _ 'd' 'd' _ _
    (intToDec_numerals d1) (intToDec_numerals d2) (by decide) (by decide) hbody
  have hfront2 := List.append_cancel_right (List.append_cancel_right hfront)
  obtain ⟨hname, heid⟩ := split_at_numerals _ _ 'd' 'd' _ _
    (intToDec_numerals eid1) (intToDec_numerals eid2) (by decide) (by decide) hfront2
  have hname2 := List.append_cancel_right (List.append_cancel_right hname)
  refine ⟨String.ext hname2, ?_, ?_⟩
  · exact intToDec_injective eid1 eid2 he1 he2 (String.ext heid)
  · exact intToDec_injective d1 d2 ⟨by omega, by omega⟩ ⟨by omega, by omega⟩ (String.ext hdev)

/-- Witness for C24: equal triples give equal names, and triples that differ
in the resource name or in the entity id give different names, also where
the name of one ends like the rendering of the other's entity id. -/
theorem entity_group_name_injective_witness :
    GXFResource.entity_group_name "pool" 5 2 = GXFResource.entity_group_name "pool" 5 2 ∧
    ("pool" = "pool" ∧ (5 : Int) = 5 ∧ (2 : Int) = 2) ∧
    GXFResource.entity_group_name "pool_eid1" 2 3 ≠ GXFResource.entity_group_name "pool" 12 3 ∧
    GXFResource.entity_group_name "pool" (-1) 3 ≠ GXFResource.entity_group_name "pool" 1 3 :=
  ⟨rfl,
    entity_group_name_injective "pool" "pool" 5 5 2 2 (by decide) (by decide) (by decide)
      (by decide) rfl,
    fun h => absurd (entity_group_name_injective "pool_eid1" "pool" 2 12 3 3 (by decide)
      (by decide) (by decide) (by decide) h).1 (by decide),
    fun h => absurd (entity_group_name_injective "pool" "pool" (-1) 1 3 3 (by decide)
      (by decide) (by decide) (by decide) h).2.1 (by decide)⟩

/-! ## Repeated `DummyOp::compute` -/

theorem wrapInt32_of_range (x : Int) (hlo : -2147483648 ≤ x) (hhi : x ≤ 2147483647) :
    wrapInt32 x = x := by
  unfold wrapInt32
  omega

theorem computeN_state (k : Nat) (op : DummyOp) (hlo : -2147483648 ≤ op.index_)
    (hhi : op.index_ + k ≤ 2147483647) :
    (DummyOp.computeN k op).index_ = op.index_ + k ∧
    (DummyOp.computeN k op).log
      = op.log ++ (List.range k).map (fun (i : Nat) => "Execution: " ++ intToDec (op.index_ + (i : Int))) := by
  induction k generalizing op with
  | zero => simp [DummyOp.computeN]
  | succ k ih =>
    have hw : wrapInt32 (op.index_ + 1) = op.index_ + 1 :=
      wrapInt32_of_range _ (by omega) (by push_cast at hhi; omega)
    have hc : op.compute.index_ = op.index_ + 1 := by simp [DummyOp.compute, hw]
    have hl : op.compute.log = op.log ++ ["Execution: " ++ intToDec op.index_] := by
      simp [DummyOp.compute]
    obtain ⟨h1, h2⟩ := ih op.compute (by rw [hc]; omega) (by rw [hc]; push_cast at hhi; omega)
    refine ⟨?_, ?_⟩
    · simp only [DummyOp.computeN]
      rw [h1, hc]; push_cast; ring
    · simp only [DummyOp.computeN]
      rw [h2, hc, hl, List.range_succ_eq_map]
      simp only [List.map_cons, List.map_map, List.append_assoc, List.singleton_append]
      congr 2
      · simp
      · apply List.map_congr_left
        intro i _
        simp only [Function.comp]
        congr 2
        push_cast
        ring

/-- C26: for every k for which k + 1 is still an `int`, after k invocations
of `DummyOp::compute` on a new operator `index()` returns k + 1 and the j-th
invocation (j = 1, ..., k) has logged the value j; an execution of the
operator leaves its input and output contexts as they were (nothing is
received, nothing is emitted); and `setup` declares no port. -/
theorem dummyOp_index_after_k_computes (k : Nat) (hk : k < 2147483647) :
    (DummyOp.computeN k DummyOp.new).index = (k : Int) + 1 ∧
    (DummyOp.computeN k DummyOp.new).log
      = (List.range k).map (fun (i : Nat) => "Execution: " ++ intToDec ((i : Int) + 1)) ∧
    (∀ j : Nat, 0 < j → j ≤ k →
      (DummyOp.computeN k DummyOp.new).log.get? (j - 1)
        = some ("Execution: " ++ intToDec (j : Int))) ∧
    (∀ (n : OperatorNode) (op : DummyOp), n.kind = .dummyOp op →
      n.execute.kind = .dummyOp op.compute ∧ n.execute.op_input = n.op_input
        ∧ n.execute.op_output = n.op_output) ∧
    (∀ spec : OperatorSpec, DummyOp.setup spec = spec) ∧
    (DummyOp.setup OperatorSpec.empty).inputs = [] ∧
    (DummyOp.setup OperatorSpec.empty).outputs = [] := by
  obtain ⟨h1, h2⟩ := computeN_state k DummyOp.new (by decide)
    (by simp only [DummyOp.new]; omega)
  have hlog : (DummyOp.computeN k DummyOp.new).log
      = (List.range k).map (fun (i : Nat) => "Execution: " ++ intToDec ((i : Int) + 1)) := by
    rw [h2]
    simp only [DummyOp.new, List.nil_append]
    apply List.map_congr_left
    intro i _
    congr 2
    ring
  refine ⟨?_, hlog, ?_, ?_, fun _ => rfl, rfl, rfl⟩
  · show (DummyOp.computeN k DummyOp.new).index_ = (k : Int) + 1
    rw [h1]
    simp only [DummyOp.new]
    ring
  · intro j hj hjk
    rw [hlog, List.get?_eq_getElem?, List.getElem?_map, List.getElem?_range (by omega)]
    simp only [Option.map_some']
    congr 3
    omega
  · intro n op hkind
    unfold OperatorNode.execute
    rw [hkind]
    exact ⟨rfl, rfl, rfl⟩

/-- Witness for C26: after three invocations `index()` returns 4 and the
values 1, 2 and 3 have been logged. -/
theorem dummyOp_index_after_k_computes_witness :
    (DummyOp.computeN 3 DummyOp.new).index = 4 ∧
    (DummyOp.computeN 3 DummyOp.new).log = ["Execution: 1", "Execution: 2", "Execution: 3"] :=
  ⟨(dummyOp_index_after_k_computes 3 (by decide)).1, by decide⟩

/-! ## The two Python serialization-buffer constructors -/

/-- C25: the constructors `PySerializationBuffer` and
`PyUcxSerializationBuffer` do the same on their inputs: for every fragment,
allocator, buffer size and name they produce the same argument list, the same
name and the same fragment, and the specification of each is the result of
one call of its base class's `setup` on a fresh `ComponentSpec` bound to that
fragment (a `setup` that declares one parameter leaves exactly that one
declaration).  With the same `setup` the two resources are equal. -/
theorem serialization_buffer_constructors_equivalent
    (setup ucx_setup : ComponentSpec → ComponentSpec)
    (fragment : Option FragmentHandle) (allocator : Option Nat) (buffer_size : Nat)
    (name : String) :
    (PyUcxSerializationBuffer ucx_setup fragment allocator buffer_size name).args_
      = (PySerializationBuffer setup fragment allocator buffer_size name).args_ ∧
    (PyUcxSerializationBuffer ucx_setup fragment allocator buffer_size name).name_
      = (PySerializationBuffer setup fragment allocator buffer_size name).name_ ∧
    (PyUcxSerializationBuffer ucx_setup fragment allocator buffer_size name).fragment_
      = (PySerializationBuffer setup fragment allocator buffer_size name).fragment_ ∧
    (PySerializationBuffer setup fragment allocator buffer_size name).name_ = name ∧
    (PySerializationBuffer setup fragment allocator buffer_size name).fragment_ = fragment ∧
    (PySerializationBuffer setup fragment allocator buffer_size name).spec_
      = some (setup ⟨fragment, []⟩) ∧
    (PyUcxSerializationBuffer ucx_setup fragment allocator buffer_size name).spec_
      = some (ucx_setup ⟨fragment, []⟩) ∧
    (∀ p : String × ParameterWrapper,
      (PySerializationBuffer (fun spec => { spec with params := spec.params ++ [p] })
          fragment allocator buffer_size name).spec_ = some ⟨fragment, [p]⟩ ∧
      (PyUcxSerializationBuffer (fun spec => { spec with params := spec.params ++ [p] })
          fragment allocator buffer_size name).spec_ = some ⟨fragment, [p]⟩) ∧
    { PyUcxSerializationBuffer ucx_setup fragment allocator buffer_size name with
        spec_ := none }
      = { PySerializationBuffer setup fragment allocator buffer_size name with
        spec_ := none } ∧
    PyUcxSerializationBuffer setup fragment allocator buffer_size name
      = PySerializationBuffer setup fragment allocator buffer_size name :=
  ⟨rfl, rfl, rfl, rfl, rfl, rfl, rfl, fun _ => ⟨rfl, rfl⟩, rfl, rfl⟩

/-! ## Operators of a graph: what one execution changes -/

theorem execute_frame (op : OperatorNode) :
    op.execute.name = op.name ∧
    (op.execute.kind = .forwardOp ↔ op.kind = .forwardOp) ∧
    op.execute.input_conditions = op.input_conditions.map (fun pc => (pc.1, pc.2.tick)) ∧
    op.execute.output_conditions = op.output_conditions.map (fun pc => (pc.1, pc.2.tick)) := by
  unfold OperatorNode.execute
  cases hk : op.kind <;> simp

theorem execute_remaining_le (op : OperatorNode) (hr : op.ready = true) :
    op.execute.remaining ≤ op.remaining := by
  have hall : ∀ c ∈ op.conditions, c.ready 0 [] = true := by
    simp only [OperatorNode.ready, Bool.and_eq_true, List.all_eq_true] at hr
    exact hr.1.1
  unfold OperatorNode.remaining
  rw [execute_conditions]
  exact (remaining_tick_le op.conditions hall).1

theorem receive_pending (ctx ctx' : InputContext) (name : String) (m : Message)
    (h : ctx.receive name = (some m, ctx')) :
    ∃ b : PortBuffer, ctx.inputs.lookup name = some b ∧
      ∃ rest, b.queue = m :: rest ∧ ctx'.inputs.lookup name = some { b with queue := rest } := by
  unfold InputContext.receive at h
  cases hl : ctx.inputs.lookup name with
  | none => rw [hl] at h; simp at h
  | some b =>
    rw [hl] at h
    simp only at h
    cases hq : b.queue with
    | nil => simp [PortBuffer.pop, hq] at h
    | cons x rest =>
      simp only [PortBuffer.pop, hq, Prod.mk.injEq, Option.some.injEq] at h
      obtain ⟨hx, hctx⟩ := h
      subst hx
      refine ⟨b, rfl, rest, hq, ?_⟩
      rw [← hctx]
      exact lookup_setEntry name _ ctx.inputs (by simp [hl])

theorem receive_some_of_pending (ctx : InputContext) (name : String) (b : PortBuffer)
    (hl : ctx.inputs.lookup name = some b) (hq : 0 < b.queue.length) :
    ∃ m ctx', ctx.receive name = (some m, ctx') := by
  cases hb : b.queue with
  | nil => simp [hb] at hq
  | cons x rest => exact ⟨x, _, receive_cons ctx name b x rest hl hb⟩

/-- What one execution does to the input buffers and to the record of `emit`
calls: nothing, or one message is taken off "in" by a `ForwardOp` and one
`emit` call on "out" is recorded. -/
theorem execute_io (op : OperatorNode) :
    (op.execute.op_output.calls = op.op_output.calls ∧ op.execute.op_input = op.op_input ∧
      (op.kind = .forwardOp → op.pending "in" = 0)) ∨
    (∃ r : EmitRecord, op.kind = .forwardOp ∧ r.port = "out" ∧
      op.execute.op_output.calls = op.op_output.calls ++ [r] ∧
      op.execute.pending "in" + 1 = op.pending "in") := by
  cases hk : op.kind with
  | dummyOp d =>
    left
    simp [OperatorNode.execute, hk]
  | forwardOp =>
    cases hr : (op.op_input.receive "in").1 with
    | none =>
      left
      have hc := compute_of_none op.op_input op.op_output hr
      refine ⟨by simp [OperatorNode.execute, hk, hc], by simp [OperatorNode.execute, hk, hc], ?_⟩
      intro _
      unfold OperatorNode.pending
      cases hl : op.op_input.inputs.lookup "in" with
      | none => rfl
      | some b =>
        simp only
        by_contra hne
        obtain ⟨m, ctx', hrec⟩ := receive_some_of_pending op.op_input "in" b hl (by omega)
        rw [hrec] at hr
        simp at hr
    | some m =>
      right
      have hc := compute_of_some op.op_input op.op_output m hr
      have hrec : op.op_input.receive "in" = (some m, (op.op_input.receive "in").2) := by
        rw [← hr]
      obtain ⟨b, hl, rest, hq, hl'⟩ := receive_pending _ _ _ _ hrec
      refine ⟨⟨"out", m, (op.op_output.emit m "out").1⟩, rfl, rfl, ?_, ?_⟩
      · simp [OperatorNode.execute, hk, hc, emit_calls]
      · simp [OperatorNode.execute, hk, hc, OperatorNode.pending, hl, hl', hq]

/-! ## Deliveries -/

theorem lookup_map_values {β : Type} (p : String → Bool) (f : β → β) (name : String)
    (l : List (String × β)) :
    (l.map (fun pb => if p pb.1 then (pb.1, f pb.2) else pb)).lookup name
      = (l.lookup name).map (fun b => if p name then f b else b) := by
  induction l with
  | nil => rfl
  | cons kw rest ih =>
    obtain ⟨k, v⟩ := kw
    rw [List.map_cons]
    by_cases hp : p k = true
    · have hhead : (if p (k, v).1 = true then ((k, v).1, f (k, v).2) else (k, v)) = (k, f v) := by
        simp [hp]
      rw [hhead]
      by_cases hk : name = k
      · subst hk
        simp [List.lookup, hp]
      · have hne : (name == k) = false := by simpa using hk
        simp only [List.lookup, hne]
        exact ih
    · have hhead : (if p (k, v).1 = true then ((k, v).1, f (k, v).2) else (k, v)) = (k, v) := by
        simp [hp]
      rw [hhead]
      by_cases hk : name = k
      · subst hk
        simp [List.lookup, hp]
      · have hne : (name == k) = false := by simpa using hk
        simp only [List.lookup, hne]
        exact ih

theorem accept_frame (connections : List Connection) (source : String) (r : EmitRecord)
    (op : OperatorNode) :
    (op.accept connections source r).name = op.name ∧
    (op.accept connections source r).kind = op.kind ∧
    (op.accept connections source r).conditions = op.conditions ∧
    (op.accept connections source r).input_conditions = op.input_conditions ∧
    (op.accept connections source r).output_conditions = op.output_conditions ∧
    (op.accept connections source r).op_output = op.op_output :=
  ⟨rfl, rfl, rfl, rfl, rfl, rfl⟩

theorem accept_pending (connections : List Connection) (source : String) (r : EmitRecord)
    (op : OperatorNode) (port : String) :
    (op.accept connections source r).pending port
      ≤ op.pending port
        + (if connections.any (fun c => c.feeds source r.port op.name port) then 1 else 0) := by
  unfold OperatorNode.pending OperatorNode.accept
  simp only
  rw [lookup_map_values (fun q => connections.any (fun c => c.feeds source r.port op.name q))
    (fun b => { b with queue := b.queue ++ [r.message] }) port op.op_input.inputs]
  cases op.op_input.inputs.lookup port with
  | none => simp
  | some b =>
    by_cases hp : connections.any (fun c => c.feeds source r.port op.name port) = true
    · simp [hp]
    · simp [hp]

/-! ## The operators of a graph after an execution -/

theorem deliver_map (connections : List Connection) (source : String)
    (records : List EmitRecord) :
    ∀ ops : List OperatorNode, ∃ f : OperatorNode → OperatorNode,
      OperatorNode.sameButInputs f ∧
      Graph.deliver connections source records ops = ops.map f := by
  induction records with
  | nil => intro ops; exact ⟨id, fun o => ⟨rfl, rfl, rfl, rfl, rfl, rfl⟩, by simp [Graph.deliver]⟩
  | cons r rest ih =>
    intro ops
    unfold Graph.deliver
    by_cases hd : r.result = .delivered
    · obtain ⟨f, hf, heq⟩ := ih (ops.map (OperatorNode.accept connections source r))
      refine ⟨fun o => f (o.accept connections source r), ?_, ?_⟩
      · intro o
        obtain ⟨a1, a2, a3, a4, a5, a6⟩ := hf (o.accept connections source r)
        exact ⟨a1, a2, a3, a4, a5, a6⟩
      · simp only [hd, if_true]
        rw [heq, List.map_map]
        rfl
    · obtain ⟨f, hf, heq⟩ := ih ops
      exact ⟨f, hf, by simp only [hd, if_false]; exact heq⟩

theorem execute_operators (g : Graph) (op : OperatorNode) :
    ∃ f : OperatorNode → OperatorNode, OperatorNode.sameButInputs f ∧
      (g.execute op).operators
        = g.operators.map (fun o => f (if o.name = op.name then g.executed op else o)) ∧
      (g.execute op).connections = g.connections := by
  obtain ⟨f, hf, heq⟩ := deliver_map g.connections op.name
    ((g.wire op).execute.op_output.calls.drop op.op_output.calls.length)
    (g.operators.map (fun o => if o.name = op.name then g.executed op else o))
  refine ⟨f, hf, ?_, rfl⟩
  unfold Graph.execute
  simp only
  rw [show ({ (g.wire op).execute with
      op_output := ⟨op.op_output.outputs, (g.wire op).execute.op_output.calls⟩ } : OperatorNode)
    = g.executed op from rfl, heq, List.map_map]
  rfl

theorem executed_frame (g : Graph) (op : OperatorNode) :
    (g.executed op).name = op.name ∧
    ((g.executed op).kind = .forwardOp ↔ op.kind = .forwardOp) ∧
    (g.executed op).conditions = op.conditions.map Condition.tick ∧
    (g.executed op).input_conditions = op.input_conditions.map (fun pc => (pc.1, pc.2.tick)) ∧
    (g.executed op).output_conditions
      = op.output_conditions.map (fun pc => (pc.1, pc.2.tick)) := by
  obtain ⟨h1, h2, h3, h4⟩ := execute_frame (g.wire op)
  exact ⟨h1, h2, execute_conditions (g.wire op), h3, h4⟩

theorem execute_names (g : Graph) (op : OperatorNode) : (g.execute op).names = g.names := by
  obtain ⟨f, hf, heq, _⟩ := execute_operators g op
  unfold Graph.names
  rw [heq, List.map_map]
  apply List.map_congr_left
  intro o _
  simp only [Function.comp]
  rw [(hf _).1]
  by_cases h : o.name = op.name
  · simp [h, (executed_frame g op).1]
  · simp [h]

theorem find_map (f : OperatorNode → OperatorNode) (hf : ∀ o, (f o).name = o.name)
    (name : String) (ops : List OperatorNode) :
    (ops.map f).find? (fun op => op.name == name)
      = (ops.find? (fun op => op.name == name)).map f := by
  induction ops with
  | nil => rfl
  | cons o rest ih =>
    by_cases h : o.name = name
    · simp [List.find?, hf, h]
    · have hne : (o.name == name) = false := by simpa using h
      simp only [List.map_cons, List.find?, hf, hne]
      exact ih

theorem find_mem (g : Graph) (name : String) (op : OperatorNode)
    (h : g.find name = some op) : op ∈ g.operators ∧ op.name = name := by
  unfold Graph.find at h
  refine ⟨List.mem_of_find?_eq_some h, ?_⟩
  have := List.find?_some h
  simpa using this

theorem find_of_mem_list (ops : List OperatorNode) (hnd : (ops.map OperatorNode.name).Nodup)
    (op : OperatorNode) (hop : op ∈ ops) :
    ops.find? (fun o => o.name == op.name) = some op := by
  induction ops with
  | nil => simp at hop
  | cons o rest ih =>
    simp only [List.map_cons, List.nodup_cons] at hnd
    rcases List.mem_cons.mp hop with rfl | hmem
    · simp [List.find?]
    · have hne : o.name ≠ op.name := by
        intro heq
        exact hnd.1 (heq ▸ List.mem_map_of_mem _ hmem)
      have hne' : (o.name == op.name) = false := by simpa using hne
      simp only [List.find?, hne']
      exact ih hnd.2 hmem

theorem find_of_mem (g : Graph) (hnd : g.names.Nodup) (op : OperatorNode)
    (hop : op ∈ g.operators) : g.find op.name = some op :=
  find_of_mem_list g.operators hnd op hop

/-- The operator found under a name after an execution. -/
theorem find_execute (g : Graph) (op : OperatorNode) (name : String) :
    ∃ f : OperatorNode → OperatorNode, OperatorNode.sameButInputs f ∧
      (g.execute op).find name
        = (g.find name).map (fun o => f (if o.name = op.name then g.executed op else o)) := by
  obtain ⟨f, hf, heq, _⟩ := execute_operators g op
  refine ⟨f, hf, ?_⟩
  unfold Graph.find
  rw [heq]
  apply find_map
  intro o
  rw [(hf _).1]
  by_cases h : o.name = op.name
  · simp [h, (executed_frame g op).1]
  · simp [h]

/-! ## The bound on the executions to come -/

theorem map_replace_of_not_mem (ops : List OperatorNode) (name : String) (n : OperatorNode)
    (h : name ∉ ops.map OperatorNode.name) :
    ops.map (fun o => if o.name = name then n else o) = ops := by
  induction ops with
  | nil => rfl
  | cons o rest ih =>
    simp only [List.map_cons, List.mem_cons, not_or] at h
    have hne : ¬ o.name = name := fun heq => h.1 heq.symm
    simp only [List.map_cons, hne, if_false]
    rw [ih h.2]

theorem sum_replace (F : OperatorNode → Nat) (ops : List OperatorNode)
    (hnd : (ops.map OperatorNode.name).Nodup) (op : OperatorNode) (hop : op ∈ ops)
    (n : OperatorNode) :
    ((ops.map (fun o => if o.name = op.name then n else o)).map F).sum + F op
      = (ops.map F).sum + F n := by
  induction ops with
  | nil => simp at hop
  | cons o rest ih =>
    simp only [List.map_cons, List.nodup_cons] at hnd
    by_cases hname : o.name = op.name
    · have hnot : op.name ∉ rest.map OperatorNode.name := hname ▸ hnd.1
      have heq : op = o := by
        rcases List.mem_cons.mp hop with h | h
        · exact h
        · exact absurd (List.mem_map_of_mem _ h) hnot
      subst heq
      simp only [List.map_cons, if_true, List.sum_cons]
      rw [map_replace_of_not_mem rest op.name n hnot]
      omega
    · have hmem : op ∈ rest := by
        rcases List.mem_cons.mp hop with h | h
        · exact absurd (h ▸ rfl) hname
        · exact h
      have := ih hnd.2 hmem
      simp only [List.map_cons, hname, if_false, List.sum_cons]
      omega

theorem sum_le_sum_of_le (F G : OperatorNode → Nat) (ops : List OperatorNode)
    (h : ∀ o ∈ ops, F o ≤ G o) : (ops.map F).sum ≤ (ops.map G).sum := by
  induction ops with
  | nil => simp
  | cons o rest ih =>
    have h1 := h o (List.mem_cons_self _ _)
    have h2 := ih (fun x hx => h x (List.mem_cons_of_mem _ hx))
    simp only [List.map_cons, List.sum_cons]
    omega

theorem sum_add (F G : OperatorNode → Nat) (ops : List OperatorNode) :
    (ops.map (fun o => F o + G o)).sum = (ops.map F).sum + (ops.map G).sum := by
  induction ops with
  | nil => simp
  | cons o rest ih =>
    simp only [List.map_cons, List.sum_cons, ih]
    omega

/-- At most one operator carries a given name. -/
theorem sum_named_le (w : String → Nat) (sink : String) (cond : OperatorNode → Bool)
    (ops : List OperatorNode) (hnd : (ops.map OperatorNode.name).Nodup) :
    (ops.map (fun o => if o.name = sink ∧ cond o = true then w o.name else 0)).sum ≤ w sink := by
  induction ops with
  | nil => simp
  | cons o rest ih =>
    simp only [List.map_cons, List.nodup_cons] at hnd
    simp only [List.map_cons, List.sum_cons]
    by_cases hname : o.name = sink
    · have hzero : (rest.map
          (fun o => if o.name = sink ∧ cond o = true then w o.name else 0)).sum = 0 := by
        apply List.sum_eq_zero
        intro x hx
        obtain ⟨o', ho', rfl⟩ := List.mem_map.mp hx
        have : o'.name ≠ sink := by
          intro heq
          exact hnd.1 (hname ▸ heq ▸ List.mem_map_of_mem _ ho')
        simp [this]
      rw [hzero]
      by_cases hc : cond o = true
      · simp [hname, hc]
      · simp [hname, hc]
    · have := ih hnd.2
      simp only [hname, false_and, if_false]
      omega

/-- The weights of the operators that an output port feeds are covered by the
weights counted for the connections that leave its operator. -/
theorem feeds_sum_le (w : String → Nat) (source port dst_port : String)
    (ops : List OperatorNode) (hnd : (ops.map OperatorNode.name).Nodup)
    (connections : List Connection) :
    (ops.map (fun o =>
        if connections.any (fun c => c.feeds source port o.name dst_port) then w o.name
        else 0)).sum
      ≤ ((connections.filter (fun c => c.source == source)).map (fun c => w c.sink)).sum := by
  induction connections with
  | nil => simp
  | cons c rest ih =>
    have hsplit : (ops.map (fun o =>
        if (c :: rest).any (fun c => c.feeds source port o.name dst_port) then w o.name
        else 0)).sum
        ≤ (ops.map (fun o =>
            if o.name = c.sink ∧ c.feeds source port c.sink dst_port = true then w o.name
            else 0)).sum
          + (ops.map (fun o =>
            if rest.any (fun c => c.feeds source port o.name dst_port) then w o.name
            else 0)).sum := by
      rw [← sum_add]
      apply sum_le_sum_of_le
      intro o _
      by_cases h1 : c.feeds source port o.name dst_port = true
      · have hsink : o.name = c.sink := by
          simp only [Connection.feeds, Bool.and_eq_true, beq_iff_eq] at h1
          exact h1.1.2.symm
        have h1' : c.feeds source port c.sink dst_port = true := hsink ▸ h1
        simp [List.any_cons, h1, hsink, h1']
      · simp only [Bool.not_eq_true] at h1
        by_cases h2 : rest.any (fun c => c.feeds source port o.name dst_port) = true
        · simp [List.any_cons, h1, h2]
        · simp [List.any_cons, h1, h2]
    have hfirst := sum_named_le w c.sink (fun _ => c.feeds source port c.sink dst_port) ops hnd
    beta_reduce at hfirst
    by_cases hsrc : c.source = source
    · have hb : (c.source == source) = true := by simpa using hsrc
      simp only [List.filter_cons, hb, if_true, List.map_cons, List.sum_cons]
      omega
    · have hb : (c.source == source) = false := by simpa using hsrc
      have hnofeed : c.feeds source port c.sink dst_port = false := by
        simp [Connection.feeds, hsrc]
      have hz : (ops.map (fun o =>
            if o.name = c.sink ∧ c.feeds source port c.sink dst_port = true then w o.name
            else 0)).sum = 0 := by
        apply List.sum_eq_zero
        intro x hx
        obtain ⟨o', _, rfl⟩ := List.mem_map.mp hx
        simp [hnofeed]
      simp only [List.filter_cons, hb]
      simp only [Bool.false_eq_true, if_false]
      omega

theorem potential_accept (w : String → Nat) (connections : List Connection) (source : String)
    (r : EmitRecord) (ops : List OperatorNode) :
    Graph.potential w (ops.map (OperatorNode.accept connections source r))
      ≤ Graph.potential w ops
        + (ops.map (fun o =>
            if connections.any (fun c => c.feeds source r.port o.name "in") then w o.name
            else 0)).sum := by
  unfold Graph.potential
  rw [List.map_map, ← sum_add]
  apply sum_le_sum_of_le
  intro o _
  have hp := accept_pending connections source r o "in"
  simp only [Function.comp]
  have hr : (o.accept connections source r).remaining = o.remaining := rfl
  have hn : (o.accept connections source r).name = o.name := rfl
  rw [hr, hn]
  by_cases hf : connections.any (fun c => c.feeds source r.port o.name "in") = true
  · simp only [hf, if_true] at hp ⊢
    have := Nat.mul_le_mul_right (w o.name) hp
    rw [Nat.add_mul, Nat.one_mul] at this
    omega
  · simp only [hf] at hp ⊢
    simp only [Bool.false_eq_true, if_false, Nat.add_zero] at hp ⊢
    have := Nat.mul_le_mul_right (w o.name) hp
    omega

theorem wire_ready_conditions (g : Graph) (op : OperatorNode) (hr : g.ready op = true) :
    (∀ c ∈ op.conditions, c.ready 0 [] = true) ∧
    (∀ pc ∈ op.input_conditions, pc.2.ready (op.pending pc.1) [] = true) := by
  unfold Graph.ready OperatorNode.ready at hr
  simp only [Bool.and_eq_true, List.all_eq_true] at hr
  exact ⟨hr.1.1, hr.1.2⟩

theorem gated_ready_pending (g : Graph) (op : OperatorNode) (hr : g.ready op = true)
    (hg : op.gated) : 1 ≤ op.pending "in" := by
  obtain ⟨_, pc, hpc, hname, hkind⟩ := hg
  have h := (wire_ready_conditions g op hr).2 pc hpc
  rw [hname] at h
  cases hc : pc.2 with
  | noCondition => rw [hc] at hkind; simp [Condition.kind] at hkind
  | count b e => rw [hc] at hkind; simp [Condition.kind] at hkind
  | downstreamMessageAffordable => rw [hc] at hkind; simp [Condition.kind] at hkind
  | boolean b => rw [hc] at hkind; simp [Condition.kind] at hkind
  | messageAvailable m =>
    rw [hc] at h
    simp only [Condition.ready, decide_eq_true_eq] at h
    omega

theorem replaced_names (g : Graph) (op : OperatorNode) :
    (g.operators.map (fun o => if o.name = op.name then g.executed op else o)).map
      OperatorNode.name = g.names := by
  unfold Graph.names
  rw [List.map_map]
  apply List.map_congr_left
  intro o _
  simp only [Function.comp]
  by_cases h : o.name = op.name
  · simp [h, (executed_frame g op).1]
  · simp [h]

/-- An execution of an operator that carries a `COUNT` condition or runs only
on a message lowers the bound. -/
theorem execute_potential (g : Graph) (w : String → Nat) (hw : g.weighted w)
    (hnd : g.names.Nodup) (op : OperatorNode) (hop : op ∈ g.operators)
    (hr : g.ready op = true) (hb : op.hasCount ∨ op.gated) :
    Graph.potential w (g.execute op).operators + 1 ≤ Graph.potential w g.operators := by
  have hops : (g.execute op).operators
      = Graph.deliver g.connections op.name
          ((g.wire op).execute.op_output.calls.drop op.op_output.calls.length)
          (g.operators.map (fun o => if o.name = op.name then g.executed op else o)) := rfl
  have hrepl := sum_replace (fun o => o.remaining + o.pending "in" * w o.name) g.operators hnd
    op hop (g.executed op)
  simp only at hrepl
  have hexname : (g.executed op).name = op.name := (executed_frame g op).1
  have hexrem : (g.executed op).remaining = (g.wire op).execute.remaining := rfl
  have hexpend : (g.executed op).pending "in" = (g.wire op).execute.pending "in" := rfl
  have hwpend : (g.wire op).pending "in" = op.pending "in" := rfl
  have hwcalls : (g.wire op).op_output.calls = op.op_output.calls := rfl
  have hremle : (g.wire op).execute.remaining ≤ op.remaining :=
    execute_remaining_le (g.wire op) hr
  have hwx : 1 + ((g.connections.filter (fun c => c.source == op.name)).map
      (fun c => w c.sink)).sum ≤ w op.name :=
    hw op.name (List.mem_map_of_mem _ hop)
  rw [hexname, hexrem, hexpend] at hrepl
  rw [hops]
  unfold Graph.potential
  rcases execute_io (g.wire op) with ⟨hcalls, hin, hzero⟩ | ⟨r, hkind, hport, hcalls, hpend⟩
  · -- nothing was received
    rw [hcalls, hwcalls, List.drop_length]
    simp only [Graph.deliver]
    have hpeq : (g.wire op).execute.pending "in" = op.pending "in" := by
      unfold OperatorNode.pending
      rw [hin]
      rfl
    rw [hpeq] at hrepl
    rcases hb with hcount | hgated
    · have hlt : (g.wire op).execute.remaining < op.remaining :=
        execute_remaining (g.wire op) hr hcount
      omega
    · have h1 := gated_ready_pending g op hr hgated
      have h0 := hzero hgated.1
      rw [hwpend] at h0
      omega
  · -- one message was received and emitted
    rw [hcalls, hwcalls, List.drop_left]
    rw [hwpend] at hpend
    have hmul : op.pending "in" * w op.name
        = (g.wire op).execute.pending "in" * w op.name + w op.name := by
      rw [← hpend, Nat.add_mul, Nat.one_mul]
    simp only [Graph.deliver]
    by_cases hd : r.result = .delivered
    · simp only [hd, if_true]
      have hacc := potential_accept w g.connections op.name r
        (g.operators.map (fun o => if o.name = op.name then g.executed op else o))
      have hfeed := feeds_sum_le w op.name r.port "in"
        (g.operators.map (fun o => if o.name = op.name then g.executed op else o))
        (by rw [replaced_names]; exact hnd) g.connections
      unfold Graph.potential at hacc
      omega
    · simp only [hd, if_false]
      omega

/-! ## The scheduler on a graph -/

theorem dispatch_nil (b : Nat) (g : Graph) : Graph.dispatch b [] g = (g, []) := by
  cases b <;> rfl

theorem dispatch_zero (ns : List String) (g : Graph) : Graph.dispatch 0 ns g = (g, []) := by
  cases ns <;> rfl

theorem dispatch_cons (b : Nat) (name : String) (rest : List String) (g : Graph) :
    Graph.dispatch (b + 1) (name :: rest) g
      = match g.find name with
        | some op =>
          if g.ready op then
            ((Graph.dispatch b rest (g.execute op)).1,
              name :: (Graph.dispatch b rest (g.execute op)).2)
          else Graph.dispatch (b + 1) rest g
        | none => Graph.dispatch (b + 1) rest g := by
  rw [Graph.dispatch]

theorem execute_bounded (g : Graph) (op : OperatorNode)
    (hall : ∀ o ∈ g.operators, o.hasCount ∨ o.gated) (hop : op ∈ g.operators) :
    ∀ o ∈ (g.execute op).operators, o.hasCount ∨ o.gated := by
  obtain ⟨f, hf, heq, _⟩ := execute_operators g op
  intro o ho
  rw [heq] at ho
  obtain ⟨o0, ho0, rfl⟩ := List.mem_map.mp ho
  obtain ⟨_, fk, fc, fi, _, _⟩ := hf (if o0.name = op.name then g.executed op else o0)
  have hsame : ∀ a : OperatorNode, (a.hasCount ∨ a.gated) →
      ((f a).kind = a.kind) → ((f a).conditions = a.conditions) →
      ((f a).input_conditions = a.input_conditions) → ((f a).hasCount ∨ (f a).gated) := by
    intro a ha hk hc hi
    rcases ha with ha | ha
    · left
      obtain ⟨c, hc', hkind⟩ := ha
      exact ⟨c, hc ▸ hc', hkind⟩
    · right
      obtain ⟨hfw, pc, hpc, h1, h2⟩ := ha
      exact ⟨hk ▸ hfw, pc, hi ▸ hpc, h1, h2⟩
  apply hsame _ _ fk fc fi
  by_cases hname : o0.name = op.name
  · simp only [hname, if_true]
    obtain ⟨_, ek, ec, ei, _⟩ := executed_frame g op
    rcases hall op hop with ha | ha
    · left
      obtain ⟨c, hc', hkind⟩ := ha
      refine ⟨c.tick, ?_, by rw [tick_kind, hkind]⟩
      rw [ec]
      exact List.mem_map_of_mem _ hc'
    · right
      obtain ⟨hfw, pc, hpc, h1, h2⟩ := ha
      refine ⟨ek.mpr hfw, (pc.1, pc.2.tick), ?_, h1, by rw [tick_kind, h2]⟩
      rw [ei]
      exact List.mem_map_of_mem (fun pc => (pc.1, pc.2.tick)) hpc
  · simp only [hname, if_false]
    exact hall o0 ho0

theorem weighted_congr (g g' : Graph) (w : String → Nat) (hn : g'.names = g.names)
    (hc : g'.connections = g.connections) (hw : g.weighted w) : g'.weighted w := by
  unfold Graph.weighted at *
  rw [hn, hc]
  exact hw

theorem dispatch_potential (w : String → Nat) (ns : List String) :
    ∀ (b : Nat) (g : Graph), g.weighted w → g.names.Nodup →
      (∀ o ∈ g.operators, o.hasCount ∨ o.gated) →
      (Graph.dispatch b ns g).1.names = g.names ∧
      (Graph.dispatch b ns g).1.connections = g.connections ∧
      (∀ o ∈ (Graph.dispatch b ns g).1.operators, o.hasCount ∨ o.gated) ∧
      Graph.potential w (Graph.dispatch b ns g).1.operators + (Graph.dispatch b ns g).2.length
        ≤ Graph.potential w g.operators := by
  induction ns with
  | nil => intro b g _ _ hall; rw [dispatch_nil]; exact ⟨rfl, rfl, hall, by simp⟩
  | cons name rest ih =>
    intro b g hw hnd hall
    cases b with
    | zero => rw [dispatch_zero]; exact ⟨rfl, rfl, hall, by simp⟩
    | succ b =>
      rw [dispatch_cons]
      cases hfind : g.find name with
      | none => exact ih (b + 1) g hw hnd hall
      | some op =>
        simp only
        by_cases hr : g.ready op = true
        · simp only [hr, if_true]
          obtain ⟨hop, _⟩ := find_mem g name op hfind
          have hn' := execute_names g op
          have hc' : (g.execute op).connections = g.connections := rfl
          obtain ⟨i1, i2, i3, i4⟩ := ih b (g.execute op) (weighted_congr g _ w hn' hc' hw)
            (by rw [hn']; exact hnd) (execute_bounded g op hall hop)
          have hdec := execute_potential g w hw hnd op hop hr (hall op hop)
          refine ⟨by rw [i1, hn'], by rw [i2, hc'], i3, ?_⟩
          simp only [List.length_cons]
          omega
        · simp only [hr]
          exact ih (b + 1) g hw hnd hall

theorem dispatch_of_names_nil_graph (ns : List String) :
    ∀ (b : Nat) (g : Graph), (Graph.dispatch b ns g).2 = [] → (Graph.dispatch b ns g).1 = g := by
  induction ns with
  | nil => intro b g _; rw [dispatch_nil]
  | cons name rest ih =>
    intro b g h
    cases b with
    | zero => rw [dispatch_zero]
    | succ b =>
      rw [dispatch_cons] at h ⊢
      cases hfind : g.find name with
      | none => rw [hfind] at h; exact ih (b + 1) g h
      | some op =>
        rw [hfind] at h
        simp only at h ⊢
        by_cases hr : g.ready op = true
        · simp [hr] at h
        · simp only [hr] at h ⊢
          exact ih (b + 1) g h

/-- A scan with a budget left that executes nothing has found no operator
ready. -/
theorem dispatch_none_ready (ns : List String) :
    ∀ (b : Nat) (g : Graph), (Graph.dispatch (b + 1) ns g).2 = [] →
      ∀ name ∈ ns, ∀ op, g.find name = some op → g.ready op = false := by
  induction ns with
  | nil => intro b g _ name hname; simp at hname
  | cons x rest ih =>
    intro b g h name hname op hfind
    rw [dispatch_cons] at h
    cases hx : g.find x with
    | none =>
      rw [hx] at h
      rcases List.mem_cons.mp hname with rfl | hmem
      · rw [hx] at hfind; cases hfind
      · exact ih b g h name hmem op hfind
    | some opx =>
      rw [hx] at h
      simp only at h
      by_cases hr : g.ready opx = true
      · simp [hr] at h
      · simp only [hr] at h
        rcases List.mem_cons.mp hname with rfl | hmem
        · rw [hx] at hfind
          cases hfind
          simpa using hr
        · exact ih b g h name hmem op hfind

theorem list_sum_le {α : Type} (F G : α → Nat) (l : List α) (h : ∀ a ∈ l, F a ≤ G a) :
    (l.map F).sum ≤ (l.map G).sum := by
  induction l with
  | nil => simp
  | cons a rest ih =>
    have h1 := h a (List.mem_cons_self _ _)
    have h2 := ih (fun x hx => h x (List.mem_cons_of_mem _ hx))
    simp only [List.map_cons, List.sum_cons]
    omega

theorem weight_mono (connections : List Connection) (d : Nat) :
    ∀ (d' : Nat) (name : String), d ≤ d' →
      Graph.weight connections d name ≤ Graph.weight connections d' name := by
  induction d with
  | zero =>
    intro d' name _
    cases d' with
    | zero => exact Nat.le_refl _
    | succ k => simp only [Graph.weight]; omega
  | succ d ih =>
    intro d' name hle
    cases d' with
    | zero => omega
    | succ k =>
      simp only [Graph.weight]
      have := list_sum_le (fun c => Graph.weight connections d c.sink)
        (fun c => Graph.weight connections k c.sink)
        (connections.filter (fun c => c.source == name))
        (fun c _ => ih k c.sink (by omega))
      omega

/-- In a graph whose connections lead downwards in `depth` the message
weights cover the connections. -/
theorem messageWeight_weighted (g : Graph) (depth : String → Nat) (hdag : g.acyclic depth) :
    g.weighted (g.messageWeight depth) := by
  intro name _
  unfold Graph.messageWeight
  cases hd : depth name with
  | zero =>
    have hnone : g.connections.filter (fun c => c.source == name) = [] := by
      apply List.filter_eq_nil_iff.mpr
      intro c hc hsrc
      have hsrc' : c.source = name := by simpa using hsrc
      have hlt := hdag c hc
      rw [hsrc', hd] at hlt
      omega
    simp [hnone, Graph.weight]
  | succ d =>
    simp only [Graph.weight]
    have := list_sum_le
      (fun c => Graph.weight g.connections (depth c.sink) c.sink)
      (fun c => Graph.weight g.connections d c.sink)
      (g.connections.filter (fun c => c.source == name))
      (by
        intro c hc
        obtain ⟨hmem, hsrc⟩ := List.mem_filter.mp hc
        have hsrc' : c.source = name := by simpa using hsrc
        have hlt := hdag c hmem
        rw [hsrc', hd] at hlt
        exact weight_mono g.connections _ d c.sink (by omega))
    omega

theorem tick_potential (s : Scheduler) (w : String → Nat) (g : Graph) (hw : g.weighted w)
    (hnd : g.names.Nodup) (hall : ∀ o ∈ g.operators, o.hasCount ∨ o.gated) :
    (Graph.tick s g).1.names = g.names ∧
    (Graph.tick s g).1.connections = g.connections ∧
    (∀ o ∈ (Graph.tick s g).1.operators, o.hasCount ∨ o.gated) ∧
    Graph.potential w (Graph.tick s g).1.operators + (Graph.tick s g).2.length
      ≤ Graph.potential w g.operators :=
  dispatch_potential w g.names _ g hw hnd hall

theorem tick_of_names_nil_graph (s : Scheduler) (g : Graph) (h : (Graph.tick s g).2 = []) :
    Graph.tick s g = (g, []) := by
  unfold Graph.tick at h ⊢
  have := dispatch_of_names_nil_graph g.names _ g h
  exact Prod.ext this h

theorem graph_run_succ (s : Scheduler) (t : Nat) (g : Graph) :
    Graph.run s (t + 1) g
      = ((Graph.run s t (Graph.tick s g).1).1,
          (Graph.tick s g).2 ++ (Graph.run s t (Graph.tick s g).1).2) := by
  rw [Graph.run]

theorem graph_run_of_quiescent (s : Scheduler) (g : Graph) (h : (Graph.tick s g).2 = []) :
    ∀ t : Nat, Graph.run s t g = (g, []) := by
  intro t
  induction t with
  | zero => rfl
  | succ t ih =>
    rw [graph_run_succ, tick_of_names_nil_graph s g h]
    simp only [ih, List.append_nil]

theorem graph_run_add (s : Scheduler) (a : Nat) :
    ∀ (b : Nat) (g : Graph), Graph.run s (a + b) g
      = ((Graph.run s b (Graph.run s a g).1).1,
          (Graph.run s a g).2 ++ (Graph.run s b (Graph.run s a g).1).2) := by
  induction a with
  | zero => intro b g; simp [Graph.run]
  | succ a ih =>
    intro b g
    have : a + 1 + b = (a + b) + 1 := by omega
    rw [this, graph_run_succ, graph_run_succ, ih b (Graph.tick s g).1]
    simp [List.append_assoc]

theorem graph_run_quiescent (s : Scheduler) (w : String → Nat) :
    ∀ (t : Nat) (g : Graph), g.weighted w → g.names.Nodup →
      (∀ o ∈ g.operators, o.hasCount ∨ o.gated) → Graph.potential w g.operators ≤ t →
      (Graph.tick s (Graph.run s t g).1).2 = [] ∧
      (Graph.run s t g).2.length ≤ Graph.potential w g.operators ∧
      (Graph.run s t g).1.names = g.names ∧
      (Graph.run s t g).1.connections = g.connections := by
  intro t
  induction t with
  | zero =>
    intro g hw hnd hall hle
    have h := (tick_potential s w g hw hnd hall).2.2.2
    refine ⟨?_, by simp [Graph.run], rfl, rfl⟩
    simp only [Graph.run]
    exact List.length_eq_zero.mp (by omega)
  | succ t ih =>
    intro g hw hnd hall hle
    rw [graph_run_succ]
    obtain ⟨h1, h2, h3, h4⟩ := tick_potential s w g hw hnd hall
    by_cases hn : (Graph.tick s g).2 = []
    · have htick := tick_of_names_nil_graph s g hn
      rw [htick, graph_run_of_quiescent s g hn t]
      simp only [List.append_nil, List.length_nil, Nat.zero_le, true_and, and_true]
      exact hn
    · have hpos : 0 < (Graph.tick s g).2.length := List.length_pos.mpr hn
      obtain ⟨i1, i2, i3, i4⟩ := ih (Graph.tick s g).1 (weighted_congr g _ w h1 h2 hw)
        (by rw [h1]; exact hnd) h3 (by omega)
      refine ⟨i1, ?_, by rw [i3, h1], by rw [i4, h2]⟩
      simp only [List.length_append]
      omega

theorem graph_not_ready_of_names_nil (s : Scheduler) (hs : 0 < s.threads) (g : Graph)
    (hnd : g.names.Nodup) (h : (Graph.tick s g).2 = []) :
    ∀ op ∈ g.operators, g.ready op = false := by
  intro op hop
  unfold Graph.tick at h
  have hb : 0 < s.budget g.operators.length := by
    cases s with
    | greedy => exact List.length_pos_of_mem hop
    | multiThread w => exact hs
  obtain ⟨b, hb'⟩ : ∃ b, s.budget g.operators.length = b + 1 :=
    ⟨_, (Nat.succ_pred_eq_of_pos hb).symm⟩
  rw [hb'] at h
  exact dispatch_none_ready g.names b g h op.name (List.mem_map_of_mem _ hop) op
    (find_of_mem g hnd op hop)

/-! ## Following one operator through the scheduler -/

/-- The operator found under the name `x` after the execution of the operator
found under `name`: its name is the same, and its conditions have taken note
of the execution when it is the executed operator and are unchanged when it
is another one. -/
theorem find_execute_conditions (g : Graph) (name x : String) (op o : OperatorNode)
    (hfind : g.find name = some op) (hx : g.find x = some o) :
    ∃ o', (g.execute op).find x = some o' ∧ o'.name = o.name ∧
      (x = name → o'.conditions = o.conditions.map Condition.tick ∧
        o'.input_conditions = o.input_conditions.map (fun pc => (pc.1, pc.2.tick)) ∧
        o'.output_conditions = o.output_conditions.map (fun pc => (pc.1, pc.2.tick))) ∧
      (x ≠ name → o'.conditions = o.conditions ∧ o'.input_conditions = o.input_conditions ∧
        o'.output_conditions = o.output_conditions) := by
  obtain ⟨f, hf, heq⟩ := find_execute g op x
  obtain ⟨_, hopname⟩ := find_mem g name op hfind
  obtain ⟨_, honame⟩ := find_mem g x o hx
  rw [hx] at heq
  simp only [Option.map_some'] at heq
  refine ⟨_, heq, ?_, ?_, ?_⟩
  · rw [(hf _).1]
    by_cases h : o.name = op.name
    · simp [h, (executed_frame g op).1]
    · simp [h]
  · intro hxn
    subst hxn
    rw [hfind] at hx
    cases hx
    obtain ⟨_, _, fc, fi, fo, _⟩ := hf (if op.name = op.name then g.executed op else op)
    obtain ⟨_, _, ec, ei, eo⟩ := executed_frame g op
    simp only [if_true] at fc fi fo ⊢
    exact ⟨fc.trans ec, fi.trans ei, fo.trans eo⟩
  · intro hxn
    have hne : ¬ o.name = op.name := by
      rw [honame, hopname]
      exact hxn
    obtain ⟨_, _, fc, fi, fo, _⟩ := hf (if o.name = op.name then g.executed op else o)
    simp only [hne, if_false] at fc fi fo ⊢
    exact ⟨fc, fi, fo⟩

theorem free_ready (g : Graph) (o : OperatorNode) (h : o.free) : g.ready o = true := by
  obtain ⟨h1, h2, h3⟩ := h
  simp [Graph.ready, Graph.wire, OperatorNode.ready, h1, h2, h3]

theorem find_execute_free (g : Graph) (name x : String) (op o : OperatorNode)
    (hfind : g.find name = some op) (hx : g.find x = some o) (hfree : o.free) :
    ∃ o', (g.execute op).find x = some o' ∧ o'.free := by
  obtain ⟨o', h1, _, h3, h4⟩ := find_execute_conditions g name x op o hfind hx
  obtain ⟨f1, f2, f3⟩ := hfree
  refine ⟨o', h1, ?_⟩
  by_cases hxn : x = name
  · obtain ⟨a, b, c⟩ := h3 hxn
    exact ⟨by rw [a, f1]; rfl, by rw [b, f2]; rfl, by rw [c, f3]; rfl⟩
  · obtain ⟨a, b, c⟩ := h4 hxn
    exact ⟨by rw [a, f1], by rw [b, f2], by rw [c, f3]⟩

theorem dispatch_names_eq (ns : List String) :
    ∀ (b : Nat) (g : Graph), (Graph.dispatch b ns g).1.names = g.names ∧
      (Graph.dispatch b ns g).1.connections = g.connections ∧
      (Graph.dispatch b ns g).2.Sublist ns := by
  induction ns with
  | nil => intro b g; rw [dispatch_nil]; exact ⟨rfl, rfl, List.Sublist.refl _⟩
  | cons name rest ih =>
    intro b g
    cases b with
    | zero => rw [dispatch_zero]; exact ⟨rfl, rfl, List.nil_sublist _⟩
    | succ b =>
      rw [dispatch_cons]
      cases hfind : g.find name with
      | none =>
        obtain ⟨a1, a2, a3⟩ := ih (b + 1) g
        exact ⟨a1, a2, a3.trans (List.sublist_cons_self _ _)⟩
      | some op =>
        simp only
        by_cases hr : g.ready op = true
        · simp only [hr, if_true]
          obtain ⟨a1, a2, a3⟩ := ih b (g.execute op)
          exact ⟨by rw [a1, execute_names], by rw [a2]; rfl, a3.cons₂ _⟩
        · simp only [hr]
          obtain ⟨a1, a2, a3⟩ := ih (b + 1) g
          exact ⟨a1, a2, a3.trans (List.sublist_cons_self _ _)⟩

theorem graph_run_names (s : Scheduler) :
    ∀ (t : Nat) (g : Graph), (Graph.run s t g).1.names = g.names ∧
      (Graph.run s t g).1.connections = g.connections ∧
      (∀ y ∈ (Graph.run s t g).2, y ∈ g.names) := by
  intro t
  induction t with
  | zero => intro g; exact ⟨rfl, rfl, fun y hy => by simp [Graph.run] at hy⟩
  | succ t ih =>
    intro g
    rw [graph_run_succ]
    obtain ⟨d1, d2, d3⟩ := dispatch_names_eq g.names (s.budget g.operators.length) g
    obtain ⟨i1, i2, i3⟩ := ih (Graph.tick s g).1
    have hn : (Graph.tick s g).1.names = g.names := d1
    have hc : (Graph.tick s g).1.connections = g.connections := d2
    refine ⟨by rw [i1, hn], by rw [i2, hc], ?_⟩
    intro y hy
    rcases List.mem_append.mp hy with h | h
    · exact d3.subset h
    · rw [← hn]; exact i3 y h

theorem dispatch_free_preserved (x : String) (ns : List String) :
    ∀ (b : Nat) (g : Graph), (∃ o, g.find x = some o ∧ o.free) →
      ∃ o', (Graph.dispatch b ns g).1.find x = some o' ∧ o'.free := by
  induction ns with
  | nil => intro b g h; rw [dispatch_nil]; exact h
  | cons name rest ih =>
    intro b g h
    cases b with
    | zero => rw [dispatch_zero]; exact h
    | succ b =>
      rw [dispatch_cons]
      cases hfind : g.find name with
      | none => exact ih (b + 1) g h
      | some op =>
        simp only
        by_cases hr : g.ready op = true
        · simp only [hr, if_true]
          obtain ⟨o, ho, hfree⟩ := h
          exact ih b (g.execute op) (find_execute_free g name x op o hfind ho hfree)
        · simp only [hr]
          exact ih (b + 1) g h

/-- A scan whose budget reaches every operator executes an operator that
carries no condition. -/
theorem dispatch_executes_free (x : String) (ns : List String) :
    ∀ (b : Nat) (g : Graph), ns.length ≤ b → x ∈ ns → (∃ o, g.find x = some o ∧ o.free) →
      x ∈ (Graph.dispatch b ns g).2 := by
  induction ns with
  | nil => intro b g _ hx; simp at hx
  | cons name rest ih =>
    intro b g hb hx h
    cases b with
    | zero => simp at hb
    | succ b =>
      simp only [List.length_cons, Nat.add_le_add_iff_right] at hb
      rw [dispatch_cons]
      obtain ⟨o, ho, hfree⟩ := h
      cases hfind : g.find name with
      | none =>
        have hne : x ≠ name := by
          intro heq
          rw [heq, hfind] at ho
          cases ho
        have hx' : x ∈ rest := by
          rcases List.mem_cons.mp hx with h | h
          · exact absurd h hne
          · exact h
        exact ih (b + 1) g (by omega) hx' ⟨o, ho, hfree⟩
      | some op =>
        simp only
        by_cases hxn : x = name
        · subst hxn
          have hop : op = o := by
            rw [hfind] at ho
            exact Option.some.inj ho
          subst hop
          simp only [free_ready g op hfree, if_true]
          exact List.mem_cons_self _ _
        · have hx' : x ∈ rest := by
            rcases List.mem_cons.mp hx with h | h
            · exact absurd h hxn
            · exact h
          by_cases hr : g.ready op = true
          · simp only [hr, if_true]
            exact List.mem_cons_of_mem _
              (ih b (g.execute op) hb hx' (find_execute_free g name x op o hfind ho hfree))
          · simp only [hr]
            exact ih (b + 1) g (by omega) hx' ⟨o, ho, hfree⟩

/-! ## Quiescence of a graph -/

/-- Under the greedy scheduler an operator that carries no condition is
executed in every iteration, for ever. -/
theorem free_runs_forever (x : String) (t : Nat) :
    ∀ g : Graph, x ∈ g.names → (∃ o, g.find x = some o ∧ o.free) →
      x ∈ (Graph.tick .greedy (Graph.run .greedy t g).1).2 := by
  induction t with
  | zero =>
    intro g hx hfree
    simp only [Graph.run, Graph.tick, Scheduler.budget]
    exact dispatch_executes_free x g.names _ g (by simp [Graph.names]) hx hfree
  | succ t ih =>
    intro g hx hfree
    rw [graph_run_succ]
    simp only
    apply ih
    · have hn : (Graph.tick .greedy g).1.names = g.names :=
        (dispatch_names_eq g.names _ g).1
      rw [hn]
      exact hx
    · exact dispatch_free_preserved x g.names _ g hfree

/-- A graph in which every operator carries a `COUNT` condition or runs only
on a message, with connections that lead downwards in a depth, is quiescent
once as many iterations have passed as its bound says. -/
theorem graph_quiescence (s : Scheduler) (hs : 0 < s.threads) (g : Graph)
    (hnd : g.names.Nodup) (depth : String → Nat) (hdag : g.acyclic depth)
    (hall : ∀ op ∈ g.operators, op.hasCount ∨ op.gated) (t : Nat) (ht : g.bound depth ≤ t) :
    (Graph.tick s (Graph.run s t g).1).2 = [] ∧
    (∀ op ∈ (Graph.run s t g).1.operators, (Graph.run s t g).1.ready op = false) ∧
    (Graph.run s t g).2 = (Graph.run s (g.bound depth) g).2 ∧
    (Graph.run s t g).2.length ≤ g.bound depth := by
  have hw := messageWeight_weighted g depth hdag
  obtain ⟨hq, hlen, hn, _⟩ := graph_run_quiescent s (g.messageWeight depth) t g hw hnd hall ht
  refine ⟨hq, ?_, ?_, hlen⟩
  · exact graph_not_ready_of_names_nil s hs _ (by rw [hn]; exact hnd) hq
  · obtain ⟨k, rfl⟩ : ∃ k, t = g.bound depth + k :=
      ⟨t - g.bound depth, by unfold Graph.bound at *; omega⟩
    have hq0 := (graph_run_quiescent s (g.messageWeight depth) (g.bound depth) g hw hnd hall
      (Nat.le_refl _)).1
    rw [graph_run_add, graph_run_of_quiescent s _ hq0 k]
    simp

theorem count_ready_of_ready (g : Graph) (o : OperatorNode) (N : Int) (e : Nat)
    (hc : o.conditions = [.count N e]) (hr : g.ready o = true) : (e : Int) < N := by
  have h := (wire_ready_conditions g o hr).1 (.count N e) (by rw [hc]; exact List.mem_singleton_self _)
  simpa [Condition.ready] using h

theorem countOnly_graph_ready (g : Graph) (o : OperatorNode) (N : Int) (e : Nat)
    (hc : o.conditions = [.count N e]) (hi : o.input_conditions = [])
    (ho : o.output_conditions = []) : g.ready o = decide ((e : Int) < N) := by
  simp [Graph.ready, Graph.wire, OperatorNode.ready, hc, hi, ho, Condition.ready]

/-- The operator found under `x`, bounded by a `COUNT` condition, after a scan:
its counter has advanced by the number of its executions in the scan, and has
not passed the bound. -/
theorem dispatch_counter (x : String) (N : Int) (ns : List String) :
    ∀ (b : Nat) (g : Graph) (e : Nat) (o : OperatorNode), g.find x = some o →
      o.conditions = [.count N e] →
      ∃ o', (Graph.dispatch b ns g).1.find x = some o' ∧
        o'.conditions = [.count N (e + (Graph.dispatch b ns g).2.count x)] ∧
        e + (Graph.dispatch b ns g).2.count x ≤ max e N.toNat ∧
        (o.input_conditions = [] → o'.input_conditions = []) ∧
        (o.output_conditions = [] → o'.output_conditions = []) := by
  induction ns with
  | nil =>
    intro b g e o hx hc
    rw [dispatch_nil]
    exact ⟨o, hx, by simpa using hc, by simp, id, id⟩
  | cons name rest ih =>
    intro b g e o hx hc
    cases b with
    | zero =>
      rw [dispatch_zero]
      exact ⟨o, hx, by simpa using hc, by simp, id, id⟩
    | succ b =>
      rw [dispatch_cons]
      cases hfind : g.find name with
      | none => exact ih (b + 1) g e o hx hc
      | some op =>
        simp only
        by_cases hr : g.ready op = true
        · simp only [hr, if_true]
          obtain ⟨o1, h1, _, h3, h4⟩ := find_execute_conditions g name x op o hfind hx
          by_cases hxn : x = name
          · subst hxn
            have hop : op = o := by
              rw [hfind] at hx
              exact Option.some.inj hx
            subst hop
            obtain ⟨c1, c2, c3⟩ := h3 rfl
            have hlt := count_ready_of_ready g op N e hc hr
            have hc1 : o1.conditions = [.count N (e + 1)] := by
              rw [c1, hc]
              rfl
            obtain ⟨o', a1, a2, a3, a4, a5⟩ := ih b (g.execute op) (e + 1) o1 h1 hc1
            refine ⟨o', a1, ?_, ?_, ?_, ?_⟩
            · rw [a2, List.count_cons_self]
              congr 2
              omega
            · rw [List.count_cons_self]
              omega
            · intro hi
              exact a4 (by rw [c2, hi]; rfl)
            · intro ho
              exact a5 (by rw [c3, ho]; rfl)
          · obtain ⟨c1, c2, c3⟩ := h4 hxn
            obtain ⟨o', a1, a2, a3, a4, a5⟩ := ih b (g.execute op) e o1 h1 (by rw [c1, hc])
            have hcount : (name :: (Graph.dispatch b rest (g.execute op)).2).count x
                = (Graph.dispatch b rest (g.execute op)).2.count x :=
              List.count_cons_of_ne hxn _
            refine ⟨o', a1, ?_, ?_, ?_, ?_⟩
            · rw [a2, hcount]
            · rw [hcount]; exact a3
            · intro hi
              exact a4 (by rw [c2, hi])
            · intro ho
              exact a5 (by rw [c3, ho])
        · simp only [hr]
          exact ih (b + 1) g e o hx hc

theorem graph_run_counter (s : Scheduler) (x : String) (N : Int) :
    ∀ (t : Nat) (g : Graph) (e : Nat) (o : OperatorNode), g.find x = some o →
      o.conditions = [.count N e] →
      ∃ o', (Graph.run s t g).1.find x = some o' ∧
        o'.conditions = [.count N (e + (Graph.run s t g).2.count x)] ∧
        e + (Graph.run s t g).2.count x ≤ max e N.toNat ∧
        (o.input_conditions = [] → o'.input_conditions = []) ∧
        (o.output_conditions = [] → o'.output_conditions = []) := by
  intro t
  induction t with
  | zero =>
    intro g e o hx hc
    exact ⟨o, hx, by simpa [Graph.run] using hc, by simp [Graph.run], id, id⟩
  | succ t ih =>
    intro g e o hx hc
    rw [graph_run_succ]
    obtain ⟨o1, d1, d2, d3, d4, d5⟩ := dispatch_counter x N g.names
      (s.budget g.operators.length) g e o hx hc
    obtain ⟨o', a1, a2, a3, a4, a5⟩ := ih (Graph.tick s g).1 _ o1 d1 d2
    have htick : (Graph.tick s g).2 = (Graph.dispatch (s.budget g.operators.length) g.names g).2 :=
      rfl
    refine ⟨o', a1, ?_, ?_, fun hi => a4 (d4 hi), fun ho => a5 (d5 ho)⟩
    · rw [a2, List.count_append, htick]
      congr 2
      omega
    · rw [List.count_append, htick]
      omega

/-- A scan whose budget reaches every operator executes an operator whose only
condition is a `COUNT` condition once when its counter is below the bound, and
not at all when it is not. -/
theorem dispatch_count_full (x : String) (N : Int) (ns : List String) :
    ∀ (b : Nat) (g : Graph) (e : Nat) (o : OperatorNode), ns.Nodup → ns.length ≤ b →
      g.find x = some o → o.conditions = [.count N e] → o.input_conditions = [] →
      o.output_conditions = [] →
      (Graph.dispatch b ns g).2.count x = if x ∈ ns ∧ (e : Int) < N then 1 else 0 := by
  induction ns with
  | nil => intro b g e o _ _ _ _ _ _; rw [dispatch_nil]; simp
  | cons name rest ih =>
    intro b g e o hnd hb hx hc hi ho
    simp only [List.nodup_cons] at hnd
    cases b with
    | zero => simp at hb
    | succ b =>
      simp only [List.length_cons, Nat.add_le_add_iff_right] at hb
      rw [dispatch_cons]
      cases hfind : g.find name with
      | none =>
        have hne : x ≠ name := by
          intro heq
          rw [heq, hfind] at hx
          cases hx
        rw [ih (b + 1) g e o hnd.2 (by omega) hx hc hi ho]
        simp [hne]
      | some op =>
        simp only
        by_cases hxn : x = name
        · subst hxn
          have hop : op = o := by
            rw [hfind] at hx
            exact Option.some.inj hx
          subst hop
          have hready := countOnly_graph_ready g op N e hc hi ho
          by_cases hlt : (e : Int) < N
          · have hr : g.ready op = true := by rw [hready]; simpa using hlt
            simp only [hr, if_true, List.count_cons_self]
            obtain ⟨o1, h1, _, h3, _⟩ := find_execute_conditions g x x op op hfind hfind
            obtain ⟨c1, c2, c3⟩ := h3 rfl
            rw [ih b (g.execute op) (e + 1) o1 hnd.2 hb h1 (by rw [c1, hc]; rfl)
              (by rw [c2, hi]; rfl) (by rw [c3, ho]; rfl)]
            simp [hnd.1, hlt]
          · have hr : g.ready op = false := by rw [hready]; simpa using hlt
            simp only [hr, Bool.false_eq_true, if_false]
            rw [ih (b + 1) g e op hnd.2 (by omega) hfind hc hi ho]
            simp [hnd.1, hlt]
        · by_cases hr : g.ready op = true
          · simp only [hr, if_true]
            obtain ⟨o1, h1, _, _, h4⟩ := find_execute_conditions g name x op o hfind hx
            obtain ⟨c1, c2, c3⟩ := h4 hxn
            rw [List.count_cons_of_ne hxn,
              ih b (g.execute op) e o1 hnd.2 hb h1 (by rw [c1, hc]) (by rw [c2, hi])
                (by rw [c3, ho])]
            simp [hxn]
          · simp only [hr, Bool.false_eq_true, if_false]
            rw [ih (b + 1) g e o hnd.2 (by omega) hx hc hi ho]
            simp [hxn]

theorem graph_run_count_full (s : Scheduler) (x : String) (N : Int) :
    ∀ (t : Nat) (g : Graph) (e : Nat) (o : OperatorNode), g.names.Nodup →
      g.operators.length ≤ s.budget g.operators.length → g.find x = some o →
      o.conditions = [.count N e] → o.input_conditions = [] → o.output_conditions = [] →
      (Graph.run s t g).2.count x = min t (N - (e : Int)).toNat := by
  intro t
  induction t with
  | zero => intro g e o _ _ _ _ _ _; simp [Graph.run]
  | succ t ih =>
    intro g e o hnd hb hx hc hi ho
    rw [graph_run_succ, List.count_append]
    have hlen : g.names.length = g.operators.length := by simp [Graph.names]
    have htick : (Graph.tick s g).2.count x = if x ∈ g.names ∧ (e : Int) < N then 1 else 0 :=
      dispatch_count_full x N g.names _ g e o hnd (by rw [hlen]; exact hb) hx hc hi ho
    obtain ⟨o1, d1, d2, _, d4, d5⟩ := dispatch_counter x N g.names
      (s.budget g.operators.length) g e o hx hc
    have hn : (Graph.tick s g).1.names = g.names := (dispatch_names_eq g.names _ g).1
    have hlen' : (Graph.tick s g).1.operators.length = g.operators.length := by
      have := congrArg List.length hn
      simpa [Graph.names] using this
    have hrec := ih (Graph.tick s g).1 _ o1 (by rw [hn]; exact hnd) (by rw [hlen']; exact hb)
      d1 d2 (d4 hi) (d5 ho)
    have hd : (Graph.dispatch (s.budget g.operators.length) g.names g).2 = (Graph.tick s g).2 :=
      rfl
    rw [hd] at hrec
    rw [hrec, htick]
    have hmem : x ∈ g.names := by
      obtain ⟨hm, hname⟩ := find_mem g x o hx
      exact hname ▸ List.mem_map_of_mem _ hm
    by_cases hlt : (e : Int) < N
    · simp only [hmem, hlt, and_self, if_true]
      push_cast
      omega
    · simp only [hmem, hlt, and_false, if_false]
      have h0 : (N - (e : Int)).toNat = 0 := by omega
      simp [h0]

/-- The executions of an operator of a graph whose only condition of its own
is a `COUNT` condition with bound `N`: never more than `N`; exactly `N` when
the graph is quiescent; and one per iteration up to `N` when the budget of an
iteration reaches every operator. -/
theorem graph_count_bounds (s : Scheduler) (hs : 0 < s.threads) (g : Graph)
    (hnd : g.names.Nodup) (op : OperatorNode) (hop : op ∈ g.operators) (N : Int)
    (hc : op.conditions = [.count N 0]) (t : Nat) :
    (Graph.run s t g).2.count op.name ≤ N.toNat ∧
    (∀ t' : Nat, t ≤ t' → N.toNat ≤ (Graph.run s t g).2.count op.name →
      (Graph.run s t' g).2.count op.name = N.toNat) ∧
    (op.input_conditions = [] → op.output_conditions = [] →
      ((Graph.tick s (Graph.run s t g).1).2 = [] →
        (Graph.run s t g).2.count op.name = N.toNat) ∧
      (g.operators.length ≤ s.budget g.operators.length →
        (Graph.run s t g).2.count op.name = min t N.toNat)) := by
  have hfind := find_of_mem g hnd op hop
  have hbound : ∀ k : Nat, (Graph.run s k g).2.count op.name ≤ N.toNat := by
    intro k
    obtain ⟨_, _, _, a3, _, _⟩ := graph_run_counter s op.name N k g 0 op hfind hc
    omega
  refine ⟨hbound t, ?_, ?_⟩
  · intro t' hle hreached
    obtain ⟨k, rfl⟩ : ∃ k, t' = t + k := ⟨t' - t, by omega⟩
    have hup := hbound (t + k)
    rw [graph_run_add, List.count_append] at hup ⊢
    omega
  · intro hi ho
    refine ⟨?_, ?_⟩
    · intro hq
      obtain ⟨o', a1, a2, a3, a4, a5⟩ := graph_run_counter s op.name N t g 0 op hfind hc
      have hn := (graph_run_names s t g).1
      obtain ⟨hmem, _⟩ := find_mem _ _ _ a1
      have hnr := graph_not_ready_of_names_nil s hs _ (by rw [hn]; exact hnd) hq o' hmem
      rw [countOnly_graph_ready _ o' N _ a2 (a4 hi) (a5 ho)] at hnr
      simp only [decide_eq_false_iff_not, Nat.zero_add] at hnr
      omega
    · intro hb
      have := graph_run_count_full s op.name N t g 0 op hnd hb hfind hc hi ho
      simpa using this

/-- With one worker, an operator without conditions at the head of the
declaration order is the only operator ever executed. -/
theorem starved_by_free_head (x : String) (rest : List String) (t : Nat) :
    ∀ g : Graph, g.names = x :: rest → (∃ o, g.find x = some o ∧ o.free) →
      ∀ y ∈ (Graph.run (.multiThread 1) t g).2, y = x := by
  induction t with
  | zero => intro g _ _ y hy; simp [Graph.run] at hy
  | succ t ih =>
    intro g hn hfree y hy
    obtain ⟨o, ho, hof⟩ := hfree
    have htick : Graph.tick (.multiThread 1) g = (g.execute o, [x]) := by
      unfold Graph.tick
      simp only [Scheduler.budget, hn]
      rw [dispatch_cons, ho]
      simp only [free_ready g o hof, if_true, dispatch_zero]
    rw [graph_run_succ, htick] at hy
    rcases List.mem_append.mp hy with h | h
    · simpa using h
    · exact ih (g.execute o) (by rw [execute_names, hn])
        (find_execute_free g x x o o ho ho hof) y h

theorem replicate_of_count (l : List String) (a : String) (h : ∀ y ∈ l, y = a) :
    l = List.replicate (l.count a) a := by
  have hlen : l.count a = l.length := List.count_eq_length.mpr (fun y hy => (h y hy).symm)
  rw [hlen]
  exact List.eq_replicate_of_mem h

/-- The executions of the only operator of a fragment of ping_distributed, run
as a graph. -/
theorem single_count_run (s : Scheduler) (hs : 0 < s.threads) (op_name : String)
    (N : Int) (t : Nat) :
    (Graph.run s t ⟨[make_operator_DummyOp op_name (make_condition_CountCondition N)], []⟩).2
      = List.replicate (min t N.toNat) op_name := by
  have hb : (1 : Nat) ≤ s.budget 1 := by
    obtain ⟨b, hb⟩ := budget_pos s hs
    omega
  have h := ((graph_count_bounds s hs
    ⟨[make_operator_DummyOp op_name (make_condition_CountCondition N)], []⟩
    (by simp [Graph.names]) (make_operator_DummyOp op_name (make_condition_CountCondition N))
    (List.mem_singleton_self _) N rfl t).2.2 rfl rfl).2 hb
  have hall : ∀ y ∈ (Graph.run s t
      ⟨[make_operator_DummyOp op_name (make_condition_CountCondition N)], []⟩).2,
      y = op_name := by
    intro y hy
    have := (graph_run_names s t _).2.2 y hy
    simpa [Graph.names, make_operator_DummyOp] using this
  have hrep := replicate_of_count _ op_name hall
  rw [hrep]
  congr 1

end Holoscan
